import Mathlib

/-!
Shallow embedding of the `my_malloc` per-thread heap core
(`src/ThreadHeap.cpp`, `SlabConfig.cpp`, `AllocSlab.cpp`,
`MappedSegment.cpp` and their headers), together with proofs about the
properties the specification states for it.

Addresses are modelled as natural numbers (byte addresses).  Machine
`uint16_t` arithmetic is wrapped modulo 2^16 where the source can
overflow.  Sizes of the C structs are the LP64 / Itanium-ABI values,
derived field by field in comments next to each constant.
-/

namespace MyMalloc

/-! ## Constants (from `internal/definitions.hpp`) -/

def PAGE_SIZE : Nat := 4 * 1024

def SEGMENT_SIZE : Nat := 2 * 1024 * 1024

def PAGES_PER_SEGMENT : Nat := SEGMENT_SIZE / PAGE_SIZE

/-- `sizeof(internal::MappedSegment)` on LP64:
`list_node` (two pointers, 16) + `owner_heap_` (8)
+ `page_descriptors_[512]` (each `PageDescriptor` = `uint8` status padded
to 8 plus a pointer = 16 bytes, so 8192) + `total_size_` (8)
+ `next_free_page_idx_` (2, padded to 8).  Total 8232. -/
def segmentHeaderSize : Nat := 8232

/-- Metadata pages of an ordinary segment,
`(sizeof(MappedSegment) + PAGE_SIZE - 1) / PAGE_SIZE` (= 3). -/
def segMetadataPages : Nat := (segmentHeaderSize + PAGE_SIZE - 1) / PAGE_SIZE

/-- `sizeof(internal::LargeSlabHeader)` on LP64: `prev` (8) + `next_` (8)
+ `num_pages_` (`uint16_t`, padded to 8).  Total 24. -/
def largeSlabHeaderSize : Nat := 24

/-- `offsetof(SmallSlabHeader, bitmap)`: `prev_` (8) + `next_` (8)
+ `free_count_` (2) + `slab_class_id_` (2), then `uint64_t bitmap[]`
aligned to 8, hence offset 24. -/
def smallHeaderBaseSize : Nat := 24

def MAX_SMALL_OBJECT_SIZE : Nat := 256 * 1024

def MAX_NUM_SIZE_CLASSES : Nat := 128

/-- `uint16_t` truncation. -/
def u16 (n : Nat) : Nat := n % 65536

/-! ## Size-class table (`SlabConfig.cpp`) -/

/-- One row of the size-class table (`SlabConfigInfo`). -/
structure SlabInfo where
  block_size : Nat
  slab_pages : Nat
  slab_capacity : Nat
  slab_metadata_size : Nat
deriving DecidableEq, Repr

/-- The sizes produced by a C loop
`for (bs = first; bs <= last; bs += step)`. -/
def rangeStep (first last step : Nat) : List Nat :=
  (List.range ((last - first) / step + 1)).map (fun i => first + i * step)

/-- The `(block_size, base_slab_pages)` pairs fed to `add_class` by the
staged loops of the `SlabConfig` constructor. -/
def sizeClassSeeds : List (Nat × Nat) :=
  (rangeStep 8 128 8).map (fun bs => (bs, 4)) ++
  (rangeStep 144 256 16).map (fun bs => (bs, 4)) ++
  (rangeStep 288 512 32).map (fun bs => (bs, 8)) ++
  (rangeStep 576 1024 64).map (fun bs => (bs, 8)) ++
  (rangeStep 1280 4096 256).map (fun bs => (bs, 16)) ++
  (rangeStep 5120 16384 1024).map (fun bs => (bs, 16)) ++
  (rangeStep 20480 65536 4096).map (fun bs => (bs, 32)) ++
  (rangeStep 81920 262144 16384).map (fun bs => (bs, 64))

/-- Phase 2 of the constructor: scan capacities downward from
`slab_total_size / block_size` and keep the first `cap` whose aligned
metadata plus blocks fit in the slab.  Returns `(capacity, metadata)`. -/
def capSearch (blockSize slabTotal : Nat) : Nat → Nat × Nat
  | 0 => (0, 0)
  | c + 1 =>
    let words := (c + 1 + 63) / 64
    let meta := (smallHeaderBaseSize + words * 8 + 7) / 8 * 8
    if meta + (c + 1) * blockSize ≤ slabTotal then (c + 1, meta)
    else capSearch blockSize slabTotal c

/-- `add_class` plus Phase 2 for one seed: clamp `slab_pages` to
`max(base, ceil(8*bs/P))` then to at most 128 pages, and derive
capacity and metadata size. -/
def mkInfo (seed : Nat × Nat) : SlabInfo :=
  let bs := seed.1
  let pages := min (max seed.2 ((bs * 8 + PAGE_SIZE - 1) / PAGE_SIZE)) 128
  let total := pages * PAGE_SIZE
  let cm := capSearch bs total (total / bs)
  ⟨bs, pages, cm.1, cm.2⟩

/-- `slab_class_infos_` (the `take` mirrors the
`num_classes_ >= MAX_NUM_SIZE_CLASSES` guard of `add_class`). -/
def slabClassInfos : List SlabInfo :=
  (sizeClassSeeds.take MAX_NUM_SIZE_CLASSES).map mkInfo

def numClasses : Nat := slabClassInfos.length

def getInfo (i : Nat) : SlabInfo := slabClassInfos.getD i ⟨0, 0, 0, 0⟩

/-- Phase 3 of the constructor: value of `current_class` after the
lookup-table loop has processed sizes `1 .. s`; `size_to_class_map_[s]`
is `classCursor s` (also for `s = 0`, which the constructor special-cases
to class 0). -/
def classCursor : Nat → Nat
  | 0 => 0
  | s + 1 =>
    let c := classCursor s
    if s + 1 > (getInfo c).block_size then c + 1 else c

/-- `SlabConfig::get_size_class_index`; `none` models the `SIZE_MAX`
out-of-small-range sentinel. -/
def get_size_class_index (size : Nat) : Option Nat :=
  if size > MAX_SMALL_OBJECT_SIZE then none else some (classCursor size)

/-! ## Bit-level helpers

`uint64_t` bitmap words are modelled as natural numbers below `2^64`.
`w & ~(1ULL << b)` and `w | (1ULL << b)` are modelled arithmetically;
on any operand they agree with the C bitwise forms. -/

/-- `w & ~(1ULL << b)`. -/
def clearBitW (w b : Nat) : Nat := if Nat.testBit w b then w - 2 ^ b else w

/-- `w | (1ULL << b)`. -/
def setBitW (w b : Nat) : Nat := if Nat.testBit w b then w else w + 2 ^ b

/-- `ffsll(w) - 1`: index of the least set bit of `w` (junk 0 at `w = 0`,
where the source never calls it). -/
def ffsAux : Nat → Nat → Nat
  | 0, _ => 0
  | fuel + 1, w => if w % 2 = 1 then 0 else ffsAux fuel (w / 2) + 1

def ffs (w : Nat) : Nat := if w = 0 then 0 else ffsAux w w

/-! ## Small slabs (`SmallSlabHeader`, `AllocSlab.cpp`)

The in-memory contents of a `SmallSlabHeader`; the intrusive `prev_` /
`next_` cache pointers are modelled by the owning heap's per-class cache
lists.  `bitmap` lists the `uint64_t` words, lowest word first. -/

structure SmallSlabState where
  slab_class_id : Nat
  free_count : Nat
  bitmap : List Nat
deriving DecidableEq, Repr

/-- Bit `i` of the bitmap (1 = block free). -/
def bitGet (bm : List Nat) (i : Nat) : Bool :=
  Nat.testBit (bm.getD (i / 64) 0) (i % 64)

/-- Number of set bitmap bits with index below `cap`. -/
def setBitsBelow (bm : List Nat) : Nat → Nat
  | 0 => 0
  | k + 1 => setBitsBelow bm k + (if bitGet bm k then 1 else 0)

/-- The `SmallSlabHeader(uint16_t)` constructor: all-ones words for the
class capacity, with the excess bits of the last word masked off. -/
def smallSlabInit (class_id : Nat) : SmallSlabState :=
  let cap := (getInfo class_id).slab_capacity
  let words := (cap + 63) / 64
  let bm0 := List.replicate words (2 ^ 64 - 1)
  let rem := cap % 64
  -- `bitmap[words-1] &= (1ULL << rem) - 1`
  let bm := if rem > 0 then bm0.set (words - 1) (2 ^ rem - 1) else bm0
  ⟨class_id, cap, bm⟩

/-- The word-by-word scan of `allocate_block`: find the first non-zero
word, take its lowest set bit, skip it if the global index falls at or
beyond the capacity (`continue`), otherwise clear it.  Returns the block
index and the updated words. -/
def scanWords (cap : Nat) : Nat → List Nat → Option (Nat × List Nat)
  | _, [] => none
  | i, w :: rest =>
    if w = 0 then
      match scanWords cap (i + 1) rest with
      | some r => some (r.1, w :: r.2)
      | none => none
    else
      -- `bit = ffs w`, `idx = 64 * i + bit`
      if cap ≤ 64 * i + ffs w then
        match scanWords cap (i + 1) rest with
        | some r => some (r.1, w :: r.2)
        | none => none
      else some (64 * i + ffs w, clearBitW w (ffs w) :: rest)

/-- `SmallSlabHeader::allocate_block`, returning the chosen block index
(the caller turns it into `base + slab_metadata_size + idx * block_size`)
and the updated header.  `none` models the `nullptr` return. -/
def allocate_block (s : SmallSlabState) : Option Nat × SmallSlabState :=
  if s.free_count = 0 then (none, s)
  else
    match scanWords (getInfo s.slab_class_id).slab_capacity 0 s.bitmap with
    | some r => (some r.1, ⟨s.slab_class_id, s.free_count - 1, r.2⟩)
    | none => (none, s)

/-- `SmallSlabHeader::free_block`, given the block index the source
computes as `(ptr - (this + slab_metadata_size)) / block_size`. -/
def free_block (s : SmallSlabState) (idx : Nat) : SmallSlabState :=
  ⟨s.slab_class_id, s.free_count + 1,
    s.bitmap.set (idx / 64) (setBitW (s.bitmap.getD (idx / 64) 0) (idx % 64))⟩

def SmallSlabState.is_full (s : SmallSlabState) : Prop := s.free_count = 0

def SmallSlabState.is_empty (s : SmallSlabState) : Prop :=
  s.free_count = (getInfo s.slab_class_id).slab_capacity

instance (s : SmallSlabState) : Decidable s.is_full := by
  unfold SmallSlabState.is_full; infer_instance

instance (s : SmallSlabState) : Decidable s.is_empty := by
  unfold SmallSlabState.is_empty; infer_instance

/-- The bitmap invariant of a small slab: word count as built by the
constructor, words that fit in `uint64_t`, `free_count_` equal to the
number of set bits below the capacity, and no set bit at or beyond the
capacity. -/
def SmallInv (s : SmallSlabState) : Prop :=
  s.slab_class_id < numClasses ∧
  s.bitmap.length = ((getInfo s.slab_class_id).slab_capacity + 63) / 64 ∧
  (∀ w ∈ s.bitmap, w < 2 ^ 64) ∧
  s.free_count = setBitsBelow s.bitmap (getInfo s.slab_class_id).slab_capacity ∧
  ∀ i, (getInfo s.slab_class_id).slab_capacity ≤ i →
    i < 64 * s.bitmap.length → bitGet s.bitmap i = false

instance (s : SmallSlabState) : Decidable (SmallInv s) := by
  unfold SmallInv; infer_instance

/-! ## The thread heap (`ThreadHeap.hpp` / `ThreadHeap.cpp`)

State model.  Addresses are byte addresses (`Nat`); `nullptr` is
`Option.none` where a pointer field can be null, and the integer `0`
where the source compares a user pointer against `nullptr`.  Page
descriptors are indexed by global page number (each segment's
`page_descriptors_[i]` is global page `segment/PAGE_SIZE + i`, segments
being `SEGMENT_SIZE`-aligned).  Slab headers written into slab memory
live in `mem`.  The intrusive doubly-linked structures are modelled as
Lean lists: `prepend` is `cons`, and pointer unlinking of a node is
`List.erase` of its address (the two agree whenever each node is linked
at most once, which the well-formedness invariant maintains). -/

inductive PageStatus where
  | FREE
  | METADATA
  | LARGE_SLAB
  | SMALL_SLAB
  | HUGE_SLAB
deriving DecidableEq, Repr

structure PageDescriptor where
  status : PageStatus
  slab_ptr : Option Nat
deriving DecidableEq, Repr

/-- A slab header stored at the first byte of its slab. -/
inductive SlabMem where
  | large (num_pages : Nat)
  | small (s : SmallSlabState)
deriving DecidableEq, Repr

/-- `MappedSegment::get_segment(ptr)` = `ptr & ~(SEGMENT_SIZE - 1)`. -/
def segment_of (ptr : Nat) : Nat := ptr / SEGMENT_SIZE * SEGMENT_SIZE

/-- Global page index of an address. -/
def pageOf (ptr : Nat) : Nat := ptr / PAGE_SIZE

structure Heap where
  pageDesc : Nat → PageDescriptor
  mem : Nat → Option SlabMem
  free_slabs : Nat → List Nat
  slab_caches : Nat → List Nat
  active_segments : List Nat
  huge_segments : List Nat
  seg_length : Nat → Nat

/-- A fresh `ThreadHeap` (empty caches, empty ladder, no segments). -/
def initialHeap : Heap :=
  ⟨fun _ => ⟨.FREE, none⟩, fun _ => none, fun _ => [], fun _ => [], [], [],
    fun _ => 0⟩

/-- `uint16_t` subtraction (used where the source subtracts `uint16_t`
page counts that may underflow). -/
def u16sub (a b : Nat) : Nat := (a + 65536 - b) % 65536

/-- Stamp `n` consecutive page descriptors starting at page `p`. -/
def setPages (f : Nat → PageDescriptor) (p n : Nat) (d : PageDescriptor) :
    Nat → PageDescriptor :=
  match n with
  | 0 => f
  | n + 1 => Function.update (setPages f p n d) (p + n) d

/-- Read `LargeSlabHeader::num_pages_` at `a`.  Reading where no large
header was written is undefined behavior in the source; the model
returns 0. -/
def readLargePages (h : Heap) (a : Nat) : Nat :=
  match h.mem a with
  | some (.large n) => n
  | _ => 0

/-- Read the `SmallSlabHeader` at `a` (garbage default where the source
would have undefined behavior). -/
def readSmall (h : Heap) (a : Nat) : SmallSlabState :=
  match h.mem a with
  | some (.small s) => s
  | _ => ⟨0, 0, []⟩

/-- `MappedSegment::create` plus the `MappedSegment` constructor:
placement-new value-initializes all 512 descriptors to `{FREE, nullptr}`,
then descriptor 0 becomes METADATA with `slab_ptr` holding the integer
`sizeof(MappedSegment)`, and the remaining metadata pages get METADATA
status.  `len` is the recorded `total_size_`. -/
def createSegment (h : Heap) (base len : Nat) : Heap :=
  let f0 := setPages h.pageDesc (pageOf base) PAGES_PER_SEGMENT ⟨.FREE, none⟩
  let f1 := Function.update f0 (pageOf base) ⟨.METADATA, some segmentHeaderSize⟩
  let f2 := setPages f1 (pageOf base + 1) (segMetadataPages - 1) ⟨.METADATA, none⟩
  { h with pageDesc := f2,
           seg_length := Function.update h.seg_length base len }

/-- `ThreadHeap::initialize_as_free_slab`. -/
def initialize_as_free_slab (h : Heap) (slab_ptr num_pages : Nat) : Heap :=
  { h with
    pageDesc := setPages h.pageDesc (pageOf slab_ptr) num_pages
      ⟨.FREE, some slab_ptr⟩,
    mem := Function.update h.mem slab_ptr (some (.large num_pages)) }

/-- `ThreadHeap::prepend_to_freelist`. -/
def prepend_to_freelist (h : Heap) (a : Nat) : Heap :=
  let n := readLargePages h a
  if n = 0 then h
  else { h with free_slabs :=
    Function.update h.free_slabs (n - 1) (a :: h.free_slabs (n - 1)) }

/-- `ThreadHeap::remove_from_freelist` (null guard included). -/
def remove_from_freelist (h : Heap) (a : Option Nat) : Heap :=
  match a with
  | none => h
  | some a =>
    let n := readLargePages h a
    if n = 0 then h
    else { h with free_slabs :=
      Function.update h.free_slabs (n - 1) ((h.free_slabs (n - 1)).erase a) }

/-- `ThreadHeap::split_slab`: keep the first `required` pages, carve the
remainder into a fresh free run and prepend it to its ladder list.  The
`remaining` count is `uint16_t` arithmetic. -/
def split_slab (h : Heap) (a required : Nat) : Nat × Heap :=
  let total := readLargePages h a
  let remaining := u16sub total required
  if remaining > 0 then
    let rem_ptr := a + required * PAGE_SIZE
    let h1 := initialize_as_free_slab h rem_ptr remaining
    (a, prepend_to_freelist h1 rem_ptr)
  else (a, h)

/-- First non-empty ladder list with index at least `i`
(the linear search loop of `acquire_pages`). -/
def findFromAux (fs : Nat → List Nat) : Nat → Nat → Option Nat
  | 0, _ => none
  | d + 1, i =>
    if i < PAGES_PER_SEGMENT then
      if fs i ≠ [] then some i else findFromAux fs d (i + 1)
    else none

def findFrom (fs : Nat → List Nat) (i : Nat) : Option Nat :=
  findFromAux fs (PAGES_PER_SEGMENT - i) i

/-- `ThreadHeap::acquire_pages`.  `os` is the address the OS mapping
collaborator would return for a fresh segment (`none` = mapping failure);
a returned run's descriptors still read FREE — the caller rewrites
them. -/
def acquire_pages (os : Option Nat) (h : Heap) (num_pages : Nat) :
    Option Nat × Heap :=
  if num_pages = 0 ∨ num_pages > PAGES_PER_SEGMENT then (none, h)
  else
    match h.free_slabs (num_pages - 1) with
    | a :: rest =>
      let fs := Function.update h.free_slabs (num_pages - 1) rest
      (some a, { h with free_slabs := fs })
    | [] =>
      match findFrom h.free_slabs num_pages with
      | some i =>
        match h.free_slabs i with
        | a :: rest =>
          let h1 := { h with free_slabs := Function.update h.free_slabs i rest }
          let r := split_slab h1 a num_pages
          (some r.1, r.2)
        | [] => (none, h)
      | none =>
        match os with
        | none => (none, h)
        | some base =>
          let h1 := createSegment h base SEGMENT_SIZE
          let h2 := { h1 with active_segments := base :: h1.active_segments }
          let slab_start := base + segMetadataPages * PAGE_SIZE
          let avail := PAGES_PER_SEGMENT - segMetadataPages
          let h3 := initialize_as_free_slab h2 slab_start avail
          let r := split_slab h3 slab_start num_pages
          -- the source's `ret_slab == nullptr` rollback is dead code:
          -- `split_slab` returns its non-null argument unchanged
          (some r.1, r.2)

/-- `ThreadHeap::allocate_large_slab`: acquire the run, stamp every page
`{LARGE_SLAB, header}`, write the header, return `header + sizeof`. -/
def allocate_large_slab (os : Option Nat) (h : Heap) (num_pages : Nat) :
    Option Nat × Heap :=
  match acquire_pages os h num_pages with
  | (none, h1) => (none, h1)
  | (some header_ptr, h1) =>
    let h2 := { h1 with
      pageDesc := setPages h1.pageDesc (pageOf header_ptr) num_pages
        ⟨.LARGE_SLAB, some header_ptr⟩,
      mem := Function.update h1.mem header_ptr (some (.large num_pages)) }
    (some (header_ptr + largeSlabHeaderSize), h2)

/-- `ThreadHeap::allocate_small_slab`: acquire `slab_pages` pages,
construct the header in place, stamp every page
`{SMALL_SLAB, header}`. -/
def allocate_small_slab (os : Option Nat) (h : Heap) (class_id : Nat) :
    Option Nat × Heap :=
  if (getInfo class_id).slab_pages = 0 then (none, h)
  else
    match acquire_pages os h (getInfo class_id).slab_pages with
    | (none, h1) => (none, h1)
    | (some slab_ptr, h1) =>
      let h2 := { h1 with
        mem := Function.update h1.mem slab_ptr
          (some (.small (smallSlabInit class_id))),
        pageDesc := setPages h1.pageDesc (pageOf slab_ptr)
          (getInfo class_id).slab_pages ⟨.SMALL_SLAB, some slab_ptr⟩ }
      (some slab_ptr, h2)

/-- `available_pages * PAGE_SIZE` from `ThreadHeap::allocate`:
the huge-object threshold. -/
def hugeObjectThreshold : Nat :=
  (PAGES_PER_SEGMENT - segMetadataPages -
    ((largeSlabHeaderSize + PAGE_SIZE - 1) / PAGE_SIZE)) * PAGE_SIZE

/-- The block address handed out by the small path:
`start_of_blocks + idx * block_size` with
`start_of_blocks = header + slab_metadata_size`. -/
def smallBlockAddr (slab : Nat) (class_id idx : Nat) : Nat :=
  slab + (getInfo class_id).slab_metadata_size + idx * (getInfo class_id).block_size

/-- `ThreadHeap::allocate`.  `os` is the base address the OS would hand
out if a segment has to be created during this call (`none` = OOM). -/
def allocate (os : Option Nat) (h : Heap) (size : Nat) : Option Nat × Heap :=
  if size = 0 then (none, h)
  else if size > hugeObjectThreshold then
    match os with
    | none => (none, h)
    | some base =>
      let total_size := (segmentHeaderSize + size + PAGE_SIZE - 1)
        / PAGE_SIZE * PAGE_SIZE
      let h1 := createSegment h base total_size
      let h2 := { h1 with
        pageDesc := Function.update h1.pageDesc (pageOf base)
          ⟨.HUGE_SLAB, (h1.pageDesc (pageOf base)).slab_ptr⟩,
        huge_segments := base :: h1.huge_segments }
      (some (base + segMetadataPages * PAGE_SIZE), h2)
  else if size > MAX_SMALL_OBJECT_SIZE then
    let num_pages := (size + largeSlabHeaderSize + PAGE_SIZE - 1) / PAGE_SIZE
    allocate_large_slab os h (u16 num_pages)
  else
    let class_id := classCursor size
    match h.slab_caches class_id with
    | a :: _ =>
      let s := readSmall h a
      let r := allocate_block s
      let h2 := { h with mem := Function.update h.mem a (some (.small r.2)) }
      let h3 :=
        if r.2.free_count = 0 then
          let sc := Function.update h2.slab_caches class_id
            ((h2.slab_caches class_id).erase a)
          { h2 with slab_caches := sc }
        else h2
      (r.1.map (smallBlockAddr a s.slab_class_id), h3)
    | [] =>
      match allocate_small_slab os h class_id with
      | (none, h1) => (none, h1)
      | (some slab, h1) =>
        let sc1 := Function.update h1.slab_caches class_id
          (slab :: h1.slab_caches class_id)
        let h2 := { h1 with slab_caches := sc1 }
        let s := readSmall h2 slab
        let r := allocate_block s
        let m1 := Function.update h2.mem slab (some (.small r.2))
        let h3 := { h2 with mem := m1 }
        let h4 :=
          if r.2.free_count = 0 then
            let sc := Function.update h3.slab_caches class_id
              ((h3.slab_caches class_id).erase slab)
            { h3 with slab_caches := sc }
          else h3
        (r.1.map (smallBlockAddr slab s.slab_class_id), h4)

/-- `ThreadHeap::release_slab` with boundary coalescing (the page-count
accumulation is `uint16_t` arithmetic). -/
def release_slab (h : Heap) (slab_ptr num_pages : Nat) : Heap :=
  let seg := segment_of slab_ptr
  let seg_end_addr := seg + SEGMENT_SIZE
  let meta_end_addr :=
    seg + (segmentHeaderSize + PAGE_SIZE - 1) / PAGE_SIZE * PAGE_SIZE
  let next_ptr := slab_ptr + num_pages * PAGE_SIZE
  let fwd :=
    if next_ptr < seg_end_addr ∧
        (h.pageDesc (pageOf next_ptr)).status = PageStatus.FREE then
      -- null `slab_ptr` here would be a null dereference in the source;
      -- the model reads address 0
      let nh := (h.pageDesc (pageOf next_ptr)).slab_ptr
      let h1 := remove_from_freelist h nh
      (h1, u16 (num_pages + readLargePages h1 (nh.getD 0)))
    else (h, num_pages)
  let bwd :=
    if slab_ptr > meta_end_addr ∧
        (fwd.1.pageDesc (pageOf (slab_ptr - PAGE_SIZE))).status =
          PageStatus.FREE then
      let ph := (fwd.1.pageDesc (pageOf (slab_ptr - PAGE_SIZE))).slab_ptr
      let h2 := remove_from_freelist fwd.1 ph
      (h2, u16 (fwd.2 + readLargePages h2 (ph.getD 0)), ph.getD 0)
    else (fwd.1, fwd.2, slab_ptr)
  let hf := initialize_as_free_slab bwd.1 bwd.2.2 bwd.2.1
  prepend_to_freelist hf bwd.2.2

/-- `ThreadHeap::free`. -/
def free (h : Heap) (ptr : Nat) : Heap :=
  if ptr = 0 then h
  else
    let seg := segment_of ptr
    if (h.pageDesc (pageOf seg)).status = PageStatus.HUGE_SLAB then
      -- unlink from `huge_segments_` and destroy the mapping
      { h with huge_segments := h.huge_segments.erase seg }
    else
      match (h.pageDesc (pageOf ptr)).slab_ptr with
      | none => h
      | some header_ptr =>
        match (h.pageDesc (pageOf header_ptr)).status with
        | PageStatus.LARGE_SLAB =>
          release_slab h header_ptr (readLargePages h header_ptr)
        | PageStatus.SMALL_SLAB =>
          let s := readSmall h header_ptr
          let info := getInfo s.slab_class_id
          let was_full := s.free_count = 0
          let idx := (ptr - (header_ptr + info.slab_metadata_size))
            / info.block_size
          let s' := free_block s idx
          let m1 := Function.update h.mem header_ptr (some (.small s'))
          let h2 := { h with mem := m1 }
          if s'.free_count = (getInfo s'.slab_class_id).slab_capacity then
            -- empty: unlink from the cache when linked, release the run
            let sc := Function.update h2.slab_caches s.slab_class_id
              ((h2.slab_caches s.slab_class_id).erase header_ptr)
            release_slab { h2 with slab_caches := sc } header_ptr
              info.slab_pages
          else if was_full then
            let sc := Function.update h2.slab_caches s.slab_class_id
              (header_ptr :: h2.slab_caches s.slab_class_id)
            { h2 with slab_caches := sc }
          else h2
        | _ => h

/-! ## Heap well-formedness

The inductive invariant maintained by `allocate` and `free`.  Its ladder
clauses are the free-run invariant of the specification; the remaining
clauses (segment bookkeeping, allocated-slab descriptors, cache shape)
are what make it inductive. -/

/-- The pages `[metaPages, 512)` of segment `b` that address `x` with
`pageOf b + p = pageOf x` style bookkeeping: a run `(a, n)` lies inside
the usable part of active segment `b`. -/
def runInSeg (b a n : Nat) : Prop :=
  b + segMetadataPages * PAGE_SIZE ≤ a ∧
  a + n * PAGE_SIZE ≤ b + SEGMENT_SIZE

/-- Page `q` lies in the in-transition region `[r0, r0 + rn)` (a slab
being carved out of or returned to the ladder). -/
def inR (r0 rn q : Nat) : Prop := r0 ≤ q ∧ q < r0 + rn

instance (r0 rn q : Nat) : Decidable (inR r0 rn q) := by
  unfold inR; infer_instance

/-- Heap well-formedness, parameterized by an exempt page region: with
an empty region (`rn = 0`) this is the steady-state invariant; with the
region of the slab currently being carved or released it is what holds
between an `acquire_pages`/`release_slab` and the caller's descriptor
rewrite. -/
structure WFr (h : Heap) (r0 rn : Nat) : Prop where
  active_nodup : h.active_segments.Nodup
  active_aligned : ∀ b ∈ h.active_segments, b % SEGMENT_SIZE = 0
  active_meta : ∀ b ∈ h.active_segments, ∀ p, p < segMetadataPages →
    (h.pageDesc (pageOf b + p)).status = PageStatus.METADATA
  huge_nodup : h.huge_segments.Nodup
  huge_aligned : ∀ b ∈ h.huge_segments, b % SEGMENT_SIZE = 0
  huge_desc : ∀ b ∈ h.huge_segments,
    (h.pageDesc (pageOf b)).status = PageStatus.HUGE_SLAB
  active_not_huge : ∀ b ∈ h.active_segments, b ∉ h.huge_segments
  ladder_top : ∀ i, PAGES_PER_SEGMENT ≤ i → h.free_slabs i = []
  ladder_mem : ∀ i a, a ∈ h.free_slabs i →
    h.mem a = some (SlabMem.large (i + 1)) ∧ a % PAGE_SIZE = 0 ∧
    ∃ b ∈ h.active_segments, runInSeg b a (i + 1)
  ladder_desc : ∀ i a, a ∈ h.free_slabs i → ∀ k, k < i + 1 →
    h.pageDesc (pageOf a + k) = ⟨PageStatus.FREE, some a⟩
  ladder_outR : ∀ i a, a ∈ h.free_slabs i → ∀ k, k < i + 1 →
    ¬ inR r0 rn (pageOf a + k)
  ladder_nodup : ∀ i, (h.free_slabs i).Nodup
  ladder_once : ∀ i j a, a ∈ h.free_slabs i → a ∈ h.free_slabs j → i = j
  ladder_next : ∀ i a, a ∈ h.free_slabs i →
    a + (i + 1) * PAGE_SIZE < segment_of a + SEGMENT_SIZE →
    (h.pageDesc (pageOf a + (i + 1))).status ≠ PageStatus.FREE ∨
      inR r0 rn (pageOf a + (i + 1))
  ladder_prev : ∀ i a, a ∈ h.free_slabs i →
    segment_of a + segMetadataPages * PAGE_SIZE < a →
    (h.pageDesc (pageOf a - 1)).status ≠ PageStatus.FREE ∨
      inR r0 rn (pageOf a - 1)
  free_complete : ∀ b ∈ h.active_segments, ∀ p, segMetadataPages ≤ p →
    p < PAGES_PER_SEGMENT →
    (h.pageDesc (pageOf b + p)).status = PageStatus.FREE →
    ¬ inR r0 rn (pageOf b + p) →
    ∃ i a, a ∈ h.free_slabs i ∧ pageOf a ≤ pageOf b + p ∧
      pageOf b + p < pageOf a + (i + 1)
  large_wf : ∀ q, (h.pageDesc q).status = PageStatus.LARGE_SLAB →
    ¬ inR r0 rn q →
    ∃ a n, (h.pageDesc q).slab_ptr = some a ∧
      h.mem a = some (SlabMem.large n) ∧ a % PAGE_SIZE = 0 ∧ 1 ≤ n ∧
      pageOf a ≤ q ∧ q < pageOf a + n ∧
      (∀ k, k < n →
        h.pageDesc (pageOf a + k) = ⟨PageStatus.LARGE_SLAB, some a⟩ ∧
        ¬ inR r0 rn (pageOf a + k)) ∧
      ∃ b ∈ h.active_segments, runInSeg b a n
  small_wf : ∀ q, (h.pageDesc q).status = PageStatus.SMALL_SLAB →
    ¬ inR r0 rn q →
    ∃ a s, (h.pageDesc q).slab_ptr = some a ∧
      h.mem a = some (SlabMem.small s) ∧ a % PAGE_SIZE = 0 ∧
      SmallInv s ∧
      s.free_count < (getInfo s.slab_class_id).slab_capacity ∧
      (0 < s.free_count ↔ a ∈ h.slab_caches s.slab_class_id) ∧
      pageOf a ≤ q ∧ q < pageOf a + (getInfo s.slab_class_id).slab_pages ∧
      (∀ k, k < (getInfo s.slab_class_id).slab_pages →
        h.pageDesc (pageOf a + k) = ⟨PageStatus.SMALL_SLAB, some a⟩ ∧
        ¬ inR r0 rn (pageOf a + k)) ∧
      ∃ b ∈ h.active_segments, runInSeg b a (getInfo s.slab_class_id).slab_pages
  cache_nodup : ∀ c, (h.slab_caches c).Nodup
  cache_wf : ∀ c, ∀ a ∈ h.slab_caches c,
    (h.pageDesc (pageOf a)).status = PageStatus.SMALL_SLAB ∧
    (h.pageDesc (pageOf a)).slab_ptr = some a ∧
    ∃ s, h.mem a = some (SlabMem.small s) ∧ s.slab_class_id = c

/-- Steady-state well-formedness: no in-transition region. -/
def WF (h : Heap) : Prop := WFr h 0 0

/-- The OS hands segments out at aligned addresses the heap does not
already manage. -/
def FreshSeg (h : Heap) (base : Nat) : Prop :=
  base % SEGMENT_SIZE = 0 ∧ base ∉ h.active_segments ∧
  base ∉ h.huge_segments

def FreshOS (h : Heap) (os : Option Nat) : Prop :=
  ∀ b, os = some b → FreshSeg h b

/-- A small-slab block pointer the source's `free_block` asserts accept:
it names a currently allocated block of the slab. -/
def SmallFreeArg (h : Heap) (p : Nat) : Prop :=
  ∃ a s, (h.pageDesc (pageOf p)).status = PageStatus.SMALL_SLAB ∧
    (h.pageDesc (pageOf p)).slab_ptr = some a ∧
    h.mem a = some (SlabMem.small s) ∧
    segment_of p ∈ h.active_segments ∧
    ∃ idx, idx < (getInfo s.slab_class_id).slab_capacity ∧
      p = smallBlockAddr a s.slab_class_id idx ∧
      bitGet s.bitmap idx = false

/-- The `free` arguments for which the source has defined behavior:
null, a pointer into a huge segment, a pointer into a live large slab, a
live small block, or a stale pointer to an already-free page. -/
def ValidFreeArg (h : Heap) (p : Nat) : Prop :=
  p = 0 ∨
  segment_of p ∈ h.huge_segments ∨
  ((h.pageDesc (pageOf p)).status = PageStatus.LARGE_SLAB ∧
    segment_of p ∈ h.active_segments) ∨
  SmallFreeArg h p ∨
  ((h.pageDesc (pageOf p)).status = PageStatus.FREE ∧
    segment_of p ∈ h.active_segments ∧ segMetadataPages ≤ pageOf p - pageOf (segment_of p))

/-- The heap state built by `acquire_pages`' fresh-segment path just
before the final `split_slab`: `MappedSegment::create`, the link into
`active_segments_`, and `initialize_as_free_slab` over the usable
pages. -/
def freshSlabHeap (h : Heap) (base : Nat) : Heap :=
  initialize_as_free_slab
    { createSegment h base SEGMENT_SIZE with
      active_segments := base :: h.active_segments }
    (base + segMetadataPages * PAGE_SIZE)
    (PAGES_PER_SEGMENT - segMetadataPages)

/-! ## The specified properties -/

/-- The specification's free-run ladder invariant: every ladder entry of
list `i` is a run of `i + 1` pages whose header records `i + 1` pages and
whose descriptors are all FREE and point back at the run start; a run is
in one list only and each list holds it at most once; and no free run has
a FREE neighbor page (so no two free runs are adjacent). -/
def LadderInv (h : Heap) : Prop :=
  (∀ i a, a ∈ h.free_slabs i →
    h.mem a = some (SlabMem.large (i + 1)) ∧
    ∀ k, k < i + 1 →
      h.pageDesc (pageOf a + k) = ⟨PageStatus.FREE, some a⟩) ∧
  (∀ i, (h.free_slabs i).Nodup) ∧
  (∀ i j a, a ∈ h.free_slabs i → a ∈ h.free_slabs j → i = j) ∧
  (∀ i a, a ∈ h.free_slabs i →
    a + (i + 1) * PAGE_SIZE < segment_of a + SEGMENT_SIZE →
    (h.pageDesc (pageOf a + (i + 1))).status ≠ PageStatus.FREE) ∧
  (∀ i a, a ∈ h.free_slabs i →
    segment_of a + segMetadataPages * PAGE_SIZE < a →
    (h.pageDesc (pageOf a - 1)).status ≠ PageStatus.FREE)

/-- Every slab linked in a class cache still has free blocks, so
`allocate_block` on it succeeds. -/
def CachesPartial (h : Heap) : Prop :=
  ∀ c a, a ∈ h.slab_caches c → ∃ s,
    h.mem a = some (SlabMem.small s) ∧ 0 < s.free_count ∧
    (allocate_block s).1.isSome = true

/-- A concrete heap holding one live large slab (65 pages at
`SEGMENT_SIZE + 3 * PAGE_SIZE`, carved from a fresh segment mapped at
`SEGMENT_SIZE`). -/
def largeDemoHeap : Heap :=
  (allocate (some SEGMENT_SIZE) initialHeap 262145).2

/-! ## Lemmas and theorems -/

/-! ### Facts about the size-class table -/

lemma numClasses_eq : numClasses = 88 := by decide

lemma blockSize_succ_lt :
    ∀ i, i < 87 → (getInfo i).block_size < (getInfo (i + 1)).block_size := by
  decide

lemma blockSize_zero : (getInfo 0).block_size = 8 := by decide

lemma blockSize_last : (getInfo 87).block_size = 262144 := by decide

lemma slab_capacity_pos : ∀ i, i < 88 → 0 < (getInfo i).slab_capacity := by
  decide

lemma blockSize_lt_of_lt : ∀ i, i ≤ 87 → ∀ j, j < i →
    (getInfo j).block_size < (getInfo i).block_size := by
  intro i
  induction i with
  | zero => intro _ j hj; omega
  | succ k ih =>
    intro hk j hj
    rcases Nat.lt_succ_iff_lt_or_eq.mp hj with h | h
    · exact (ih (by omega) j h).trans (blockSize_succ_lt k (by omega))
    · subst h; exact blockSize_succ_lt j (by omega)

/-- Inductive characterization of the lookup-table loop: after processing
sizes `1..s` the cursor names the least class whose `block_size` is at
least `s`. -/
lemma classCursor_spec : ∀ s, 1 ≤ s → s ≤ 262144 →
    classCursor s ≤ 87 ∧ s ≤ (getInfo (classCursor s)).block_size ∧
      ∀ j, j < classCursor s → (getInfo j).block_size < s := by
  intro s
  induction s with
  | zero => omega
  | succ n ih =>
    intro _ hle
    by_cases hn : n = 0
    · subst hn
      have h1 : classCursor 1 = 0 := by decide
      rw [h1]
      refine ⟨by omega, ?_, by omega⟩
      rw [blockSize_zero]; omega
    · obtain ⟨hc87, hcge, hclt⟩ := ih (by omega) (by omega)
      have hcc : classCursor (n + 1) =
          (if n + 1 > (getInfo (classCursor n)).block_size
            then classCursor n + 1 else classCursor n) := rfl
      by_cases hstep : n + 1 > (getInfo (classCursor n)).block_size
      · have hbs : (getInfo (classCursor n)).block_size = n := by omega
        have hne : classCursor n ≠ 87 := by
          intro h; rw [h, blockSize_last] at hbs; omega
        have hlt87 : classCursor n < 87 := by omega
        rw [hcc, if_pos hstep]
        refine ⟨by omega, ?_, ?_⟩
        · have := blockSize_succ_lt (classCursor n) hlt87
          omega
        · intro j hj
          rcases Nat.lt_succ_iff_lt_or_eq.mp hj with h | h
          · have := hclt j h; omega
          · subst h; omega
      · rw [hcc, if_neg hstep]
        refine ⟨hc87, by omega, ?_⟩
        intro j hj
        have := hclt j hj; omega

lemma ffsAux_spec : ∀ fuel w, w ≠ 0 → w ≤ fuel →
    Nat.testBit w (ffsAux fuel w) = true ∧
    ∀ j, j < ffsAux fuel w → Nat.testBit w j = false := by
  intro fuel
  induction fuel with
  | zero =>
    intro w hw hle
    omega
  | succ f ih =>
    intro w hw hle
    rw [ffsAux]
    by_cases hodd : w % 2 = 1
    · rw [if_pos hodd]
      refine ⟨?_, by omega⟩
      rw [Nat.testBit_zero]; simpa using hodd
    · rw [if_neg hodd]
      have hhalf : w / 2 ≠ 0 := by omega
      obtain ⟨h1, h2⟩ := ih (w / 2) hhalf (by omega)
      refine ⟨?_, ?_⟩
      · rw [Nat.testBit_succ]; exact h1
      · intro j hj
        match j with
        | 0 => rw [Nat.testBit_zero]; simpa using hodd
        | k + 1 => rw [Nat.testBit_succ]; exact h2 k (by omega)

lemma ffs_spec : ∀ w, w ≠ 0 →
    Nat.testBit w (ffs w) = true ∧ ∀ j, j < ffs w → Nat.testBit w j = false := by
  intro w hw
  rw [ffs, if_neg hw]
  exact ffsAux_spec w w hw (Nat.le_refl w)

/-- `testBit` through a base-`2^b` decomposition. -/
lemma testBit_mul_pow_add (q r b j : Nat) (hr : r < 2 ^ b) :
    Nat.testBit (q * 2 ^ b + r) j =
      if j < b then Nat.testBit r j else Nat.testBit q (j - b) := by
  by_cases hj : j < b
  · rw [if_pos hj, Nat.testBit_to_div_mod, Nat.testBit_to_div_mod]
    have hb : q * 2 ^ b = 2 ^ j * (q * 2 ^ (b - j)) := by
      rw [Nat.mul_comm (2 ^ j), Nat.mul_assoc, ← pow_add]
      congr 2
      omega
    have hdiv : (q * 2 ^ b + r) / 2 ^ j = q * 2 ^ (b - j) + r / 2 ^ j := by
      rw [hb, Nat.mul_add_div (by positivity)]
    have hy : q * 2 ^ (b - j) = 2 * (q * 2 ^ (b - j - 1)) := by
      rw [Nat.mul_left_comm]
      congr 1
      rw [← pow_succ']
      congr 1
      omega
    rw [hdiv, hy, Nat.mul_add_mod]
  · rw [if_neg hj, Nat.testBit_to_div_mod, Nat.testBit_to_div_mod]
    have h1 : (q * 2 ^ b + r) / 2 ^ b = q := by
      rw [Nat.mul_comm, Nat.mul_add_div (by positivity), Nat.div_eq_of_lt hr,
        Nat.add_zero]
    have h2 : (q * 2 ^ b + r) / 2 ^ j = q / 2 ^ (j - b) := by
      rw [show (2:Nat) ^ j = 2 ^ b * 2 ^ (j - b) by rw [← pow_add]; congr 1; omega,
        ← Nat.div_div_eq_div_mul, h1]
    rw [h2]

/-- Bit `b` of `w` read off the residue modulo `2^(b+1)`. -/
lemma mod_two_pow_succ_of_testBit (w b : Nat) :
    (Nat.testBit w b = true → 2 ^ b ≤ w % 2 ^ (b + 1)) ∧
    (Nat.testBit w b = false → w % 2 ^ (b + 1) < 2 ^ b) := by
  have hdiv : w % 2 ^ (b + 1) / 2 ^ b = w / 2 ^ b % 2 := by
    have hp : (2:Nat) ^ (b + 1) = 2 ^ b * 2 := by rw [pow_succ]
    rw [hp, Nat.mod_mul_right_div_self]
  have hbit := Nat.testBit_to_div_mod (i := b) (x := w)
  have hpos : 0 < (2:Nat) ^ b := Nat.pos_pow_of_pos _ (by omega)
  constructor
  · intro h
    rw [h] at hbit
    have h1 : w / 2 ^ b % 2 = 1 := by
      have := hbit.symm; simpa using this
    have : 1 ≤ w % 2 ^ (b + 1) / 2 ^ b := by omega
    calc 2 ^ b = 1 * 2 ^ b := by omega
    _ ≤ w % 2 ^ (b + 1) / 2 ^ b * 2 ^ b := by
        exact Nat.mul_le_mul_right _ this
    _ ≤ w % 2 ^ (b + 1) := Nat.div_mul_le_self _ _
  · intro h
    rw [h] at hbit
    have h1 : w / 2 ^ b % 2 = 0 := by
      have := hbit.symm; simpa using this
    have h2 : w % 2 ^ (b + 1) / 2 ^ b = 0 := by omega
    have := (Nat.div_eq_zero_iff hpos).mp h2
    exact this

lemma testBit_setBitW (w b j : Nat) (h : Nat.testBit w b = false) :
    Nat.testBit (setBitW w b) j = if j = b then true else Nat.testBit w j := by
  rw [setBitW, if_neg (by simp [h])]
  have hwdecomp : w = w / 2 ^ (b + 1) * 2 ^ (b + 1) + w % 2 ^ (b + 1) := by
    conv_lhs => rw [← Nat.div_add_mod w (2 ^ (b + 1))]
    rw [Nat.mul_comm]
  have hmlt : w % 2 ^ (b + 1) < 2 ^ b := (mod_two_pow_succ_of_testBit w b).2 h
  have hpow : (2:Nat) ^ (b + 1) = 2 ^ b + 2 ^ b := by rw [pow_succ]; omega
  have hsum : w + 2 ^ b =
      w / 2 ^ (b + 1) * 2 ^ (b + 1) + (2 ^ b + w % 2 ^ (b + 1)) := by omega
  rw [hsum, testBit_mul_pow_add _ _ _ _ (by omega)]
  by_cases hj : j < b + 1
  · rw [if_pos hj]
    have h2b : (2:Nat) ^ b + w % 2 ^ (b + 1) = 1 * 2 ^ b + w % 2 ^ (b + 1) := by
      omega
    rw [h2b, testBit_mul_pow_add _ _ _ _ hmlt]
    by_cases hjb : j < b
    · rw [if_pos hjb, if_neg (by omega)]
      conv_rhs => rw [hwdecomp]
      rw [testBit_mul_pow_add _ _ _ _ (Nat.mod_lt _ (by positivity)), if_pos hj,
        Nat.testBit_mod_two_pow]
    · have hjb' : j = b := by omega
      subst hjb'
      rw [if_neg (by omega), if_pos rfl, Nat.sub_self, Nat.testBit_zero]
      rfl
  · rw [if_neg hj, if_neg (by omega)]
    conv_rhs => rw [hwdecomp]
    rw [testBit_mul_pow_add _ _ _ _ (Nat.mod_lt _ (by positivity)), if_neg hj]

lemma testBit_clearBitW (w b j : Nat) (h : Nat.testBit w b = true) :
    Nat.testBit (clearBitW w b) j = if j = b then false else Nat.testBit w j := by
  rw [clearBitW, if_pos h]
  have hwdecomp : w = w / 2 ^ (b + 1) * 2 ^ (b + 1) + w % 2 ^ (b + 1) := by
    conv_lhs => rw [← Nat.div_add_mod w (2 ^ (b + 1))]
    rw [Nat.mul_comm]
  have hmge : 2 ^ b ≤ w % 2 ^ (b + 1) := (mod_two_pow_succ_of_testBit w b).1 h
  have hmlt : w % 2 ^ (b + 1) < 2 ^ (b + 1) := Nat.mod_lt _ (by positivity)
  have hpow : (2:Nat) ^ (b + 1) = 2 ^ b + 2 ^ b := by rw [pow_succ]; omega
  have hsub : w - 2 ^ b =
      w / 2 ^ (b + 1) * 2 ^ (b + 1) + (w % 2 ^ (b + 1) - 2 ^ b) := by omega
  rw [hsub, testBit_mul_pow_add _ _ _ _ (by omega)]
  by_cases hj : j < b + 1
  · rw [if_pos hj]
    by_cases hjb : j < b
    · rw [if_neg (by omega)]
      conv_rhs => rw [hwdecomp]
      rw [testBit_mul_pow_add _ _ _ _ (by omega), if_pos hj]
      have hm : w % 2 ^ (b + 1) = 1 * 2 ^ b + (w % 2 ^ (b + 1) - 2 ^ b) := by
        omega
      conv_rhs => rw [hm]
      rw [testBit_mul_pow_add _ _ _ _ (by omega), if_pos hjb]
    · have hjb' : j = b := by omega
      subst hjb'
      rw [if_pos rfl]
      exact Nat.testBit_eq_false_of_lt (by omega)
  · rw [if_neg hj, if_neg (by omega)]
    conv_rhs => rw [hwdecomp]
    rw [testBit_mul_pow_add _ _ _ _ (by omega), if_neg hj]

/-! ### Bitmap bookkeeping lemmas -/

lemma getD_set_zero (l : List Nat) (i v j : Nat) :
    (l.set i v).getD j 0 = if i = j ∧ i < l.length then v else l.getD j 0 := by
  rw [List.getD_eq_getElem?_getD, List.getD_eq_getElem?_getD, List.getElem?_set]
  by_cases h1 : i = j
  · subst h1
    by_cases h2 : i < l.length
    · simp [h2]
    · simp [h2, List.getElem?_eq_none (Nat.le_of_not_lt h2)]
  · simp [h1]

lemma getD_replicate_zero (n a m : Nat) :
    (List.replicate n a).getD m 0 = if m < n then a else 0 := by
  rw [List.getD_eq_getElem?_getD, List.getElem?_replicate]
  by_cases h : m < n <;> simp [h]

lemma testBit_true_lt (w b : Nat) (hw : w < 2 ^ 64)
    (h : Nat.testBit w b = true) : b < 64 := by
  by_contra hb
  have : w < 2 ^ b := lt_of_lt_of_le hw (Nat.pow_le_pow_right (by omega) (by omega))
  rw [Nat.testBit_eq_false_of_lt this] at h
  exact absurd h (by simp)

lemma bitGet_beyond (bm : List Nat) (i : Nat) (h : 64 * bm.length ≤ i) :
    bitGet bm i = false := by
  rw [bitGet]
  have : bm.length ≤ i / 64 := by
    rw [Nat.le_div_iff_mul_le (by omega)]; omega
  rw [List.getD_eq_getElem?_getD, List.getElem?_eq_none (by omega)]
  simp

lemma bitGet_set_word (bm : List Nat) (k w' j : Nat) (hk : k < bm.length) :
    bitGet (bm.set k w') j =
      if j / 64 = k then Nat.testBit w' (j % 64) else bitGet bm j := by
  rw [bitGet, bitGet, getD_set_zero]
  by_cases h : j / 64 = k
  · rw [if_pos (by omega), if_pos h]
  · rw [if_neg (by intro hh; exact h hh.1.symm), if_neg h]

lemma setBitsBelow_congr (bm bm' : List Nat) :
    ∀ cap, (∀ k, k < cap → bitGet bm' k = bitGet bm k) →
      setBitsBelow bm' cap = setBitsBelow bm cap := by
  intro cap
  induction cap with
  | zero => intro _; rfl
  | succ m ih =>
    intro h
    rw [setBitsBelow, setBitsBelow, ih (fun k hk => h k (by omega)),
      h m (by omega)]

lemma setBitsBelow_all_true (bm : List Nat) :
    ∀ cap, (∀ k, k < cap → bitGet bm k = true) →
      setBitsBelow bm cap = cap := by
  intro cap
  induction cap with
  | zero => intro _; rfl
  | succ m ih =>
    intro h
    rw [setBitsBelow, ih (fun k hk => h k (by omega)), h m (by omega)]
    simp

/-- Flipping one set bit below the capacity to clear drops the count by
one (and, read with the bitmaps swapped, setting one clear bit raises it
by one). -/
lemma setBitsBelow_update (bm bm' : List Nat) (idx : Nat)
    (hpt : ∀ k, k ≠ idx → bitGet bm' k = bitGet bm k)
    (hold : bitGet bm idx = true) (hnew : bitGet bm' idx = false) :
    ∀ cap, idx < cap → setBitsBelow bm' cap + 1 = setBitsBelow bm cap := by
  intro cap
  induction cap with
  | zero => omega
  | succ m ih =>
    intro hidx
    rw [setBitsBelow, setBitsBelow]
    by_cases h : idx = m
    · have hold' : bitGet bm m = true := by rw [← h]; exact hold
      have hnew' : bitGet bm' m = false := by rw [← h]; exact hnew
      rw [setBitsBelow_congr bm bm' m (fun k hk => hpt k (by omega)),
        hold', hnew']
      simp
    · rw [hpt m (by omega)]
      have := ih (by omega)
      omega

lemma setBitsBelow_pos (bm : List Nat) :
    ∀ cap, 0 < setBitsBelow bm cap → ∃ k, k < cap ∧ bitGet bm k = true := by
  intro cap
  induction cap with
  | zero => intro h; exact absurd h (by simp [setBitsBelow])
  | succ m ih =>
    intro h
    rw [setBitsBelow] at h
    by_cases hb : bitGet bm m = true
    · exact ⟨m, by omega, hb⟩
    · obtain ⟨k, hk, hbk⟩ := ih (by rw [Bool.not_eq_true] at hb; simp [hb] at h; omega)
      exact ⟨k, by omega, hbk⟩

lemma clearBitW_le (w b : Nat) : clearBitW w b ≤ w := by
  rw [clearBitW]; split
  · exact Nat.sub_le _ _
  · exact Nat.le_refl _

lemma setBitW_lt (w b : Nat) (hw : w < 2 ^ 64) (hb : b < 64)
    (h : Nat.testBit w b = false) : setBitW w b < 2 ^ 64 := by
  rw [setBitW, if_neg (by simp [h])]
  have hdecomp : w = w / 2 ^ (b + 1) * 2 ^ (b + 1) + w % 2 ^ (b + 1) := by
    conv_lhs => rw [← Nat.div_add_mod w (2 ^ (b + 1))]
    rw [Nat.mul_comm]
  have hmlt : w % 2 ^ (b + 1) < 2 ^ b := (mod_two_pow_succ_of_testBit w b).2 h
  have hpow : (2:Nat) ^ (b + 1) = 2 ^ b + 2 ^ b := by rw [pow_succ]; omega
  have hq : w / 2 ^ (b + 1) < 2 ^ (63 - b) := by
    apply Nat.div_lt_of_lt_mul
    calc w < 2 ^ 64 := hw
    _ = 2 ^ (b + 1) * 2 ^ (63 - b) := by rw [← pow_add]; congr 1; omega
  calc w + 2 ^ b
      = w / 2 ^ (b + 1) * 2 ^ (b + 1) + (w % 2 ^ (b + 1) + 2 ^ b) := by omega
  _ < w / 2 ^ (b + 1) * 2 ^ (b + 1) + 2 ^ (b + 1) := by omega
  _ = (w / 2 ^ (b + 1) + 1) * 2 ^ (b + 1) := by ring
  _ ≤ 2 ^ (63 - b) * 2 ^ (b + 1) := Nat.mul_le_mul_right _ (by omega)
  _ = 2 ^ 64 := by rw [← pow_add]; congr 1; omega

/-- Every bit of the freshly constructed bitmap below the capacity is
set, and every later bit is clear. -/
lemma bitGet_smallSlabInit (c i : Nat) :
    bitGet (smallSlabInit c).bitmap i =
      decide (i < (getInfo c).slab_capacity) := by
  simp only [smallSlabInit, bitGet]
  by_cases hrem : (getInfo c).slab_capacity % 64 > 0
  · rw [if_pos hrem]
    have hw1 : 1 ≤ ((getInfo c).slab_capacity + 63) / 64 := by omega
    have hlen : (List.replicate (((getInfo c).slab_capacity + 63) / 64)
        ((2:Nat) ^ 64 - 1)).length = ((getInfo c).slab_capacity + 63) / 64 := by
      simp
    rw [getD_set_zero]
    by_cases hk : (((getInfo c).slab_capacity + 63) / 64 - 1 = i / 64) ∧
        ((getInfo c).slab_capacity + 63) / 64 - 1 <
          (List.replicate (((getInfo c).slab_capacity + 63) / 64)
            ((2:Nat) ^ 64 - 1)).length
    · rw [if_pos hk, Nat.testBit_two_pow_sub_one]
      have := hk.1
      by_cases hlt : i < (getInfo c).slab_capacity <;> simp [hlt] <;> omega
    · rw [if_neg hk, getD_replicate_zero]
      rw [hlen] at hk
      by_cases hin : i / 64 < ((getInfo c).slab_capacity + 63) / 64
      · rw [if_pos hin]
        have hk' : ¬(((getInfo c).slab_capacity + 63) / 64 - 1 = i / 64) := by
          intro h; exact hk ⟨h, by omega⟩
        rw [Nat.testBit_two_pow_sub_one]
        by_cases hlt : i < (getInfo c).slab_capacity <;> simp [hlt] <;> omega
      · rw [if_neg hin]
        have : ¬(i < (getInfo c).slab_capacity) := by omega
        simp [this]
  · rw [if_neg hrem, getD_replicate_zero]
    by_cases hin : i / 64 < ((getInfo c).slab_capacity + 63) / 64
    · rw [if_pos hin, Nat.testBit_two_pow_sub_one]
      by_cases hlt : i < (getInfo c).slab_capacity <;> simp [hlt] <;> omega
    · rw [if_neg hin]
      have : ¬(i < (getInfo c).slab_capacity) := by omega
      simp [this]

lemma smallSlabInit_inv (c : Nat) (hc : c < numClasses) :
    SmallInv (smallSlabInit c) ∧
    (smallSlabInit c).free_count = (getInfo c).slab_capacity ∧
    (smallSlabInit c).slab_class_id = c := by
  have hclass : (smallSlabInit c).slab_class_id = c := rfl
  have hfc : (smallSlabInit c).free_count = (getInfo c).slab_capacity := rfl
  have hlen : (smallSlabInit c).bitmap.length =
      ((getInfo c).slab_capacity + 63) / 64 := by
    simp only [smallSlabInit]
    split <;> simp
  refine ⟨⟨by rw [hclass]; exact hc, by rw [hclass]; exact hlen, ?_, ?_, ?_⟩,
    hfc, hclass⟩
  · intro w hw
    have hmem : w = 2 ^ 64 - 1 ∨
        w = 2 ^ ((getInfo c).slab_capacity % 64) - 1 := by
      simp only [smallSlabInit] at hw
      by_cases hrem : (getInfo c).slab_capacity % 64 > 0
      · rw [if_pos hrem] at hw
        rcases List.mem_or_eq_of_mem_set hw with h | h
        · exact Or.inl (List.eq_of_mem_replicate h)
        · exact Or.inr h
      · rw [if_neg hrem] at hw
        exact Or.inl (List.eq_of_mem_replicate hw)
    have hle : (2:Nat) ^ ((getInfo c).slab_capacity % 64) ≤ 2 ^ 64 :=
      Nat.pow_le_pow_right (by omega) (by omega)
    have hpos : 0 < (2:Nat) ^ 64 := by positivity
    rcases hmem with h | h <;> omega
  · rw [hfc, hclass]
    rw [setBitsBelow_all_true]
    intro k hk
    rw [bitGet_smallSlabInit]
    simp [hk]
  · intro i hcap hi
    rw [hclass] at hcap
    rw [bitGet_smallSlabInit]
    simp
    omega

/-- Characterization of a successful bitmap scan: some word `k` is
non-zero, its lowest set bit gives a block index below the capacity, and
exactly that bit is cleared in the returned words. -/
lemma scanWords_eq_some (cap : Nat) :
    ∀ (bm : List Nat) (i idx : Nat) (bm' : List Nat),
      scanWords cap i bm = some (idx, bm') →
      ∃ k, k < bm.length ∧ bm.getD k 0 ≠ 0 ∧
        idx = 64 * (i + k) + ffs (bm.getD k 0) ∧ idx < cap ∧
        bm' = bm.set k (clearBitW (bm.getD k 0) (ffs (bm.getD k 0))) := by
  intro bm
  induction bm with
  | nil => intro i idx bm' h; exact absurd h (by simp [scanWords])
  | cons w rest ih =>
    intro i idx bm' h
    rw [scanWords] at h
    by_cases hw : w = 0
    · rw [if_pos hw] at h
      cases hrec : scanWords cap (i + 1) rest with
      | none => rw [hrec] at h; exact absurd h (by simp)
      | some r =>
        rw [hrec] at h
        have h1 : r.1 = idx ∧ w :: r.2 = bm' := by
          constructor <;> [exact congrArg (·.1) (Option.some.inj h);
            exact congrArg (·.2) (Option.some.inj h)]
        obtain ⟨k, hk, hne, hidx, hlt, hset⟩ :=
          ih (i + 1) r.1 r.2 (by rw [hrec])
        refine ⟨k + 1, by simpa using Nat.succ_lt_succ hk, ?_, ?_, ?_, ?_⟩
        · simpa using hne
        · have hgd : (w :: rest).getD (k + 1) 0 = rest.getD k 0 := rfl
          rw [← h1.1, hidx, hgd]
          ring
        · omega
        · rw [← h1.2, hset]; rfl
    · rw [if_neg hw] at h
      by_cases hge : cap ≤ 64 * i + ffs w
      · rw [if_pos hge] at h
        cases hrec : scanWords cap (i + 1) rest with
        | none => rw [hrec] at h; exact absurd h (by simp)
        | some r =>
          rw [hrec] at h
          have h1 : r.1 = idx ∧ w :: r.2 = bm' := by
            constructor <;> [exact congrArg (·.1) (Option.some.inj h);
              exact congrArg (·.2) (Option.some.inj h)]
          obtain ⟨k, hk, hne, hidx, hlt, hset⟩ :=
            ih (i + 1) r.1 r.2 (by rw [hrec])
          refine ⟨k + 1, by simpa using Nat.succ_lt_succ hk, ?_, ?_, ?_, ?_⟩
          · simpa using hne
          · have hgd : (w :: rest).getD (k + 1) 0 = rest.getD k 0 := rfl
            rw [← h1.1, hidx, hgd]
            ring
          · omega
          · rw [← h1.2, hset]; rfl
      · rw [if_neg hge] at h
        have h1 : 64 * i + ffs w = idx ∧ clearBitW w (ffs w) :: rest = bm' := by
          constructor <;> [exact congrArg (·.1) (Option.some.inj h);
            exact congrArg (·.2) (Option.some.inj h)]
        refine ⟨0, by simp, by simpa using hw, ?_, by omega, ?_⟩
        · rw [← h1.1]; simp
        · rw [← h1.2]; rfl

/-- The scan succeeds as soon as some word is non-zero and every set bit
lies below the capacity. -/
lemma scanWords_isSome (cap : Nat) :
    ∀ (bm : List Nat) (i : Nat),
      (∀ k b, k < bm.length → Nat.testBit (bm.getD k 0) b = true →
        64 * (i + k) + b < cap) →
      (∃ k, k < bm.length ∧ bm.getD k 0 ≠ 0) →
      (scanWords cap i bm).isSome := by
  intro bm
  induction bm with
  | nil => intro i _ hex; obtain ⟨k, hk, _⟩ := hex; simp at hk
  | cons w rest ih =>
    intro i hbits hex
    rw [scanWords]
    by_cases hw : w = 0
    · rw [if_pos hw]
      have hex' : ∃ k, k < rest.length ∧ rest.getD k 0 ≠ 0 := by
        obtain ⟨k, hk, hne⟩ := hex
        match k with
        | 0 => exact absurd (by simpa using hw) hne
        | k' + 1 => exact ⟨k', by simpa using hk, by simpa using hne⟩
      have hbits' : ∀ k b, k < rest.length →
          Nat.testBit (rest.getD k 0) b = true → 64 * ((i + 1) + k) + b < cap := by
        intro k b hk hb
        have := hbits (k + 1) b (by simpa using Nat.succ_lt_succ hk)
          (by simpa using hb)
        omega
      have := ih (i + 1) hbits' hex'
      cases hrec : scanWords cap (i + 1) rest with
      | none => rw [hrec] at this; simp at this
      | some r => rfl
    · rw [if_neg hw]
      have hffs := (ffs_spec w hw).1
      have hlt := hbits 0 (ffs w) (by simp) (by simpa using hffs)
      rw [if_neg (by omega)]
      rfl

/-- `allocate_block` on a full slab: `nullptr`, no state change. -/
lemma allocate_block_full (s : SmallSlabState) (h : s.free_count = 0) :
    allocate_block s = (none, s) := by
  rw [allocate_block, if_pos h]

/-- `allocate_block` on a non-full slab satisfying the bitmap invariant:
it hands out the lowest free block index, which is in range; the bit is
cleared and the free count drops by one; the invariant is preserved. -/
lemma allocate_block_some (s : SmallSlabState) (hinv : SmallInv s)
    (hne : s.free_count ≠ 0) :
    ∃ idx,
      (allocate_block s).1 = some idx ∧
      idx < (getInfo s.slab_class_id).slab_capacity ∧
      bitGet s.bitmap idx = true ∧
      (allocate_block s).2.slab_class_id = s.slab_class_id ∧
      (allocate_block s).2.free_count = s.free_count - 1 ∧
      (∀ j, bitGet (allocate_block s).2.bitmap j =
        if j = idx then false else bitGet s.bitmap j) ∧
      SmallInv (allocate_block s).2 := by
  obtain ⟨hclass, hlen, hw64, hcount, hbeyond⟩ := hinv
  have hpos : 0 < setBitsBelow s.bitmap (getInfo s.slab_class_id).slab_capacity := by
    omega
  obtain ⟨k0, hk0cap, hk0bit⟩ := setBitsBelow_pos _ _ hpos
  have hcaple : (getInfo s.slab_class_id).slab_capacity ≤ 64 * s.bitmap.length := by
    omega
  have hscan : (scanWords (getInfo s.slab_class_id).slab_capacity 0 s.bitmap).isSome := by
    apply scanWords_isSome
    · intro k b hk hb
      have hwlt : s.bitmap.getD k 0 < 2 ^ 64 := by
        apply hw64
        rw [List.getD_eq_getElem?_getD, List.getElem?_eq_getElem hk]
        exact List.getElem_mem _
      have hb64 : b < 64 := testBit_true_lt _ _ hwlt hb
      by_contra hge
      have : bitGet s.bitmap (64 * (0 + k) + b) = false := by
        apply hbeyond _ (by omega)
        have : k < s.bitmap.length := hk
        omega
      rw [bitGet] at this
      have hdiv : (64 * (0 + k) + b) / 64 = k := by omega
      have hmod : (64 * (0 + k) + b) % 64 = b := by omega
      rw [hdiv, hmod] at this
      rw [this] at hb
      exact absurd hb (by simp)
    · refine ⟨k0 / 64, by omega, ?_⟩
      intro hzero
      rw [bitGet, hzero] at hk0bit
      simp at hk0bit
  rw [allocate_block, if_neg hne]
  cases hres : scanWords (getInfo s.slab_class_id).slab_capacity 0 s.bitmap with
  | none => rw [hres] at hscan; simp at hscan
  | some r =>
    dsimp only
    obtain ⟨k, hk, hkne, hidx, hcaplt, hset⟩ :=
      scanWords_eq_some _ _ _ _ _ hres
    have hwmem : s.bitmap.getD k 0 ∈ s.bitmap := by
      rw [List.getD_eq_getElem?_getD, List.getElem?_eq_getElem hk]
      exact List.getElem_mem _
    have hwlt : s.bitmap.getD k 0 < 2 ^ 64 := hw64 _ hwmem
    have hffs := ffs_spec _ hkne
    have hb64 : ffs (s.bitmap.getD k 0) < 64 := testBit_true_lt _ _ hwlt hffs.1
    have hdiv : r.1 / 64 = k := by omega
    have hmod : r.1 % 64 = ffs (s.bitmap.getD k 0) := by omega
    have hold : bitGet s.bitmap r.1 = true := by
      rw [bitGet, hdiv, hmod]; exact hffs.1
    have hupdate : ∀ j, bitGet r.2 j =
        if j = r.1 then false else bitGet s.bitmap j := by
      intro j
      rw [hset, bitGet_set_word _ _ _ _ hk]
      by_cases hj : j / 64 = k
      · rw [if_pos hj, testBit_clearBitW _ _ _ hffs.1]
        by_cases hjb : j % 64 = ffs (s.bitmap.getD k 0)
        · rw [if_pos hjb, if_pos (by omega)]
        · rw [if_neg hjb, if_neg (by omega), bitGet, hj]
      · rw [if_neg hj, if_neg (by omega)]
    refine ⟨r.1, rfl, hcaplt, hold, rfl, rfl, ?_, ?_⟩
    · intro j
      exact hupdate j
    · refine ⟨hclass, ?_, ?_, ?_, ?_⟩
      · rw [hset]; simpa using hlen
      · intro w hw
        rw [hset] at hw
        rcases List.mem_or_eq_of_mem_set hw with h | h
        · exact hw64 _ h
        · rw [h]
          exact Nat.lt_of_le_of_lt (clearBitW_le _ _) hwlt
      · show s.free_count - 1 =
          setBitsBelow r.2 (getInfo s.slab_class_id).slab_capacity
        have := setBitsBelow_update s.bitmap r.2 r.1
          (fun j hj => by rw [hupdate j, if_neg hj])
          hold (by rw [hupdate, if_pos rfl]) _ hcaplt
        omega
      · intro j hcap hj
        rw [hset] at hj
        rw [hupdate j]
        by_cases hje : j = r.1
        · rw [if_pos hje]
        · rw [if_neg hje]
          apply hbeyond _ hcap
          simpa using hj

/-- `free_block` with the source's `assert` preconditions (index in
range, bit currently clear): sets the bit, bumps the free count, and
preserves the bitmap invariant. -/
lemma free_block_spec (s : SmallSlabState) (idx : Nat) (hinv : SmallInv s)
    (hidx : idx < (getInfo s.slab_class_id).slab_capacity)
    (hbit : bitGet s.bitmap idx = false) :
    (free_block s idx).slab_class_id = s.slab_class_id ∧
    (free_block s idx).free_count = s.free_count + 1 ∧
    (∀ j, bitGet (free_block s idx).bitmap j =
      if j = idx then true else bitGet s.bitmap j) ∧
    SmallInv (free_block s idx) := by
  obtain ⟨hclass, hlen, hw64, hcount, hbeyond⟩ := hinv
  have hkrange : idx / 64 < s.bitmap.length := by omega
  have hwmem : s.bitmap.getD (idx / 64) 0 ∈ s.bitmap := by
    rw [List.getD_eq_getElem?_getD, List.getElem?_eq_getElem hkrange]
    exact List.getElem_mem _
  have hwlt : s.bitmap.getD (idx / 64) 0 < 2 ^ 64 := hw64 _ hwmem
  have hbit' : Nat.testBit (s.bitmap.getD (idx / 64) 0) (idx % 64) = false := hbit
  have hupdate : ∀ j, bitGet (free_block s idx).bitmap j =
      if j = idx then true else bitGet s.bitmap j := by
    intro j
    show bitGet (s.bitmap.set (idx / 64)
      (setBitW (s.bitmap.getD (idx / 64) 0) (idx % 64))) j = _
    rw [bitGet_set_word _ _ _ _ hkrange]
    by_cases hj : j / 64 = idx / 64
    · rw [if_pos hj, testBit_setBitW _ _ _ hbit']
      by_cases hjb : j % 64 = idx % 64
      · rw [if_pos hjb, if_pos (by omega)]
      · rw [if_neg hjb, if_neg (by omega), bitGet, hj]
    · rw [if_neg hj, if_neg (by omega)]
  refine ⟨rfl, rfl, hupdate, hclass, ?_, ?_, ?_, ?_⟩
  · show (s.bitmap.set _ _).length = _
    simpa using hlen
  · intro w hw
    rcases List.mem_or_eq_of_mem_set hw with h | h
    · exact hw64 _ h
    · rw [h]
      exact setBitW_lt _ _ hwlt (by omega) hbit'
  · show s.free_count + 1 =
      setBitsBelow (free_block s idx).bitmap (getInfo s.slab_class_id).slab_capacity
    have := setBitsBelow_update (free_block s idx).bitmap s.bitmap idx
      (fun j hj => by rw [hupdate j, if_neg hj])
      (by rw [hupdate, if_pos rfl]) hbit _ hidx
    omega
  · show ∀ j, (getInfo s.slab_class_id).slab_capacity ≤ j →
      j < 64 * (free_block s idx).bitmap.length →
      bitGet (free_block s idx).bitmap j = false
    intro j hcap hj
    have hlen2 : (free_block s idx).bitmap.length = s.bitmap.length := by
      show (s.bitmap.set (idx / 64)
        (setBitW (s.bitmap.getD (idx / 64) 0) (idx % 64))).length = s.bitmap.length
      simp
    rw [hupdate j, if_neg (by omega)]
    apply hbeyond _ hcap
    omega

lemma WF_initialHeap : WF initialHeap := by
  constructor <;>
    simp [initialHeap, List.Nodup]

/-! ### Address arithmetic and update toolkit -/

lemma setPages_apply (f : Nat → PageDescriptor) (p n : Nat)
    (d : PageDescriptor) (q : Nat) :
    setPages f p n d q = if p ≤ q ∧ q < p + n then d else f q := by
  induction n with
  | zero =>
    rw [setPages]
    rw [if_neg (by omega)]
  | succ m ih =>
    rw [setPages, Function.update_apply, ih]
    by_cases h1 : q = p + m
    · rw [if_pos h1, if_pos (by omega)]
    · rw [if_neg h1]
      by_cases h2 : p ≤ q ∧ q < p + m
      · rw [if_pos h2, if_pos (by omega)]
      · rw [if_neg h2, if_neg (by omega)]

lemma pageOf_add_mul (a k : Nat) : pageOf (a + k * PAGE_SIZE) = pageOf a + k := by
  rw [pageOf, pageOf, PAGE_SIZE]
  omega

lemma pageOf_mul (a : Nat) (ha : a % PAGE_SIZE = 0) : pageOf a * PAGE_SIZE = a := by
  rw [pageOf, PAGE_SIZE] at *
  omega

lemma pageOf_le_iff (a x : Nat) (ha : a % PAGE_SIZE = 0) :
    pageOf a ≤ pageOf x ↔ a ≤ x := by
  rw [pageOf, pageOf, PAGE_SIZE] at *
  omega

lemma segment_of_eq (b x : Nat) (hb : b % SEGMENT_SIZE = 0) (h1 : b ≤ x)
    (h2 : x < b + SEGMENT_SIZE) : segment_of x = b := by
  rw [segment_of, SEGMENT_SIZE] at *
  omega

lemma seg_aligned_page (b : Nat) (hb : b % SEGMENT_SIZE = 0) :
    b % PAGE_SIZE = 0 := by
  rw [SEGMENT_SIZE] at hb
  rw [PAGE_SIZE]
  omega

/-- Address of a page inside an aligned run. -/
lemma addr_of_page (a k : Nat) (ha : a % PAGE_SIZE = 0) :
    (pageOf a + k) * PAGE_SIZE = a + k * PAGE_SIZE := by
  rw [pageOf, PAGE_SIZE] at *
  omega

/-- Between two page-aligned addresses, page arithmetic is exact. -/
lemma page_span (a x : Nat) (ha : a % PAGE_SIZE = 0) (h : a ≤ x) :
    ∃ k r, x = a + k * PAGE_SIZE + r ∧ r < PAGE_SIZE ∧ pageOf x = pageOf a + k := by
  refine ⟨(x - a) / PAGE_SIZE, (x - a) % PAGE_SIZE, ?_, ?_, ?_⟩ <;>
    · simp only [pageOf, PAGE_SIZE] at *
      omega

/-- A ladder run fits in the usable part of its segment, so its length
is at most `512 - segMetadataPages = 509` pages. -/
lemma run_len_le (b a n : Nat) (hb : b % SEGMENT_SIZE = 0)
    (hr : runInSeg b a n) : n ≤ PAGES_PER_SEGMENT - segMetadataPages := by
  obtain ⟨h1, h2⟩ := hr
  simp only [segMetadataPages, segmentHeaderSize, PAGE_SIZE, SEGMENT_SIZE,
    PAGES_PER_SEGMENT] at *
  omega

lemma run_seg_eq (b a n : Nat) (hb : b % SEGMENT_SIZE = 0)
    (hr : runInSeg b a n) (hn : 1 ≤ n) : segment_of a = b := by
  obtain ⟨h1, h2⟩ := hr
  apply segment_of_eq b a hb
  · rw [segMetadataPages, segmentHeaderSize, PAGE_SIZE] at h1
    omega
  · rw [PAGE_SIZE] at h2
    omega

/-- Page bookkeeping of a run inside a segment. -/
lemma run_pages (b a n : Nat) (hb : b % SEGMENT_SIZE = 0)
    (ha : a % PAGE_SIZE = 0) (hr : runInSeg b a n) :
    pageOf b + segMetadataPages ≤ pageOf a ∧
    pageOf a + n ≤ pageOf b + PAGES_PER_SEGMENT := by
  obtain ⟨h1, h2⟩ := hr
  simp only [pageOf, segMetadataPages, segmentHeaderSize, PAGE_SIZE,
    SEGMENT_SIZE, PAGES_PER_SEGMENT] at *
  omega

/-- Distinct aligned segments have disjoint page ranges. -/
lemma seg_pages_disjoint (b b' : Nat) (hb : b % SEGMENT_SIZE = 0)
    (hb' : b' % SEGMENT_SIZE = 0) (hne : b ≠ b') (q : Nat)
    (h1 : pageOf b ≤ q) (h2 : q < pageOf b + PAGES_PER_SEGMENT) :
    ¬ (pageOf b' ≤ q ∧ q < pageOf b' + PAGES_PER_SEGMENT) := by
  simp only [pageOf, SEGMENT_SIZE, PAGE_SIZE, PAGES_PER_SEGMENT] at *
  omega

/-! ### Consequences of well-formedness, and invariant surgery -/

lemma WFr.run_facts {h : Heap} {r0 rn : Nat} (hwf : WFr h r0 rn) {i a : Nat}
    (ha : a ∈ h.free_slabs i) :
    a % PAGE_SIZE = 0 ∧ h.mem a = some (SlabMem.large (i + 1)) ∧
    segment_of a ∈ h.active_segments ∧ runInSeg (segment_of a) a (i + 1) ∧
    i + 1 ≤ PAGES_PER_SEGMENT - segMetadataPages := by
  obtain ⟨hmem, hal, b, hb, hrun⟩ := hwf.ladder_mem i a ha
  have hbal := hwf.active_aligned b hb
  have hseg : segment_of a = b := run_seg_eq b a (i + 1) hbal hrun (by omega)
  rw [hseg]
  exact ⟨hal, hmem, hb, hrun, run_len_le b a (i + 1) hbal hrun⟩

lemma WFr.desc_at {h : Heap} {r0 rn : Nat} (hwf : WFr h r0 rn) {i a q : Nat}
    (ha : a ∈ h.free_slabs i) (h1 : pageOf a ≤ q) (h2 : q < pageOf a + (i + 1)) :
    h.pageDesc q = ⟨PageStatus.FREE, some a⟩ := by
  have := hwf.ladder_desc i a ha (q - pageOf a) (by omega)
  have heq : pageOf a + (q - pageOf a) = q := by omega
  rwa [heq] at this

lemma WFr.outR_at {h : Heap} {r0 rn : Nat} (hwf : WFr h r0 rn) {i a q : Nat}
    (ha : a ∈ h.free_slabs i) (h1 : pageOf a ≤ q) (h2 : q < pageOf a + (i + 1)) :
    ¬ inR r0 rn q := by
  have := hwf.ladder_outR i a ha (q - pageOf a) (by omega)
  have heq : pageOf a + (q - pageOf a) = q := by omega
  rwa [heq] at this

/-- Pages of distinct ladder runs are disjoint. -/
lemma WFr.runs_disjoint {h : Heap} {r0 rn : Nat} (hwf : WFr h r0 rn)
    {i j a a' : Nat} (ha : a ∈ h.free_slabs i) (ha' : a' ∈ h.free_slabs j)
    (hne : a ≠ a') {q : Nat} (h1 : pageOf a ≤ q) (h2 : q < pageOf a + (i + 1)) :
    ¬ (pageOf a' ≤ q ∧ q < pageOf a' + (j + 1)) := by
  rintro ⟨g1, g2⟩
  have d1 := hwf.desc_at ha h1 h2
  have d2 := hwf.desc_at ha' g1 g2
  rw [d1] at d2
  have : some a = some a' := congrArg PageDescriptor.slab_ptr d2
  exact hne (Option.some.inj this)

/-- An empty exempt region can sit anywhere. -/
lemma WFr.relocate_empty {h : Heap} {r0 r0' : Nat} (hwf : WFr h r0 0) :
    WFr h r0' 0 := by
  have hR : ∀ q, ¬ inR r0' 0 q := by intro q ⟨g1, g2⟩; omega
  have hR' : ∀ q, ¬ inR r0 0 q := by intro q ⟨g1, g2⟩; omega
  refine ⟨hwf.active_nodup, hwf.active_aligned, hwf.active_meta,
    hwf.huge_nodup, hwf.huge_aligned, hwf.huge_desc, hwf.active_not_huge,
    hwf.ladder_top, hwf.ladder_mem, hwf.ladder_desc,
    fun i a ha k hk => hR _, hwf.ladder_nodup, hwf.ladder_once,
    fun i a ha hin => Or.inl (by
      rcases hwf.ladder_next i a ha hin with g | g
      · exact g
      · exact absurd g (hR' _)),
    fun i a ha hin => Or.inl (by
      rcases hwf.ladder_prev i a ha hin with g | g
      · exact g
      · exact absurd g (hR' _)),
    fun b hb p hp1 hp2 hfree _ =>
      hwf.free_complete b hb p hp1 hp2 hfree (hR' _), ?_, ?_,
    hwf.cache_nodup, hwf.cache_wf⟩
  · intro q hq _
    obtain ⟨a, n, g⟩ := hwf.large_wf q hq (hR' _)
    exact ⟨a, n, g.1, g.2.1, g.2.2.1, g.2.2.2.1, g.2.2.2.2.1, g.2.2.2.2.2.1,
      fun k hk => ⟨(g.2.2.2.2.2.2.1 k hk).1, hR _⟩, g.2.2.2.2.2.2.2⟩
  · intro q hq _
    obtain ⟨a, s, g⟩ := hwf.small_wf q hq (hR' _)
    exact ⟨a, s, g.1, g.2.1, g.2.2.1, g.2.2.2.1, g.2.2.2.2.1, g.2.2.2.2.2.1,
      g.2.2.2.2.2.2.1, g.2.2.2.2.2.2.2.1,
      fun k hk => ⟨(g.2.2.2.2.2.2.2.2.1 k hk).1, hR _⟩,
      g.2.2.2.2.2.2.2.2.2⟩

/-- Removing a run from the ladder extends the exempt region by the
run's pages (the run must sit flush against the region: on its right for
the forward coalescing merge, or on its left for the backward one; an
empty region sits at the run itself).  The result heap is given by its
components, so callers discharge the equations by `rfl`. -/
lemma erase_run_WFr (h : Heap) (r0 rn i a m0 : Nat) (h1 : Heap)
    (hwf : WFr h r0 rn) (ha : a ∈ h.free_slabs i)
    (hadj : (m0 = r0 ∧ pageOf a = r0 + rn) ∨
      (m0 = pageOf a ∧ pageOf a + (i + 1) = r0))
    (hpd : h1.pageDesc = h.pageDesc) (hmm : h1.mem = h.mem)
    (hsc : h1.slab_caches = h.slab_caches)
    (hac : h1.active_segments = h.active_segments)
    (hhg : h1.huge_segments = h.huge_segments)
    (hfs : ∀ j, h1.free_slabs j =
      if j = i then (h.free_slabs i).erase a else h.free_slabs j) :
    WFr h1 m0 (rn + (i + 1)) := by
  have hback : ∀ j x, x ∈ h1.free_slabs j → x ∈ h.free_slabs j ∧ x ≠ a := by
    intro j x hx
    rw [hfs] at hx
    by_cases hji : j = i
    · rw [if_pos hji] at hx
      subst hji
      have hnd := hwf.ladder_nodup j
      have := (hnd.mem_erase_iff).mp hx
      exact ⟨this.2, this.1⟩
    · rw [if_neg hji] at hx
      refine ⟨hx, ?_⟩
      intro he
      subst he
      exact hji (hwf.ladder_once j i x hx ha)
  have hfwd : ∀ j x, x ∈ h.free_slabs j → x ≠ a → x ∈ h1.free_slabs j := by
    intro j x hx hne
    rw [hfs]
    by_cases hji : j = i
    · subst hji
      rw [if_pos rfl]
      exact ((hwf.ladder_nodup j).mem_erase_iff).mpr ⟨hne, hx⟩
    · rw [if_neg hji]
      exact hx
  have hsplitR : ∀ q, inR m0 (rn + (i + 1)) q ↔
      inR r0 rn q ∨ (pageOf a ≤ q ∧ q < pageOf a + (i + 1)) := by
    intro q
    rcases hadj with ⟨hm, hp⟩ | ⟨hm, hp⟩ <;>
      · unfold inR
        omega
  refine ⟨by rw [hac]; exact hwf.active_nodup,
    by rw [hac]; exact hwf.active_aligned,
    by rw [hac, hpd]; exact hwf.active_meta,
    by rw [hhg]; exact hwf.huge_nodup,
    by rw [hhg]; exact hwf.huge_aligned,
    by rw [hhg, hpd]; exact hwf.huge_desc,
    by rw [hac, hhg]; exact hwf.active_not_huge,
    ?_, ?_, ?_, ?_, ?_, ?_, ?_, ?_, ?_, ?_, ?_,
    by rw [hsc]; exact hwf.cache_nodup,
    by rw [hsc, hpd, hmm]; exact hwf.cache_wf⟩
  · -- ladder_top
    intro j hj
    rw [hfs]
    have hi : i < PAGES_PER_SEGMENT := by
      by_contra hge
      rw [hwf.ladder_top i (by omega)] at ha
      exact absurd ha (List.not_mem_nil a)
    rw [if_neg (by omega)]
    exact hwf.ladder_top j hj
  · -- ladder_mem
    intro j x hx
    rw [hmm, hac]
    exact hwf.ladder_mem j x (hback j x hx).1
  · -- ladder_desc
    intro j x hx
    rw [hpd]
    exact hwf.ladder_desc j x (hback j x hx).1
  · -- ladder_outR
    intro j x hx k hk
    obtain ⟨hxm, hxa⟩ := hback j x hx
    rw [hsplitR]
    rintro (hold | hrange)
    · exact hwf.ladder_outR j x hxm k hk hold
    · exact hwf.runs_disjoint hxm ha hxa (Nat.le_add_right _ _)
        (by omega) hrange
  · -- ladder_nodup
    intro j
    rw [hfs]
    by_cases hji : j = i
    · rw [if_pos hji]
      exact (hwf.ladder_nodup i).erase a
    · rw [if_neg hji]
      exact hwf.ladder_nodup j
  · -- ladder_once
    intro j j' x hx hx'
    exact hwf.ladder_once j j' x (hback j x hx).1 (hback j' x hx').1
  · -- ladder_next
    intro j x hx hin
    rw [hpd]
    rcases hwf.ladder_next j x (hback j x hx).1 hin with g | g
    · exact Or.inl g
    · exact Or.inr ((hsplitR _).mpr (Or.inl g))
  · -- ladder_prev
    intro j x hx hin
    rw [hpd]
    rcases hwf.ladder_prev j x (hback j x hx).1 hin with g | g
    · exact Or.inl g
    · exact Or.inr ((hsplitR _).mpr (Or.inl g))
  · -- free_complete
    intro b hb p hp1 hp2 hfree hnot
    rw [hac] at hb
    rw [hpd] at hfree
    rw [hsplitR] at hnot
    have hnot1 : ¬ inR r0 rn (pageOf b + p) := fun hc => hnot (Or.inl hc)
    have hnot2 : ¬ (pageOf a ≤ pageOf b + p ∧
        pageOf b + p < pageOf a + (i + 1)) := fun hc => hnot (Or.inr hc)
    obtain ⟨j, x, hx, hc1, hc2⟩ :=
      hwf.free_complete b hb p hp1 hp2 hfree hnot1
    by_cases hxa : x = a
    · subst hxa
      have hji := hwf.ladder_once j i x hx ha
      subst hji
      exact absurd ⟨hc1, hc2⟩ hnot2
    · exact ⟨j, x, hfwd j x hx hxa, hc1, hc2⟩
  · -- large_wf
    intro q hq hnot
    rw [hpd] at hq ⊢
    rw [hmm, hac]
    rw [hsplitR] at hnot
    have hnot1 : ¬ inR r0 rn q := fun hc => hnot (Or.inl hc)
    obtain ⟨a', n, g1, g2, g3, g4, g5, g6, g7, g8⟩ :=
      hwf.large_wf q hq hnot1
    refine ⟨a', n, g1, g2, g3, g4, g5, g6, ?_, g8⟩
    intro k hk
    refine ⟨(g7 k hk).1, ?_⟩
    rw [hsplitR]
    rintro (hold | hrange)
    · exact (g7 k hk).2 hold
    · have hdesc := hwf.desc_at ha hrange.1 hrange.2
      have := (g7 k hk).1
      rw [this] at hdesc
      exact absurd (congrArg PageDescriptor.status hdesc) (by simp)
  · -- small_wf
    intro q hq hnot
    rw [hpd] at hq ⊢
    rw [hmm, hac, hsc]
    rw [hsplitR] at hnot
    have hnot1 : ¬ inR r0 rn q := fun hc => hnot (Or.inl hc)
    obtain ⟨a', s, g1, g2, g3, g4, g5, g6, g7, g8, g9, g10⟩ :=
      hwf.small_wf q hq hnot1
    refine ⟨a', s, g1, g2, g3, g4, g5, g6, g7, g8, ?_, g10⟩
    intro k hk
    refine ⟨(g9 k hk).1, ?_⟩
    rw [hsplitR]
    rintro (hold | hrange)
    · exact (g9 k hk).2 hold
    · have hdesc := hwf.desc_at ha hrange.1 hrange.2
      have := (g9 k hk).1
      rw [this] at hdesc
      exact absurd (congrArg PageDescriptor.status hdesc) (by simp)

/-- Components of `prepend_to_freelist (initialize_as_free_slab h a' n') a'`
(the tail of `split_slab` and of `release_slab`). -/
lemma reinit_components (h : Heap) (a' n' : Nat) (hn : 1 ≤ n') :
    (∀ q, (prepend_to_freelist (initialize_as_free_slab h a' n') a').pageDesc q =
      if inR (pageOf a') n' q then ⟨PageStatus.FREE, some a'⟩
      else h.pageDesc q) ∧
    (∀ x, (prepend_to_freelist (initialize_as_free_slab h a' n') a').mem x =
      if x = a' then some (SlabMem.large n') else h.mem x) ∧
    (∀ j, (prepend_to_freelist (initialize_as_free_slab h a' n') a').free_slabs j =
      if j = n' - 1 then a' :: h.free_slabs (n' - 1) else h.free_slabs j) ∧
    (prepend_to_freelist (initialize_as_free_slab h a' n') a').slab_caches =
      h.slab_caches ∧
    (prepend_to_freelist (initialize_as_free_slab h a' n') a').active_segments =
      h.active_segments ∧
    (prepend_to_freelist (initialize_as_free_slab h a' n') a').huge_segments =
      h.huge_segments ∧
    (prepend_to_freelist (initialize_as_free_slab h a' n') a').seg_length =
      h.seg_length := by
  have hread : readLargePages (initialize_as_free_slab h a' n') a' = n' := by
    show readLargePages
      { h with
        pageDesc := setPages h.pageDesc (pageOf a') n' ⟨PageStatus.FREE, some a'⟩,
        mem := Function.update h.mem a' (some (SlabMem.large n')) } a' = n'
    rw [readLargePages]
    show (match Function.update h.mem a' (some (SlabMem.large n')) a' with
      | some (SlabMem.large n) => n
      | _ => 0) = n'
    rw [Function.update_same]
  have hstep : prepend_to_freelist (initialize_as_free_slab h a' n') a' =
      { initialize_as_free_slab h a' n' with
        free_slabs := Function.update
          (initialize_as_free_slab h a' n').free_slabs (n' - 1)
          (a' :: (initialize_as_free_slab h a' n').free_slabs (n' - 1)) } := by
    rw [prepend_to_freelist, hread]
    rw [if_neg (by omega)]
  rw [hstep]
  refine ⟨?_, ?_, ?_, rfl, rfl, rfl, rfl⟩
  · intro q
    show setPages h.pageDesc (pageOf a') n' ⟨PageStatus.FREE, some a'⟩ q = _
    rw [setPages_apply]
    rfl
  · intro x
    show Function.update h.mem a' (some (SlabMem.large n')) x = _
    rw [Function.update_apply]
  · intro j
    show Function.update h.free_slabs (n' - 1)
      (a' :: h.free_slabs (n' - 1)) j = _
    rw [Function.update_apply]

/-- A page lies in at most one aligned segment. -/
lemma page_seg_unique (b b' q : Nat) (hb : b % SEGMENT_SIZE = 0)
    (hb' : b' % SEGMENT_SIZE = 0) (h1 : pageOf b ≤ q)
    (h2 : q < pageOf b + PAGES_PER_SEGMENT) (h1' : pageOf b' ≤ q)
    (h2' : q < pageOf b' + PAGES_PER_SEGMENT) : b = b' := by
  simp only [pageOf, SEGMENT_SIZE, PAGE_SIZE, PAGES_PER_SEGMENT] at *
  omega

/-- Reinitializing the target part of the exempt region as a fresh free
run and prepending it to its ladder list restores well-formedness, with
the leftover part of the region still exempt. -/
lemma reinit_WFr (h : Heap) (r0 rn a' n' l0 ln : Nat) (h1 : Heap)
    (hwf : WFr h r0 rn)
    (hpart : ∀ q, inR r0 rn q ↔ inR (pageOf a') n' q ∨ inR l0 ln q)
    (hdisj : ∀ q, ¬ (inR (pageOf a') n' q ∧ inR l0 ln q))
    (ha : a' % PAGE_SIZE = 0) (hn : 1 ≤ n')
    (hb : segment_of a' ∈ h.active_segments)
    (hrun : runInSeg (segment_of a') a' n')
    (hafter : a' + n' * PAGE_SIZE < segment_of a' + SEGMENT_SIZE →
      (h.pageDesc (pageOf a' + n')).status ≠ PageStatus.FREE ∨
        inR l0 ln (pageOf a' + n'))
    (hbefore : segment_of a' + segMetadataPages * PAGE_SIZE < a' →
      (h.pageDesc (pageOf a' - 1)).status ≠ PageStatus.FREE ∨
        inR l0 ln (pageOf a' - 1))
    (hcacheT : ∀ c x, x ∈ h.slab_caches c → ¬ inR (pageOf a') n' (pageOf x))
    (hpd : ∀ q, h1.pageDesc q = if inR (pageOf a') n' q
      then ⟨PageStatus.FREE, some a'⟩ else h.pageDesc q)
    (hmm : ∀ x, h1.mem x = if x = a' then some (SlabMem.large n')
      else h.mem x)
    (hfs : ∀ j, h1.free_slabs j = if j = n' - 1
      then a' :: h.free_slabs (n' - 1) else h.free_slabs j)
    (hsc : h1.slab_caches = h.slab_caches)
    (hac : h1.active_segments = h.active_segments)
    (hhg : h1.huge_segments = h.huge_segments) :
    WFr h1 l0 ln := by
  have hbal : (segment_of a') % SEGMENT_SIZE = 0 := hwf.active_aligned _ hb
  have hpages := run_pages (segment_of a') a' n' hbal ha hrun
  have hlen := run_len_le (segment_of a') a' n' hbal hrun
  have h509 : PAGES_PER_SEGMENT - segMetadataPages = 509 := by decide
  have hmeta3 : segMetadataPages = 3 := by decide
  have h512 : PAGES_PER_SEGMENT = 512 := by decide
  -- no old run has pages in the region, hence none starts at `a'`
  have hnotin : ∀ j x, x ∈ h.free_slabs j → x ≠ a' := by
    intro j x hx he
    subst he
    exact hwf.ladder_outR j x hx 0 (by omega)
      ((hpart _).mpr (Or.inl ⟨Nat.le_refl _, by omega⟩))
  have hrun_outT : ∀ j x, x ∈ h.free_slabs j → ∀ k, k < j + 1 →
      ¬ inR (pageOf a') n' (pageOf x + k) := by
    intro j x hx k hk hc
    exact hwf.ladder_outR j x hx k hk ((hpart _).mpr (Or.inl hc))
  -- no old run ends exactly at the target start
  have hno_left : ∀ j x, x ∈ h.free_slabs j →
      pageOf x + (j + 1) ≠ pageOf a' := by
    intro j x hx he
    obtain ⟨hxal, _, hxseg, hxrun, hxlen⟩ := hwf.run_facts hx
    have hxpages := run_pages (segment_of x) x (j + 1)
      (hwf.active_aligned _ hxseg) hxal hxrun
    -- the page before `a'` is the last page of `x`, which is FREE
    have hsegeq : segment_of x = segment_of a' :=
      page_seg_unique _ _ (pageOf x + j) (hwf.active_aligned _ hxseg) hbal
        (by omega) (by omega) (by omega) (by omega)
    have hguard : segment_of a' + segMetadataPages * PAGE_SIZE < a' := by
      have := hxpages.1
      rw [hsegeq] at this
      have hxa : pageOf (segment_of a') + segMetadataPages ≤ pageOf x := this
      have : pageOf (segment_of a') + segMetadataPages + (j + 1) ≤ pageOf a' := by
        omega
      simp only [pageOf, PAGE_SIZE, segMetadataPages, segmentHeaderSize,
        SEGMENT_SIZE] at *
      omega
    rcases hbefore hguard with g | g
    · exact g (by
        have := hwf.desc_at hx (q := pageOf a' - 1) (by omega) (by omega)
        rw [this])
    · -- the page before `a'` would be both in the leftover and a run page
      exact hrun_outT j x hx j (by omega)
        (absurd ((hpart _).mpr (Or.inr (by
          have : pageOf x + j = pageOf a' - 1 := by omega
          rw [this]; exact g)))
          (hwf.ladder_outR j x hx j (by omega)))
  -- no old run starts exactly at the target end
  have hno_right : ∀ j x, x ∈ h.free_slabs j →
      pageOf x ≠ pageOf a' + n' := by
    intro j x hx he
    obtain ⟨hxal, _, hxseg, hxrun, hxlen⟩ := hwf.run_facts hx
    have hxbal : (segment_of x) % SEGMENT_SIZE = 0 := hwf.active_aligned _ hxseg
    have hxpages := run_pages (segment_of x) x (j + 1) hxbal hxal hxrun
    by_cases hbound : pageOf a' + n' < pageOf (segment_of a') + PAGES_PER_SEGMENT
    case neg =>
      -- target run ends at its segment end; no run can start on a
      -- segment-boundary page
      simp only [pageOf, PAGE_SIZE, SEGMENT_SIZE, PAGES_PER_SEGMENT,
        segMetadataPages, segmentHeaderSize] at hxpages hpages hbound he hbal hxbal
      omega
    have hsegeq : segment_of x = segment_of a' :=
      page_seg_unique _ _ (pageOf x) hxbal hbal
        (by omega) (by omega) (by omega) (by omega)
    have hguard : a' + n' * PAGE_SIZE < segment_of a' + SEGMENT_SIZE := by
      simp only [pageOf, PAGE_SIZE, segMetadataPages, segmentHeaderSize,
        SEGMENT_SIZE, PAGES_PER_SEGMENT] at hbound hbal ha ⊢
      omega
    rcases hafter hguard with g | g
    · exact g (by
        have := hwf.desc_at hx (q := pageOf a' + n') (by omega) (by omega)
        rw [this])
    · exact hrun_outT j x hx 0 (by omega)
        (absurd ((hpart _).mpr (Or.inr (by
          have : pageOf x + 0 = pageOf a' + n' := by omega
          rw [this]; exact g)))
          (hwf.ladder_outR j x hx 0 (by omega)))
  have hTsub : ∀ q, inR (pageOf a') n' q → inR r0 rn q := by
    intro q hq
    exact (hpart q).mpr (Or.inl hq)
  have hLsub : ∀ q, inR l0 ln q → inR r0 rn q := by
    intro q hq
    exact (hpart q).mpr (Or.inr hq)
  have hn509 : n' ≤ 509 := by omega
  have hmemback : ∀ j x, x ∈ h1.free_slabs j →
      x = a' ∧ j = n' - 1 ∨ (x ∈ h.free_slabs j ∧ x ≠ a') := by
    intro j x hx
    rw [hfs] at hx
    by_cases hj : j = n' - 1
    · rw [if_pos hj] at hx
      rcases List.mem_cons.mp hx with he | hm
      · exact Or.inl ⟨he, hj⟩
      · exact Or.inr ⟨hj ▸ hm, hnotin _ x (hj ▸ hm)⟩
    · rw [if_neg hj] at hx
      exact Or.inr ⟨hx, hnotin j x hx⟩
  have hmemfwd : ∀ j x, x ∈ h.free_slabs j → x ∈ h1.free_slabs j := by
    intro j x hx
    rw [hfs]
    by_cases hj : j = n' - 1
    · rw [if_pos hj]
      exact List.mem_cons_of_mem _ (hj ▸ hx)
    · rw [if_neg hj]
      exact hx
  have haself : a' ∈ h1.free_slabs (n' - 1) := by
    rw [hfs, if_pos rfl]
    exact List.mem_cons_self _ _
  -- target pages in segment-page coordinates
  have hTpage : ∀ q, inR (pageOf a') n' q →
      pageOf (segment_of a') + segMetadataPages ≤ q ∧
      q < pageOf (segment_of a') + PAGES_PER_SEGMENT := by
    intro q ⟨g1, g2⟩
    omega
  constructor
  case active_nodup => rw [hac]; exact hwf.active_nodup
  case active_aligned => rw [hac]; exact hwf.active_aligned
  case active_meta =>
    intro b hbm p hp
    rw [hac] at hbm
    rw [hpd]
    rw [if_neg ?_]
    · exact hwf.active_meta b hbm p hp
    · intro hc
      have := hTpage _ hc
      by_cases hbb : b = segment_of a'
      · subst hbb
        omega
      · exact seg_pages_disjoint b (segment_of a')
          (hwf.active_aligned b hbm) hbal hbb (pageOf b + p)
          (by omega) (by omega) (by omega)
  case huge_nodup => rw [hhg]; exact hwf.huge_nodup
  case huge_aligned => rw [hhg]; exact hwf.huge_aligned
  case huge_desc =>
    intro b hbm
    rw [hhg] at hbm
    rw [hpd, if_neg ?_]
    · exact hwf.huge_desc b hbm
    · intro hc
      have := hTpage _ hc
      have hbb : b ≠ segment_of a' := by
        intro he
        exact hwf.active_not_huge (segment_of a') hb (he ▸ hbm)
      exact seg_pages_disjoint b (segment_of a')
        (hwf.huge_aligned b hbm) hbal hbb (pageOf b)
        (by omega) (by omega) (by omega)
  case active_not_huge =>
    intro b hbm
    rw [hac] at hbm
    rw [hhg]
    exact hwf.active_not_huge b hbm
  case ladder_top =>
    intro j hj
    rw [hfs, if_neg (by omega)]
    exact hwf.ladder_top j hj
  case ladder_mem =>
    intro j x hx
    rcases hmemback j x hx with ⟨he, hj⟩ | ⟨hm, hne⟩
    · subst hj
      rw [he, hmm, if_pos rfl, hac]
      have : n' - 1 + 1 = n' := by omega
      rw [this]
      exact ⟨rfl, ha, ⟨segment_of a', hb, hrun⟩⟩
    · rw [hmm, if_neg hne, hac]
      exact hwf.ladder_mem j x hm
  case ladder_desc =>
    intro j x hx k hk
    rcases hmemback j x hx with ⟨he, hj⟩ | ⟨hm, hne⟩
    · subst he; subst hj
      rw [hpd, if_pos ⟨by omega, by omega⟩]
    · rw [hpd, if_neg (hrun_outT j x hm k hk)]
      exact hwf.ladder_desc j x hm k hk
  case ladder_outR =>
    intro j x hx k hk hc
    rcases hmemback j x hx with ⟨he, hj⟩ | ⟨hm, hne⟩
    · subst he; subst hj
      exact hdisj _ ⟨⟨by omega, by omega⟩, hc⟩
    · exact hwf.ladder_outR j x hm k hk (hLsub _ hc)
  case ladder_nodup =>
    intro j
    rw [hfs]
    by_cases hj : j = n' - 1
    · rw [if_pos hj]
      refine List.Nodup.cons ?_ (hwf.ladder_nodup _)
      intro hc
      exact hnotin _ a' hc rfl
    · rw [if_neg hj]
      exact hwf.ladder_nodup j
  case ladder_once =>
    intro j j' x hx hx'
    rcases hmemback j x hx with ⟨he, hj⟩ | ⟨hm, hne⟩ <;>
      rcases hmemback j' x hx' with ⟨he', hj'⟩ | ⟨hm', hne'⟩
    · omega
    · exact absurd he (hne' ·)
    · exact absurd he' (hne ·)
    · exact hwf.ladder_once j j' x hm hm'
  case ladder_next =>
    intro j x hx hin
    rcases hmemback j x hx with ⟨he, hj⟩ | ⟨hm, hne⟩
    · subst he; subst hj
      have : n' - 1 + 1 = n' := by omega
      rw [this] at hin ⊢
      rcases hafter hin with g | g
      · left
        rw [hpd, if_neg (by intro ⟨u1, u2⟩; omega)]
        exact g
      · exact Or.inr g
    · -- surviving run: its next page is outside the target
      have hnextT : ¬ inR (pageOf a') n' (pageOf x + (j + 1)) := by
        intro hc
        by_cases hedge : pageOf x + (j + 1) = pageOf a'
        · exact hno_left j x hm hedge
        · -- then the run's own last page already lies in the target
          obtain ⟨hc1, hc2⟩ := hc
          exact hrun_outT j x hm j (by omega) ⟨by omega, by omega⟩
      rw [hpd, if_neg hnextT]
      rcases hwf.ladder_next j x hm hin with g | g
      · exact Or.inl g
      · rcases (hpart _).mp g with gT | gL
        · exact absurd gT hnextT
        · exact Or.inr gL
  case ladder_prev =>
    intro j x hx hin
    rcases hmemback j x hx with ⟨he, hj⟩ | ⟨hm, hne⟩
    · subst he; subst hj
      rcases hbefore hin with g | g
      · left
        rw [hpd, if_neg (by intro ⟨u1, u2⟩; omega)]
        exact g
      · exact Or.inr g
    · have hprevT : ¬ inR (pageOf a') n' (pageOf x - 1) := by
        intro hc
        by_cases hedge : pageOf x = pageOf a' + n'
        · exact hno_right j x hm hedge
        · -- then the run's own first page already lies in the target
          obtain ⟨g1, g2⟩ := hc
          exact hrun_outT j x hm 0 (by omega) ⟨by omega, by omega⟩
      rw [hpd, if_neg hprevT]
      rcases hwf.ladder_prev j x hm hin with g | g
      · exact Or.inl g
      · rcases (hpart _).mp g with gT | gL
        · exact absurd gT hprevT
        · exact Or.inr gL
  case free_complete =>
    intro b hbm p hp1 hp2 hfree hnl
    rw [hac] at hbm
    rw [hpd] at hfree
    by_cases hT : inR (pageOf a') n' (pageOf b + p)
    · refine ⟨n' - 1, a', haself, ?_, ?_⟩
      · exact hT.1
      · have : n' - 1 + 1 = n' := by omega
        rw [this]
        exact hT.2
    · rw [if_neg hT] at hfree
      have : ¬ inR r0 rn (pageOf b + p) := by
        intro hc
        rcases (hpart _).mp hc with g | g
        · exact hT g
        · exact hnl g
      obtain ⟨j, x, hx, hc1, hc2⟩ :=
        hwf.free_complete b hbm p hp1 hp2 hfree this
      exact ⟨j, x, hmemfwd j x hx, hc1, hc2⟩
  case large_wf =>
    intro q hq hnl
    rw [hpd] at hq
    by_cases hT : inR (pageOf a') n' q
    · rw [if_pos hT] at hq
      exact absurd hq (by simp)
    · rw [if_neg hT] at hq
      have hnr : ¬ inR r0 rn q := by
        intro hc
        rcases (hpart _).mp hc with g | g
        · exact hT g
        · exact hnl g
      obtain ⟨a'', n, g1, g2, g3, g4, g5, g6, g7, g8⟩ :=
        hwf.large_wf q hq hnr
      have hpageT : ∀ k, k < n → ¬ inR (pageOf a') n' (pageOf a'' + k) := by
        intro k hk hc
        exact (g7 k hk).2 (hTsub _ hc)
      have hane : a'' ≠ a' := by
        intro he
        apply hpageT 0 g4
        rw [he]
        exact ⟨by omega, by omega⟩
      refine ⟨a'', n, ?_, ?_, g3, g4, g5, g6, ?_, ?_⟩
      · rw [hpd, if_neg hT]
        exact g1
      · rw [hmm, if_neg hane]
        exact g2
      · intro k hk
        refine ⟨?_, ?_⟩
        · rw [hpd, if_neg (hpageT k hk)]
          exact (g7 k hk).1
        · intro hc
          exact (g7 k hk).2 (hLsub _ hc)
      · rw [hac]
        exact g8
  case small_wf =>
    intro q hq hnl
    rw [hpd] at hq
    by_cases hT : inR (pageOf a') n' q
    · rw [if_pos hT] at hq
      exact absurd hq (by simp)
    · rw [if_neg hT] at hq
      have hnr : ¬ inR r0 rn q := by
        intro hc
        rcases (hpart _).mp hc with g | g
        · exact hT g
        · exact hnl g
      obtain ⟨a'', s, g1, g2, g3, g4, g5, g6, g7, g8, g9, g10⟩ :=
        hwf.small_wf q hq hnr
      have hpageT : ∀ k, k < (getInfo s.slab_class_id).slab_pages →
          ¬ inR (pageOf a') n' (pageOf a'' + k) := by
        intro k hk hc
        exact (g9 k hk).2 (hTsub _ hc)
      have hane : a'' ≠ a' := by
        intro he
        apply hpageT 0 (by omega)
        rw [he]
        exact ⟨by omega, by omega⟩
      refine ⟨a'', s, ?_, ?_, g3, g4, g5, ?_, g7, g8, ?_, ?_⟩
      · rw [hpd, if_neg hT]
        exact g1
      · rw [hmm, if_neg hane]
        exact g2
      · rw [hsc]
        exact g6
      · intro k hk
        refine ⟨?_, ?_⟩
        · rw [hpd, if_neg (hpageT k hk)]
          exact (g9 k hk).1
        · intro hc
          exact (g9 k hk).2 (hLsub _ hc)
      · rw [hac]
        exact g10
  case cache_nodup => rw [hsc]; exact hwf.cache_nodup
  case cache_wf =>
    intro c x hx
    rw [hsc] at hx
    obtain ⟨g1, g2, s, g3, g4⟩ := hwf.cache_wf c x hx
    have hxT : ¬ inR (pageOf a') n' (pageOf x) := hcacheT c x hx
    have hxa : x ≠ a' := by
      intro he
      exact hxT (he ▸ ⟨by omega, by omega⟩)
    refine ⟨?_, ?_, s, ?_, g4⟩
    · rw [hpd, if_neg hxT]
      exact g1
    · rw [hpd, if_neg hxT]
      exact g2
    · rw [hmm, if_neg hxa]
      exact g3

/-- `findFrom` only answers a non-empty in-range list index. -/
lemma findFromAux_some (fs : Nat → List Nat) :
    ∀ d i0 i, findFromAux fs d i0 = some i →
    i0 ≤ i ∧ i < PAGES_PER_SEGMENT ∧ fs i ≠ [] := by
  intro d
  induction d with
  | zero =>
    intro i0 i hf
    exact Option.noConfusion hf
  | succ d ih =>
    intro i0 i hf
    rw [findFromAux] at hf
    by_cases hlt : i0 < PAGES_PER_SEGMENT
    · rw [if_pos hlt] at hf
      by_cases hne : fs i0 ≠ []
      · rw [if_pos hne] at hf
        cases hf
        exact ⟨Nat.le_refl _, hlt, hne⟩
      · rw [if_neg hne] at hf
        obtain ⟨g1, g2, g3⟩ := ih (i0 + 1) i hf
        exact ⟨by omega, g2, g3⟩
    · rw [if_neg hlt] at hf
      cases hf

lemma findFrom_some (fs : Nat → List Nat) :
    ∀ d i0, PAGES_PER_SEGMENT - i0 ≤ d → ∀ i, findFrom fs i0 = some i →
    i0 ≤ i ∧ i < PAGES_PER_SEGMENT ∧ fs i ≠ [] := by
  intro d i0 hd i hf
  rw [findFrom] at hf
  exact findFromAux_some fs _ i0 i hf

/-- `findFrom` fails only when every list from the start index on is
empty. -/
lemma findFromAux_none (fs : Nat → List Nat) :
    ∀ d i0, PAGES_PER_SEGMENT - i0 ≤ d → findFromAux fs d i0 = none →
    ∀ j, i0 ≤ j → j < PAGES_PER_SEGMENT → fs j = [] := by
  intro d
  induction d with
  | zero =>
    intro i0 hd hf j hj1 hj2
    omega
  | succ d ih =>
    intro i0 hd hf j hj1 hj2
    rw [findFromAux] at hf
    by_cases hlt : i0 < PAGES_PER_SEGMENT
    · rw [if_pos hlt] at hf
      by_cases hne : fs i0 ≠ []
      · rw [if_pos hne] at hf
        cases hf
      · rw [if_neg hne] at hf
        by_cases hji : j = i0
        · subst hji
          exact not_not.mp hne
        · exact ih (i0 + 1) (by omega) hf j (by omega) hj2
    · omega

lemma findFrom_none (fs : Nat → List Nat) :
    ∀ d i0, PAGES_PER_SEGMENT - i0 ≤ d → findFrom fs i0 = none →
    ∀ j, i0 ≤ j → j < PAGES_PER_SEGMENT → fs j = [] := by
  intro d i0 hd hf
  rw [findFrom] at hf
  exact findFromAux_none fs _ i0 (Nat.le_refl _) hf

/-- Carving the first `np` pages off a `total`-page free block that the
exempt region covers: the remainder is returned to the ladder and the
region shrinks to the carved part. -/
lemma split_carve_spec (h : Heap) (a total np : Nat)
    (hwf : WFr h (pageOf a) total)
    (ha : a % PAGE_SIZE = 0) (hnp1 : 1 ≤ np) (hle : np ≤ total)
    (ht : total ≤ 509)
    (hb : segment_of a ∈ h.active_segments)
    (hrun : runInSeg (segment_of a) a total)
    (hmem : h.mem a = some (SlabMem.large total))
    (hdesc : ∀ k, k < total →
      h.pageDesc (pageOf a + k) = ⟨PageStatus.FREE, some a⟩)
    (hnext : a + total * PAGE_SIZE < segment_of a + SEGMENT_SIZE →
      (h.pageDesc (pageOf a + total)).status ≠ PageStatus.FREE)
    (hcache : ∀ c x, x ∈ h.slab_caches c →
      (h.pageDesc (pageOf x)).status = PageStatus.SMALL_SLAB) :
    ∃ h', split_slab h a np = (a, h') ∧
      WFr h' (pageOf a) np ∧
      (∀ k, k < np → h'.pageDesc (pageOf a + k) = ⟨PageStatus.FREE, some a⟩) ∧
      h'.slab_caches = h.slab_caches ∧
      h'.active_segments = h.active_segments ∧
      h'.huge_segments = h.huge_segments := by
  have htot : readLargePages h a = total := by rw [readLargePages, hmem]
  have hrem : u16sub total np = total - np := by rw [u16sub]; omega
  have hsplit : split_slab h a np =
      if u16sub (readLargePages h a) np > 0 then
        (a, prepend_to_freelist
          (initialize_as_free_slab h (a + np * PAGE_SIZE)
            (u16sub (readLargePages h a) np)) (a + np * PAGE_SIZE))
      else (a, h) := rfl
  by_cases hc : np = total
  · refine ⟨h, ?_, ?_, fun k hk => hdesc k (by omega), rfl, rfl, rfl⟩
    · rw [hsplit, htot, hrem, if_neg (by omega)]
    · have : np = total := hc
      rw [this]
      exact hwf
  · have hlt : np < total := by omega
    obtain ⟨hpd, hmm, hfs, hsc, hac, hhg, hsl⟩ :=
      reinit_components h (a + np * PAGE_SIZE) (total - np) (by omega)
    rw [pageOf_add_mul] at hpd
    have hbal : (segment_of a) % SEGMENT_SIZE = 0 := hwf.active_aligned _ hb
    have hseg : segment_of (a + np * PAGE_SIZE) = segment_of a := by
      apply segment_of_eq _ _ hbal
      · obtain ⟨g1, g2⟩ := hrun
        simp only [PAGE_SIZE, segMetadataPages, segmentHeaderSize] at g1 ⊢
        omega
      · obtain ⟨g1, g2⟩ := hrun
        simp only [PAGE_SIZE] at g2 ⊢
        omega
    have harem : (a + np * PAGE_SIZE) % PAGE_SIZE = 0 := by
      simp only [PAGE_SIZE] at ha ⊢
      omega
    have hwf' := reinit_WFr h (pageOf a) total (a + np * PAGE_SIZE)
      (total - np) (pageOf a) np _ hwf
      (by
        intro q
        rw [pageOf_add_mul]
        unfold inR
        omega)
      (by
        intro q
        rw [pageOf_add_mul]
        rintro ⟨⟨g1, g2⟩, ⟨g3, g4⟩⟩
        omega)
      harem (by omega)
      (by rw [hseg]; exact hb)
      (by
        rw [hseg]
        obtain ⟨g1, g2⟩ := hrun
        refine ⟨by omega, ?_⟩
        simp only [PAGE_SIZE] at g2 ⊢
        omega)
      (by
        intro hg
        left
        have hx : pageOf (a + np * PAGE_SIZE) + (total - np) =
            pageOf a + total := by
          rw [pageOf_add_mul]
          omega
        rw [hx]
        apply hnext
        rw [hseg] at hg
        simp only [PAGE_SIZE] at hg ⊢
        omega)
      (by
        intro hg
        right
        rw [pageOf_add_mul]
        exact ⟨by omega, by omega⟩)
      (by
        intro c x hx hcIn
        rw [pageOf_add_mul] at hcIn
        obtain ⟨g1, g2⟩ := hcIn
        have hd := hdesc (pageOf x - pageOf a) (by omega)
        rw [show pageOf a + (pageOf x - pageOf a) = pageOf x by omega] at hd
        have hs := hcache c x hx
        rw [hd] at hs
        exact PageStatus.noConfusion hs)
      (by intro q; rw [hpd, pageOf_add_mul]) (by intro x; rw [hmm])
      (by intro j; rw [hfs]) hsc hac hhg
    refine ⟨_, ?_, hwf', ?_, hsc, hac, hhg⟩
    · rw [hsplit, htot, hrem, if_pos (by omega)]
    · intro k hk
      rw [hpd, if_neg (by rintro ⟨g1, g2⟩; omega)]
      exact hdesc k (by omega)

/-- Descriptor map after the fresh-segment setup. -/
lemma newSeg_desc (h : Heap) (base q : Nat) :
    (freshSlabHeap h base).pageDesc q =
    if pageOf base + segMetadataPages ≤ q ∧
        q < pageOf base + PAGES_PER_SEGMENT then
      ⟨PageStatus.FREE, some (base + segMetadataPages * PAGE_SIZE)⟩
    else if pageOf base + 1 ≤ q ∧ q < pageOf base + segMetadataPages then
      ⟨PageStatus.METADATA, none⟩
    else if q = pageOf base then
      ⟨PageStatus.METADATA, some segmentHeaderSize⟩
    else h.pageDesc q := by
  show setPages
      (setPages
        (Function.update
          (setPages h.pageDesc (pageOf base) PAGES_PER_SEGMENT
            ⟨PageStatus.FREE, none⟩)
          (pageOf base) ⟨PageStatus.METADATA, some segmentHeaderSize⟩)
        (pageOf base + 1) (segMetadataPages - 1) ⟨PageStatus.METADATA, none⟩)
      (pageOf (base + segMetadataPages * PAGE_SIZE))
      (PAGES_PER_SEGMENT - segMetadataPages)
      ⟨PageStatus.FREE, some (base + segMetadataPages * PAGE_SIZE)⟩ q = _
  rw [setPages_apply, setPages_apply, Function.update_apply, setPages_apply,
    pageOf_add_mul]
  have h512 : PAGES_PER_SEGMENT = 512 := by decide
  have hm3 : segMetadataPages = 3 := by decide
  rw [h512, hm3]
  split_ifs <;> first | rfl | omega

/-- Header map after the fresh-segment setup. -/
lemma freshSlabHeap_mem (h : Heap) (base x : Nat) :
    (freshSlabHeap h base).mem x =
      if x = base + segMetadataPages * PAGE_SIZE
      then some (SlabMem.large (PAGES_PER_SEGMENT - segMetadataPages))
      else h.mem x := by
  show Function.update h.mem (base + segMetadataPages * PAGE_SIZE)
      (some (SlabMem.large (PAGES_PER_SEGMENT - segMetadataPages))) x = _
  rw [Function.update_apply]

/-- Mapping a fresh segment, linking it into `active_segments_` and
initializing its usable pages as one free slab is well-formed with the
usable pages exempt (the caller carves them next). -/
lemma newSegment_WFr (h : Heap) (base : Nat) (h1 : Heap) (hwf : WF h)
    (hfr : FreshSeg h base)
    (hpd : ∀ q, h1.pageDesc q =
      if pageOf base + segMetadataPages ≤ q ∧
          q < pageOf base + PAGES_PER_SEGMENT then
        ⟨PageStatus.FREE, some (base + segMetadataPages * PAGE_SIZE)⟩
      else if pageOf base + 1 ≤ q ∧ q < pageOf base + segMetadataPages then
        ⟨PageStatus.METADATA, none⟩
      else if q = pageOf base then
        ⟨PageStatus.METADATA, some segmentHeaderSize⟩
      else h.pageDesc q)
    (hmm : ∀ x, h1.mem x = if x = base + segMetadataPages * PAGE_SIZE
      then some (SlabMem.large (PAGES_PER_SEGMENT - segMetadataPages))
      else h.mem x)
    (hfs : h1.free_slabs = h.free_slabs)
    (hsc : h1.slab_caches = h.slab_caches)
    (hac : h1.active_segments = base :: h.active_segments)
    (hhg : h1.huge_segments = h.huge_segments) :
    WFr h1 (pageOf base + segMetadataPages)
      (PAGES_PER_SEGMENT - segMetadataPages) := by
  obtain ⟨hbal, hbact, hbhuge⟩ := hfr
  have h512 : PAGES_PER_SEGMENT = 512 := by decide
  have hm3 : segMetadataPages = 3 := by decide
  have hdisjb : ∀ b, b ∈ h.active_segments ∨ b ∈ h.huge_segments → ∀ q,
      pageOf b ≤ q → q < pageOf b + PAGES_PER_SEGMENT →
      q < pageOf base ∨ pageOf base + PAGES_PER_SEGMENT ≤ q := by
    intro b hbm q g1 g2
    have hbne : b ≠ base := by
      rintro rfl
      rcases hbm with g | g
      · exact hbact g
      · exact hbhuge g
    have halb : b % SEGMENT_SIZE = 0 := by
      rcases hbm with g | g
      · exact hwf.active_aligned b g
      · exact hwf.huge_aligned b g
    have hd := seg_pages_disjoint b base halb hbal hbne q g1 g2
    by_cases hx : q < pageOf base
    · exact Or.inl hx
    · right
      rcases not_and_or.mp hd with g | g <;> omega
  have hold : ∀ b, (b ∈ h.active_segments ∨ b ∈ h.huge_segments) → ∀ q,
      pageOf b ≤ q → q < pageOf b + PAGES_PER_SEGMENT →
      h1.pageDesc q = h.pageDesc q := by
    intro b hbm q g1 g2
    rcases hdisjb b hbm q g1 g2 with g | g <;>
      rw [hpd, if_neg (by omega), if_neg (by omega), if_neg (by omega)]
  have hinR : ∀ q, inR (pageOf base + segMetadataPages)
      (PAGES_PER_SEGMENT - segMetadataPages) q ↔
      (pageOf base + segMetadataPages ≤ q ∧
        q < pageOf base + PAGES_PER_SEGMENT) := by
    intro q
    unfold inR
    omega
  have houtR : ∀ b, (b ∈ h.active_segments ∨ b ∈ h.huge_segments) → ∀ q,
      pageOf b ≤ q → q < pageOf b + PAGES_PER_SEGMENT →
      ¬ inR (pageOf base + segMetadataPages)
        (PAGES_PER_SEGMENT - segMetadataPages) q := by
    intro b hbm q g1 g2 hc
    rw [hinR] at hc
    rcases hdisjb b hbm q g1 g2 with g | g <;> omega
  have hne_s0 : ∀ b, (b ∈ h.active_segments ∨ b ∈ h.huge_segments) →
      ∀ a, pageOf b ≤ pageOf a → pageOf a < pageOf b + PAGES_PER_SEGMENT →
      a ≠ base + segMetadataPages * PAGE_SIZE := by
    intro b hbm a g1 g2 he
    have hd := hdisjb b hbm (pageOf a) g1 g2
    rw [he, pageOf_add_mul] at hd
    omega
  have haddr_lt : ∀ x i b2, x % PAGE_SIZE = 0 → b2 % SEGMENT_SIZE = 0 →
      x + i * PAGE_SIZE < b2 + SEGMENT_SIZE →
      pageOf x + i < pageOf b2 + PAGES_PER_SEGMENT := by
    intro x i b2 g1 g2 g3
    have g4 := seg_aligned_page b2 g2
    simp only [pageOf, PAGE_SIZE, SEGMENT_SIZE, PAGES_PER_SEGMENT]
      at g1 g2 g3 g4 ⊢
    omega
  have hZ : ∀ q, ¬ inR 0 0 q := by
    rintro q ⟨u1, u2⟩
    omega
  constructor
  case active_nodup =>
    rw [hac]
    exact List.nodup_cons.mpr ⟨hbact, hwf.active_nodup⟩
  case active_aligned =>
    intro b hbm
    rw [hac] at hbm
    rcases List.mem_cons.mp hbm with rfl | hm
    · exact hbal
    · exact hwf.active_aligned b hm
  case active_meta =>
    intro b hbm p hp
    rw [hac] at hbm
    rcases List.mem_cons.mp hbm with rfl | hm
    · rw [hpd]
      by_cases hp0 : p = 0
      · subst hp0
        rw [if_neg (by omega), if_neg (by omega), if_pos (by omega)]
      · rw [if_neg (by omega), if_pos (by omega)]
    · rw [hold b (Or.inl hm) _ (by omega) (by omega)]
      exact hwf.active_meta b hm p hp
  case huge_nodup => rw [hhg]; exact hwf.huge_nodup
  case huge_aligned =>
    intro b hbm
    rw [hhg] at hbm
    exact hwf.huge_aligned b hbm
  case huge_desc =>
    intro b hbm
    rw [hhg] at hbm
    rw [hold b (Or.inr hbm) _ (by omega) (by omega)]
    exact hwf.huge_desc b hbm
  case active_not_huge =>
    intro b hbm
    rw [hac] at hbm
    rw [hhg]
    rcases List.mem_cons.mp hbm with rfl | hm
    · exact hbhuge
    · exact hwf.active_not_huge b hm
  case ladder_top =>
    intro i hi
    rw [hfs]
    exact hwf.ladder_top i hi
  case ladder_mem =>
    intro i x hx
    rw [hfs] at hx
    obtain ⟨hxal, hxmem, hxseg, hxrun, hxlen⟩ := hwf.run_facts hx
    have hxbal := hwf.active_aligned _ hxseg
    have hxp := run_pages (segment_of x) x (i + 1) hxbal hxal hxrun
    refine ⟨?_, hxal, segment_of x,
      by rw [hac]; exact List.mem_cons_of_mem _ hxseg, hxrun⟩
    rw [hmm, if_neg (hne_s0 (segment_of x) (Or.inl hxseg) x
      (by omega) (by omega))]
    exact hxmem
  case ladder_desc =>
    intro i x hx k hk
    rw [hfs] at hx
    obtain ⟨hxal, hxmem, hxseg, hxrun, hxlen⟩ := hwf.run_facts hx
    have hxbal := hwf.active_aligned _ hxseg
    have hxp := run_pages (segment_of x) x (i + 1) hxbal hxal hxrun
    rw [hold (segment_of x) (Or.inl hxseg) _ (by omega) (by omega)]
    exact hwf.ladder_desc i x hx k hk
  case ladder_outR =>
    intro i x hx k hk
    rw [hfs] at hx
    obtain ⟨hxal, hxmem, hxseg, hxrun, hxlen⟩ := hwf.run_facts hx
    have hxbal := hwf.active_aligned _ hxseg
    have hxp := run_pages (segment_of x) x (i + 1) hxbal hxal hxrun
    exact houtR (segment_of x) (Or.inl hxseg) _ (by omega) (by omega)
  case ladder_nodup =>
    intro i
    rw [hfs]
    exact hwf.ladder_nodup i
  case ladder_once =>
    intro i j x hxi hxj
    rw [hfs] at hxi hxj
    exact hwf.ladder_once i j x hxi hxj
  case ladder_next =>
    intro i x hx hg
    rw [hfs] at hx
    obtain ⟨hxal, hxmem, hxseg, hxrun, hxlen⟩ := hwf.run_facts hx
    have hxbal := hwf.active_aligned _ hxseg
    have hxp := run_pages (segment_of x) x (i + 1) hxbal hxal hxrun
    have hlt := haddr_lt x (i + 1) (segment_of x) hxal hxbal hg
    left
    rw [hold (segment_of x) (Or.inl hxseg) _ (by omega) (by omega)]
    rcases hwf.ladder_next i x hx hg with g | g
    · exact g
    · exact absurd g (hZ _)
  case ladder_prev =>
    intro i x hx hg
    rw [hfs] at hx
    obtain ⟨hxal, hxmem, hxseg, hxrun, hxlen⟩ := hwf.run_facts hx
    have hxbal := hwf.active_aligned _ hxseg
    have hxp := run_pages (segment_of x) x (i + 1) hxbal hxal hxrun
    left
    rw [hold (segment_of x) (Or.inl hxseg) _ (by omega) (by omega)]
    rcases hwf.ladder_prev i x hx hg with g | g
    · exact g
    · exact absurd g (hZ _)
  case free_complete =>
    intro b hbm p hp1 hp2 hfree hnR
    rw [hac] at hbm
    rcases List.mem_cons.mp hbm with rfl | hm
    · exact absurd ((hinR _).mpr ⟨by omega, by omega⟩) hnR
    · have hq := hold b (Or.inl hm) (pageOf b + p) (by omega) (by omega)
      rw [hq] at hfree
      obtain ⟨i, x, g1, g2, g3⟩ :=
        hwf.free_complete b hm p hp1 hp2 hfree (hZ _)
      exact ⟨i, x, by rw [hfs]; exact g1, g2, g3⟩
  case large_wf =>
    intro q hq hnR
    have hqe : h1.pageDesc q = h.pageDesc q := by
      have hq2 := hq
      rw [hpd] at hq2 ⊢
      split_ifs at hq2 ⊢
      rfl
    rw [hqe] at hq
    obtain ⟨a, n, g1, g2, g3, g4, g5, g6, g7, g8⟩ :=
      hwf.large_wf q hq (hZ _)
    obtain ⟨b, hbm, hrn⟩ := g8
    have hbal2 := hwf.active_aligned b hbm
    have hap := run_pages b a n hbal2 g3 hrn
    refine ⟨a, n, by rw [hqe]; exact g1, ?_, g3, g4, g5, g6, ?_, ?_⟩
    · rw [hmm, if_neg (hne_s0 b (Or.inl hbm) a (by omega) (by omega))]
      exact g2
    · intro k hk
      refine ⟨?_, houtR b (Or.inl hbm) _ (by omega) (by omega)⟩
      rw [hold b (Or.inl hbm) _ (by omega) (by omega)]
      exact (g7 k hk).1
    · exact ⟨b, by rw [hac]; exact List.mem_cons_of_mem _ hbm, hrn⟩
  case small_wf =>
    intro q hq hnR
    have hqe : h1.pageDesc q = h.pageDesc q := by
      have hq2 := hq
      rw [hpd] at hq2 ⊢
      split_ifs at hq2 ⊢
      rfl
    rw [hqe] at hq
    obtain ⟨a, s, g1, g2, g3, g4, g5, g6, g7, g8, g9, g10⟩ :=
      hwf.small_wf q hq (hZ _)
    obtain ⟨b, hbm, hrn⟩ := g10
    have hbal2 := hwf.active_aligned b hbm
    have hap := run_pages b a (getInfo s.slab_class_id).slab_pages hbal2 g3 hrn
    have hpg1 : 1 ≤ (getInfo s.slab_class_id).slab_pages := by omega
    refine ⟨a, s, by rw [hqe]; exact g1, ?_, g3, g4, g5, ?_, g7, g8, ?_, ?_⟩
    · rw [hmm, if_neg (hne_s0 b (Or.inl hbm) a (by omega) (by omega))]
      exact g2
    · rw [hsc]
      exact g6
    · intro k hk
      refine ⟨?_, houtR b (Or.inl hbm) _ (by omega) (by omega)⟩
      rw [hold b (Or.inl hbm) _ (by omega) (by omega)]
      exact (g9 k hk).1
    · exact ⟨b, by rw [hac]; exact List.mem_cons_of_mem _ hbm, hrn⟩
  case cache_nodup =>
    intro c
    rw [hsc]
    exact hwf.cache_nodup c
  case cache_wf =>
    intro c x hx
    rw [hsc] at hx
    obtain ⟨g1, g2, s, g3, g4⟩ := hwf.cache_wf c x hx
    obtain ⟨a, s', p1, p2, p3, p4, p5, p6, p7, p8, p9, p10⟩ :=
      hwf.small_wf (pageOf x) g1 (hZ _)
    have hax : a = x := by
      rw [p1] at g2
      exact Option.some.inj g2
    obtain ⟨b, hbm, hrn⟩ := p10
    have hbal2 := hwf.active_aligned b hbm
    have hap := run_pages b a (getInfo s'.slab_class_id).slab_pages hbal2 p3 hrn
    rw [hax] at hap p8
    refine ⟨?_, ?_, s, ?_, g4⟩
    · rw [hold b (Or.inl hbm) (pageOf x) (by omega) (by omega)]
      exact g1
    · rw [hold b (Or.inl hbm) (pageOf x) (by omega) (by omega)]
      exact g2
    · rw [hmm, if_neg (hne_s0 b (Or.inl hbm) x (by omega) (by omega))]
      exact g3

set_option maxRecDepth 4096 in
/-- `ThreadHeap::acquire_pages`: either it fails leaving the heap
untouched, or it hands back a page-aligned run of exactly `np` pages
inside an active segment, with the run's pages exempt from the invariant
(still carrying their stale FREE descriptors) and the caches and huge
list untouched. -/
lemma acquire_pages_spec (os : Option Nat) (h : Heap) (np : Nat)
    (hwf : WF h) (hos : FreshOS h os) (hnp1 : 1 ≤ np) (hnp5 : np ≤ 509) :
    ((acquire_pages os h np).1 = none ∧ (acquire_pages os h np).2 = h) ∨
    ∃ a h', acquire_pages os h np = (some a, h') ∧
      WFr h' (pageOf a) np ∧ a % PAGE_SIZE = 0 ∧
      segment_of a ∈ h'.active_segments ∧
      runInSeg (segment_of a) a np ∧
      (∀ k, k < np → h'.pageDesc (pageOf a + k) = ⟨PageStatus.FREE, some a⟩) ∧
      h'.slab_caches = h.slab_caches ∧
      h'.huge_segments = h.huge_segments := by
  have h512 : PAGES_PER_SEGMENT = 512 := by decide
  have hm3 : segMetadataPages = 3 := by decide
  have hguard : ¬ (np = 0 ∨ np > PAGES_PER_SEGMENT) := by omega
  have hnpe : np - 1 + 1 = np := by omega
  rcases hfs0 : h.free_slabs (np - 1) with _ | ⟨a, rest⟩
  · -- exact-fit list empty: search upward
    rcases hff : findFrom h.free_slabs np with _ | i
    · -- nothing in the ladder: ask the OS
      cases os with
      | none =>
        left
        constructor <;>
          · simp only [acquire_pages, hfs0, hff]
            rw [if_neg hguard]
      | some base =>
        right
        have hfr : FreshSeg h base := hos base rfl
        obtain ⟨hbal, hbact, hbhuge⟩ := hfr
        have hbpal : base % PAGE_SIZE = 0 := seg_aligned_page base hbal
        have hwfN := newSegment_WFr h base (freshSlabHeap h base)
          hwf ⟨hbal, hbact, hbhuge⟩
          (fun q => newSeg_desc h base q)
          (fun x => freshSlabHeap_mem h base x)
          rfl rfl rfl rfl
        rw [← pageOf_add_mul base segMetadataPages] at hwfN
        have hsegs : segment_of (base + segMetadataPages * PAGE_SIZE) = base := by
          apply segment_of_eq _ _ hbal
          · omega
          · simp only [segMetadataPages, segmentHeaderSize, PAGE_SIZE, SEGMENT_SIZE]
            omega
        have hrunN : runInSeg
            (segment_of (base + segMetadataPages * PAGE_SIZE))
            (base + segMetadataPages * PAGE_SIZE)
            (PAGES_PER_SEGMENT - segMetadataPages) := by
          rw [hsegs]
          constructor
          · omega
          · simp only [segMetadataPages, segmentHeaderSize, PAGE_SIZE, SEGMENT_SIZE,
              PAGES_PER_SEGMENT]
            omega
        obtain ⟨h2, hsp, hwf2, hdesc2, hsc2, hac2, hhg2⟩ :=
          split_carve_spec _ (base + segMetadataPages * PAGE_SIZE)
            (PAGES_PER_SEGMENT - segMetadataPages) np hwfN
            (by
              simp only [segMetadataPages, segmentHeaderSize, PAGE_SIZE] at hbpal ⊢
              omega)
            hnp1 (by omega) (by omega)
            (by rw [hsegs]; exact List.mem_cons_self _ _)
            hrunN
            (by rw [freshSlabHeap_mem, if_pos rfl])
            (by
              intro k hk
              rw [newSeg_desc, pageOf_add_mul, if_pos (by omega)])
            (by
              intro hg
              exfalso
              rw [hsegs] at hg
              simp only [segMetadataPages, segmentHeaderSize, PAGE_SIZE, SEGMENT_SIZE,
                PAGES_PER_SEGMENT] at hg
              omega)
            (fun c x hx => (hwfN.cache_wf c x hx).1)
        refine ⟨base + segMetadataPages * PAGE_SIZE, h2, ?_, hwf2,
          ?_, ?_, ?_, hdesc2, hsc2, hhg2⟩
        · have hcall : acquire_pages (some base) h np =
              (some (split_slab (freshSlabHeap h base)
                  (base + segMetadataPages * PAGE_SIZE) np).1,
                (split_slab (freshSlabHeap h base)
                  (base + segMetadataPages * PAGE_SIZE) np).2) := by
            simp only [acquire_pages, hfs0, hff, freshSlabHeap,
              initialize_as_free_slab, createSegment]
            rw [if_neg hguard]
          rw [hcall, hsp]
        · simp only [segMetadataPages, segmentHeaderSize, PAGE_SIZE] at hbpal ⊢
          omega
        · rw [hac2, hsegs]
          exact List.mem_cons_self _ _
        · rw [hsegs]
          constructor
          · omega
          · simp only [segMetadataPages, segmentHeaderSize, PAGE_SIZE, SEGMENT_SIZE,
              PAGES_PER_SEGMENT] at hnp5 ⊢
            omega
    · -- pop the first larger run and split it
      obtain ⟨hi1, hi2, hi3⟩ :=
        findFrom_some h.free_slabs PAGES_PER_SEGMENT np (by omega) i hff
      rcases hfsi : h.free_slabs i with _ | ⟨a, rest⟩
      · exact absurd hfsi hi3
      right
      have ha : a ∈ h.free_slabs i := by
        rw [hfsi]
        exact List.mem_cons_self _ _
      obtain ⟨hal, hmem, hseg, hrun, hlen⟩ := hwf.run_facts ha
      have hwf1 := erase_run_WFr h (pageOf a + (i + 1)) 0 i a (pageOf a)
        { h with free_slabs := Function.update h.free_slabs i rest }
        (hwf.relocate_empty) ha (Or.inr ⟨rfl, rfl⟩) rfl rfl rfl rfl rfl
        (by
          intro j
          show Function.update h.free_slabs i rest j =
            if j = i then (h.free_slabs i).erase a else h.free_slabs j
          rw [Function.update_apply, hfsi, List.erase_cons_head])
      rw [Nat.zero_add] at hwf1
      obtain ⟨h2, hsp, hwf2, hdesc2, hsc2, hac2, hhg2⟩ :=
        split_carve_spec _ a (i + 1) np hwf1 hal hnp1 (by omega) (by omega)
          hseg hrun hmem
          (fun k hk => hwf.desc_at ha (by omega) (by omega))
          (by
            intro hg
            rcases hwf.ladder_next i a ha hg with g | g
            · exact g
            · exact absurd g (by rintro ⟨u1, u2⟩; omega))
          (fun c x hx => (hwf.cache_wf c x hx).1)
      refine ⟨a, h2, ?_, hwf2, hal, ?_, ?_, hdesc2, hsc2, hhg2⟩
      · simp only [acquire_pages, hfs0, hff, hfsi]
        rw [if_neg hguard, hsp]
      · rw [hac2]
        exact hseg
      · obtain ⟨g1, g2⟩ := hrun
        refine ⟨g1, ?_⟩
        simp only [PAGE_SIZE] at g2 ⊢
        omega
  · -- exact fit
    right
    have ha : a ∈ h.free_slabs (np - 1) := by
      rw [hfs0]
      exact List.mem_cons_self _ _
    obtain ⟨hal, hmem, hseg, hrun, hlen⟩ := hwf.run_facts ha
    rw [hnpe] at hmem hrun hlen
    have hwf1 := erase_run_WFr h (pageOf a + (np - 1 + 1)) 0 (np - 1) a
      (pageOf a)
      { h with free_slabs := Function.update h.free_slabs (np - 1) rest }
      (hwf.relocate_empty) ha (Or.inr ⟨rfl, rfl⟩) rfl rfl rfl rfl rfl
      (by
        intro j
        show Function.update h.free_slabs (np - 1) rest j =
          if j = np - 1 then (h.free_slabs (np - 1)).erase a
          else h.free_slabs j
        rw [Function.update_apply, hfs0, List.erase_cons_head])
    rw [Nat.zero_add, hnpe] at hwf1
    refine ⟨a, _, ?_, hwf1, hal, hseg, hrun, ?_, rfl, rfl⟩
    · simp only [acquire_pages, hfs0]
      rw [if_neg hguard]
    · intro k hk
      exact hwf.desc_at ha (by omega) (by omega)

/-- Stamping the carved run's descriptors `{LARGE_SLAB, header}` and
writing the `LargeSlabHeader` restores the steady-state invariant. -/
lemma stamp_large_WF (h1 : Heap) (a n : Nat) (h2 : Heap)
    (hwf : WFr h1 (pageOf a) n)
    (ha : a % PAGE_SIZE = 0) (hn : 1 ≤ n)
    (hb : segment_of a ∈ h1.active_segments)
    (hrun : runInSeg (segment_of a) a n)
    (hfree : ∀ k, k < n →
      h1.pageDesc (pageOf a + k) = ⟨PageStatus.FREE, some a⟩)
    (hpd : ∀ q, h2.pageDesc q = if inR (pageOf a) n q
      then ⟨PageStatus.LARGE_SLAB, some a⟩ else h1.pageDesc q)
    (hmm : ∀ x, h2.mem x = if x = a then some (SlabMem.large n)
      else h1.mem x)
    (hfs : h2.free_slabs = h1.free_slabs)
    (hsc : h2.slab_caches = h1.slab_caches)
    (hac : h2.active_segments = h1.active_segments)
    (hhg : h2.huge_segments = h1.huge_segments) :
    WF h2 := by
  have hZ : ∀ q, ¬ inR 0 0 q := by
    rintro q ⟨u1, u2⟩
    omega
  have hstat : ∀ q, inR (pageOf a) n q →
      (h1.pageDesc q).status = PageStatus.FREE := by
    rintro q ⟨g1, g2⟩
    have := hfree (q - pageOf a) (by omega)
    rw [show pageOf a + (q - pageOf a) = q by omega] at this
    rw [this]
  have hkeep : ∀ q, (h1.pageDesc q).status ≠ PageStatus.FREE →
      h2.pageDesc q = h1.pageDesc q := by
    intro q hs
    rw [hpd, if_neg (fun hc => hs (hstat q hc))]
  have haR : inR (pageOf a) n (pageOf a) := ⟨Nat.le_refl _, by omega⟩
  constructor
  case active_nodup => rw [hac]; exact hwf.active_nodup
  case active_aligned =>
    intro b hbm
    rw [hac] at hbm
    exact hwf.active_aligned b hbm
  case active_meta =>
    intro b hbm p hp
    rw [hac] at hbm
    have hm := hwf.active_meta b hbm p hp
    rw [hkeep _ (by rw [hm]; intro hx; exact PageStatus.noConfusion hx)]
    exact hm
  case huge_nodup => rw [hhg]; exact hwf.huge_nodup
  case huge_aligned =>
    intro b hbm
    rw [hhg] at hbm
    exact hwf.huge_aligned b hbm
  case huge_desc =>
    intro b hbm
    rw [hhg] at hbm
    have hm := hwf.huge_desc b hbm
    rw [hkeep _ (by rw [hm]; intro hx; exact PageStatus.noConfusion hx)]
    exact hm
  case active_not_huge =>
    intro b hbm
    rw [hac] at hbm
    rw [hhg]
    exact hwf.active_not_huge b hbm
  case ladder_top =>
    intro i hi
    rw [hfs]
    exact hwf.ladder_top i hi
  case ladder_mem =>
    intro i x hx
    rw [hfs] at hx
    obtain ⟨g1, g2, b, g3, g4⟩ := hwf.ladder_mem i x hx
    have hxa : x ≠ a := by
      intro he
      exact hwf.ladder_outR i x hx 0 (by omega) (by rw [he]; exact haR)
    refine ⟨?_, g2, b, by rw [hac]; exact g3, g4⟩
    rw [hmm, if_neg hxa]
    exact g1
  case ladder_desc =>
    intro i x hx k hk
    rw [hfs] at hx
    rw [hpd, if_neg (hwf.ladder_outR i x hx k hk)]
    exact hwf.ladder_desc i x hx k hk
  case ladder_outR =>
    intro i x hx k hk
    exact hZ _
  case ladder_nodup =>
    intro i
    rw [hfs]
    exact hwf.ladder_nodup i
  case ladder_once =>
    intro i j x hxi hxj
    rw [hfs] at hxi hxj
    exact hwf.ladder_once i j x hxi hxj
  case ladder_next =>
    intro i x hx hg
    rw [hfs] at hx
    left
    by_cases hcR : inR (pageOf a) n (pageOf x + (i + 1))
    · rw [hpd, if_pos hcR]
      intro hxx
      exact PageStatus.noConfusion hxx
    · rw [hpd, if_neg hcR]
      rcases hwf.ladder_next i x hx hg with g | g
      · exact g
      · exact absurd g hcR
  case ladder_prev =>
    intro i x hx hg
    rw [hfs] at hx
    left
    by_cases hcR : inR (pageOf a) n (pageOf x - 1)
    · rw [hpd, if_pos hcR]
      intro hxx
      exact PageStatus.noConfusion hxx
    · rw [hpd, if_neg hcR]
      rcases hwf.ladder_prev i x hx hg with g | g
      · exact g
      · exact absurd g hcR
  case free_complete =>
    intro b hbm p hp1 hp2 hfree2 _
    rw [hac] at hbm
    have hcR : ¬ inR (pageOf a) n (pageOf b + p) := by
      intro hc
      rw [hpd, if_pos hc] at hfree2
      exact PageStatus.noConfusion hfree2
    rw [hpd, if_neg hcR] at hfree2
    obtain ⟨i, x, g1, g2, g3⟩ :=
      hwf.free_complete b hbm p hp1 hp2 hfree2 hcR
    exact ⟨i, x, by rw [hfs]; exact g1, g2, g3⟩
  case large_wf =>
    intro q hq _
    by_cases hcR : inR (pageOf a) n q
    · refine ⟨a, n, ?_, ?_, ha, hn, hcR.1, hcR.2, ?_, ?_⟩
      · rw [hpd, if_pos hcR]
      · rw [hmm, if_pos rfl]
      · intro k hk
        exact ⟨by rw [hpd, if_pos ⟨by omega, by omega⟩], hZ _⟩
      · exact ⟨segment_of a, by rw [hac]; exact hb, hrun⟩
    · rw [hpd, if_neg hcR] at hq
      obtain ⟨a0, n0, g1, g2, g3, g4, g5, g6, g7, g8⟩ :=
        hwf.large_wf q hq hcR
      have ha0 : a0 ≠ a := by
        intro he
        exact (g7 0 (by omega)).2 (by rw [he, Nat.add_zero]; exact haR)
      obtain ⟨b, hbm, hrn⟩ := g8
      refine ⟨a0, n0, ?_, ?_, g3, g4, g5, g6, ?_, ?_⟩
      · rw [hpd, if_neg hcR]
        exact g1
      · rw [hmm, if_neg ha0]
        exact g2
      · intro k hk
        refine ⟨?_, hZ _⟩
        rw [hpd, if_neg (g7 k hk).2]
        exact (g7 k hk).1
      · exact ⟨b, by rw [hac]; exact hbm, hrn⟩
  case small_wf =>
    intro q hq _
    have hcR : ¬ inR (pageOf a) n q := by
      intro hc
      rw [hpd, if_pos hc] at hq
      exact PageStatus.noConfusion hq
    rw [hpd, if_neg hcR] at hq
    obtain ⟨a0, s, g1, g2, g3, g4, g5, g6, g7, g8, g9, g10⟩ :=
      hwf.small_wf q hq hcR
    have ha0 : a0 ≠ a := by
      intro he
      exact (g9 0 (by omega)).2 (by rw [he, Nat.add_zero]; exact haR)
    obtain ⟨b, hbm, hrn⟩ := g10
    refine ⟨a0, s, ?_, ?_, g3, g4, g5, ?_, g7, g8, ?_, ?_⟩
    · rw [hpd, if_neg hcR]
      exact g1
    · rw [hmm, if_neg ha0]
      exact g2
    · rw [hsc]
      exact g6
    · intro k hk
      refine ⟨?_, hZ _⟩
      rw [hpd, if_neg (g9 k hk).2]
      exact (g9 k hk).1
    · exact ⟨b, by rw [hac]; exact hbm, hrn⟩
  case cache_nodup =>
    intro c
    rw [hsc]
    exact hwf.cache_nodup c
  case cache_wf =>
    intro c x hx
    rw [hsc] at hx
    obtain ⟨g1, g2, s, g3, g4⟩ := hwf.cache_wf c x hx
    have hcR : ¬ inR (pageOf a) n (pageOf x) := by
      intro hc
      rw [hstat _ hc] at g1
      exact PageStatus.noConfusion g1
    have hxa : x ≠ a := by
      intro he
      exact hcR (by rw [he]; exact haR)
    refine ⟨?_, ?_, s, ?_, g4⟩
    · rw [hpd, if_neg hcR]
      exact g1
    · rw [hpd, if_neg hcR]
      exact g2
    · rw [hmm, if_neg hxa]
      exact g3

/-- Stamping the carved run as a small slab — construct the header in
place, mark every page `{SMALL_SLAB, header}`, link the slab into its
class cache (unless it came out of `allocate_block` already full) —
restores the steady-state invariant. -/
lemma stamp_small_WF (h1 : Heap) (a cid : Nat) (s' : SmallSlabState)
    (h4 : Heap)
    (hwf : WFr h1 (pageOf a) (getInfo cid).slab_pages)
    (ha : a % PAGE_SIZE = 0)
    (hpg : 1 ≤ (getInfo cid).slab_pages)
    (hb : segment_of a ∈ h1.active_segments)
    (hrun : runInSeg (segment_of a) a (getInfo cid).slab_pages)
    (hfree : ∀ k, k < (getInfo cid).slab_pages →
      h1.pageDesc (pageOf a + k) = ⟨PageStatus.FREE, some a⟩)
    (hsid : s'.slab_class_id = cid)
    (hinv : SmallInv s')
    (hcap : s'.free_count < (getInfo cid).slab_capacity)
    (hpd : ∀ q, h4.pageDesc q =
      if inR (pageOf a) (getInfo cid).slab_pages q
      then ⟨PageStatus.SMALL_SLAB, some a⟩ else h1.pageDesc q)
    (hmm : ∀ x, h4.mem x = if x = a then some (SlabMem.small s')
      else h1.mem x)
    (hfs : h4.free_slabs = h1.free_slabs)
    (hsc : ∀ c, h4.slab_caches c = if c = cid then
      (if s'.free_count = 0 then h1.slab_caches cid
        else a :: h1.slab_caches cid)
      else h1.slab_caches c)
    (hac : h4.active_segments = h1.active_segments)
    (hhg : h4.huge_segments = h1.huge_segments) :
    WF h4 := by
  have hZ : ∀ q, ¬ inR 0 0 q := by
    rintro q ⟨u1, u2⟩
    omega
  have hstat : ∀ q, inR (pageOf a) (getInfo cid).slab_pages q →
      (h1.pageDesc q).status = PageStatus.FREE := by
    rintro q ⟨g1, g2⟩
    have := hfree (q - pageOf a) (by omega)
    rw [show pageOf a + (q - pageOf a) = q by omega] at this
    rw [this]
  have hkeep : ∀ q, (h1.pageDesc q).status ≠ PageStatus.FREE →
      h4.pageDesc q = h1.pageDesc q := by
    intro q hs
    rw [hpd, if_neg (fun hc => hs (hstat q hc))]
  have haR : inR (pageOf a) (getInfo cid).slab_pages (pageOf a) :=
    ⟨Nat.le_refl _, by omega⟩
  have hnotc : ∀ c, a ∉ h1.slab_caches c := by
    intro c hcm
    have := (hwf.cache_wf c a hcm).1
    rw [hstat _ haR] at this
    exact PageStatus.noConfusion this
  have hmemc : ∀ c x, x ≠ a → (x ∈ h4.slab_caches c ↔ x ∈ h1.slab_caches c) := by
    intro c x hxa
    rw [hsc]
    split_ifs with hc1 hc2
    · subst hc1
      rfl
    · subst hc1
      constructor
      · intro hm
        rcases List.mem_cons.mp hm with he | hm2
        · exact absurd he hxa
        · exact hm2
      · exact fun hm => List.mem_cons_of_mem _ hm
    · rfl
  constructor
  case active_nodup => rw [hac]; exact hwf.active_nodup
  case active_aligned =>
    intro b hbm
    rw [hac] at hbm
    exact hwf.active_aligned b hbm
  case active_meta =>
    intro b hbm p hp
    rw [hac] at hbm
    have hm := hwf.active_meta b hbm p hp
    rw [hkeep _ (by rw [hm]; intro hx; exact PageStatus.noConfusion hx)]
    exact hm
  case huge_nodup => rw [hhg]; exact hwf.huge_nodup
  case huge_aligned =>
    intro b hbm
    rw [hhg] at hbm
    exact hwf.huge_aligned b hbm
  case huge_desc =>
    intro b hbm
    rw [hhg] at hbm
    have hm := hwf.huge_desc b hbm
    rw [hkeep _ (by rw [hm]; intro hx; exact PageStatus.noConfusion hx)]
    exact hm
  case active_not_huge =>
    intro b hbm
    rw [hac] at hbm
    rw [hhg]
    exact hwf.active_not_huge b hbm
  case ladder_top =>
    intro i hi
    rw [hfs]
    exact hwf.ladder_top i hi
  case ladder_mem =>
    intro i x hx
    rw [hfs] at hx
    obtain ⟨g1, g2, b, g3, g4⟩ := hwf.ladder_mem i x hx
    have hxa : x ≠ a := by
      intro he
      exact hwf.ladder_outR i x hx 0 (by omega) (by rw [he]; exact haR)
    refine ⟨?_, g2, b, by rw [hac]; exact g3, g4⟩
    rw [hmm, if_neg hxa]
    exact g1
  case ladder_desc =>
    intro i x hx k hk
    rw [hfs] at hx
    rw [hpd, if_neg (hwf.ladder_outR i x hx k hk)]
    exact hwf.ladder_desc i x hx k hk
  case ladder_outR =>
    intro i x hx k hk
    exact hZ _
  case ladder_nodup =>
    intro i
    rw [hfs]
    exact hwf.ladder_nodup i
  case ladder_once =>
    intro i j x hxi hxj
    rw [hfs] at hxi hxj
    exact hwf.ladder_once i j x hxi hxj
  case ladder_next =>
    intro i x hx hg
    rw [hfs] at hx
    left
    by_cases hcR : inR (pageOf a) (getInfo cid).slab_pages (pageOf x + (i + 1))
    · rw [hpd, if_pos hcR]
      intro hxx
      exact PageStatus.noConfusion hxx
    · rw [hpd, if_neg hcR]
      rcases hwf.ladder_next i x hx hg with g | g
      · exact g
      · exact absurd g hcR
  case ladder_prev =>
    intro i x hx hg
    rw [hfs] at hx
    left
    by_cases hcR : inR (pageOf a) (getInfo cid).slab_pages (pageOf x - 1)
    · rw [hpd, if_pos hcR]
      intro hxx
      exact PageStatus.noConfusion hxx
    · rw [hpd, if_neg hcR]
      rcases hwf.ladder_prev i x hx hg with g | g
      · exact g
      · exact absurd g hcR
  case free_complete =>
    intro b hbm p hp1 hp2 hfree2 _
    rw [hac] at hbm
    have hcR : ¬ inR (pageOf a) (getInfo cid).slab_pages (pageOf b + p) := by
      intro hc
      rw [hpd, if_pos hc] at hfree2
      exact PageStatus.noConfusion hfree2
    rw [hpd, if_neg hcR] at hfree2
    obtain ⟨i, x, g1, g2, g3⟩ :=
      hwf.free_complete b hbm p hp1 hp2 hfree2 hcR
    exact ⟨i, x, by rw [hfs]; exact g1, g2, g3⟩
  case large_wf =>
    intro q hq _
    have hcR : ¬ inR (pageOf a) (getInfo cid).slab_pages q := by
      intro hc
      rw [hpd, if_pos hc] at hq
      exact PageStatus.noConfusion hq
    rw [hpd, if_neg hcR] at hq
    obtain ⟨a0, n0, g1, g2, g3, g4, g5, g6, g7, g8⟩ :=
      hwf.large_wf q hq hcR
    have ha0 : a0 ≠ a := by
      intro he
      exact (g7 0 (by omega)).2 (by rw [he, Nat.add_zero]; exact haR)
    obtain ⟨b, hbm, hrn⟩ := g8
    refine ⟨a0, n0, ?_, ?_, g3, g4, g5, g6, ?_, ?_⟩
    · rw [hpd, if_neg hcR]
      exact g1
    · rw [hmm, if_neg ha0]
      exact g2
    · intro k hk
      refine ⟨?_, hZ _⟩
      rw [hpd, if_neg (g7 k hk).2]
      exact (g7 k hk).1
    · exact ⟨b, by rw [hac]; exact hbm, hrn⟩
  case small_wf =>
    intro q hq _
    by_cases hcR : inR (pageOf a) (getInfo cid).slab_pages q
    · refine ⟨a, s', ?_, ?_, ha, hinv, ?_, ?_, ?_, ?_, ?_, ?_⟩
      · rw [hpd, if_pos hcR]
      · rw [hmm, if_pos rfl]
      · rw [hsid]
        exact hcap
      · rw [hsid, hsc, if_pos rfl]
        constructor
        · intro hfc
          rw [if_neg (by omega)]
          exact List.mem_cons_self _ _
        · intro hm
          by_cases hfc : s'.free_count = 0
          · rw [if_pos hfc] at hm
            exact absurd hm (hnotc cid)
          · omega
      · exact hcR.1
      · rw [hsid]
        exact hcR.2
      · intro k hk
        rw [hsid] at hk
        refine ⟨?_, hZ _⟩
        rw [hpd, if_pos ⟨by omega, by omega⟩]
      · rw [hsid]
        exact ⟨segment_of a, by rw [hac]; exact hb, hrun⟩
    · rw [hpd, if_neg hcR] at hq
      obtain ⟨a0, s, g1, g2, g3, g4, g5, g6, g7, g8, g9, g10⟩ :=
        hwf.small_wf q hq hcR
      have ha0 : a0 ≠ a := by
        intro he
        exact (g9 0 (by omega)).2 (by rw [he, Nat.add_zero]; exact haR)
      obtain ⟨b, hbm, hrn⟩ := g10
      refine ⟨a0, s, ?_, ?_, g3, g4, g5, ?_, g7, g8, ?_, ?_⟩
      · rw [hpd, if_neg hcR]
        exact g1
      · rw [hmm, if_neg ha0]
        exact g2
      · rw [hmemc _ _ ha0]
        exact g6
      · intro k hk
        refine ⟨?_, hZ _⟩
        rw [hpd, if_neg (g9 k hk).2]
        exact (g9 k hk).1
      · exact ⟨b, by rw [hac]; exact hbm, hrn⟩
  case cache_nodup =>
    intro c
    rw [hsc]
    split_ifs with hc1 hc2
    · exact hwf.cache_nodup cid
    · exact List.nodup_cons.mpr ⟨hnotc cid, hwf.cache_nodup cid⟩
    · exact hwf.cache_nodup c
  case cache_wf =>
    intro c x hx
    by_cases hxa : x = a
    · subst hxa
      have hccid : c = cid ∧ s'.free_count ≠ 0 := by
        rw [hsc] at hx
        split_ifs at hx with hc1 hc2
        · exact absurd hx (hnotc cid)
        · exact ⟨hc1, hc2⟩
        · exact absurd hx (hnotc c)
      refine ⟨?_, ?_, s', ?_, by rw [hsid, hccid.1]⟩
      · rw [hpd, if_pos haR]
      · rw [hpd, if_pos haR]
      · rw [hmm, if_pos rfl]
    · rw [hmemc _ _ hxa] at hx
      obtain ⟨g1, g2, s, g3, g4⟩ := hwf.cache_wf c x hx
      have hcR : ¬ inR (pageOf a) (getInfo cid).slab_pages (pageOf x) := by
        intro hc
        rw [hstat _ hc] at g1
        exact PageStatus.noConfusion g1
      refine ⟨?_, ?_, s, ?_, g4⟩
      · rw [hpd, if_neg hcR]
        exact g1
      · rw [hpd, if_neg hcR]
        exact g2
      · rw [hmm, if_neg hxa]
        exact g3

/-- The small-path cache hit: `allocate_block` on the cached list head
succeeds, and writing back the updated header — unlinking the slab when
it just became full — restores the steady-state invariant. -/
lemma small_hit_WF (h : Heap) (cid a : Nat) (t : List Nat) (h3 : Heap)
    (hwf : WF h) (hhead : h.slab_caches cid = a :: t)
    (hpd : h3.pageDesc = h.pageDesc)
    (hmm : ∀ x, h3.mem x = if x = a
      then some (SlabMem.small (allocate_block (readSmall h a)).2)
      else h.mem x)
    (hfs : h3.free_slabs = h.free_slabs)
    (hsc : ∀ c, h3.slab_caches c =
      if (allocate_block (readSmall h a)).2.free_count = 0 then
        (if c = cid then (h.slab_caches cid).erase a else h.slab_caches c)
      else h.slab_caches c)
    (hac : h3.active_segments = h.active_segments)
    (hhg : h3.huge_segments = h.huge_segments) :
    WF h3 ∧ ∃ idx, (allocate_block (readSmall h a)).1 = some idx ∧
      idx < (getInfo (readSmall h a).slab_class_id).slab_capacity ∧
      (readSmall h a).slab_class_id = cid ∧ a % PAGE_SIZE = 0 := by
  have hZ : ∀ q, ¬ inR 0 0 q := by
    rintro q ⟨u1, u2⟩
    omega
  have hmc : a ∈ h.slab_caches cid := by
    rw [hhead]
    exact List.mem_cons_self _ _
  obtain ⟨g1, g2, s, g3, g4⟩ := hwf.cache_wf cid a hmc
  have hreads : readSmall h a = s := by rw [readSmall, g3]
  obtain ⟨a0, s0, p1, p2, p3, p4, p5, p6, p7, p8, p9, p10⟩ :=
    hwf.small_wf (pageOf a) g1 (hZ _)
  have ha0 : a = a0 := by
    rw [g2] at p1
    exact Option.some.inj p1
  subst ha0
  have hs0 : s = s0 := by
    rw [g3] at p2
    exact SlabMem.small.inj (Option.some.inj p2)
  subst hs0
  have hfc : 0 < s.free_count := p6.mpr (by rw [g4]; exact hmc)
  obtain ⟨idx, r1, ridx, rbit, rcls, rcnt, rrest⟩ :=
    allocate_block_some s p4 (by omega)
  rw [hreads] at hmm hsc ⊢
  have hnotother : ∀ c, c ≠ cid → a ∉ h.slab_caches c := by
    intro c hne hm
    obtain ⟨_, _, s2, hs2, hcl⟩ := hwf.cache_wf c a hm
    rw [g3] at hs2
    have hse : s = s2 := SlabMem.small.inj (Option.some.inj hs2)
    rw [← hse, g4] at hcl
    exact hne hcl.symm
  have hmemc : ∀ c x, x ≠ a →
      (x ∈ h3.slab_caches c ↔ x ∈ h.slab_caches c) := by
    intro c x hxa
    rw [hsc]
    split_ifs with hc1 hc2
    · rw [hc2]
      exact List.mem_erase_of_ne hxa
    · rfl
    · rfl
  have hacache : ∀ c, a ∈ h3.slab_caches c ↔
      ((allocate_block s).2.free_count ≠ 0 ∧ c = cid) := by
    intro c
    rw [hsc]
    split_ifs with hc1 hc2
    · constructor
      · intro hm
        obtain ⟨hne, _⟩ := ((hwf.cache_nodup cid).mem_erase_iff).mp hm
        exact absurd rfl hne
      · rintro ⟨hne, _⟩
        exact absurd hc1 hne
    · constructor
      · intro hm
        obtain ⟨_, _, s2, hs2, hcl⟩ := hwf.cache_wf c a hm
        rw [g3] at hs2
        have hse : s = s2 := SlabMem.small.inj (Option.some.inj hs2)
        rw [← hse, g4] at hcl
        exact absurd hcl.symm hc2
      · rintro ⟨hne, _⟩
        exact absurd hc1 hne
    · constructor
      · intro hm
        by_cases hcc : c = cid
        · exact ⟨hc1, hcc⟩
        · exact absurd hm (hnotother c hcc)
      · rintro ⟨_, rfl⟩
        exact hmc
  refine ⟨?_, idx, r1, ridx, g4, p3⟩
  constructor
  case active_nodup => rw [hac]; exact hwf.active_nodup
  case active_aligned =>
    intro b hbm
    rw [hac] at hbm
    exact hwf.active_aligned b hbm
  case active_meta =>
    intro b hbm p hp
    rw [hac] at hbm
    rw [hpd]
    exact hwf.active_meta b hbm p hp
  case huge_nodup => rw [hhg]; exact hwf.huge_nodup
  case huge_aligned =>
    intro b hbm
    rw [hhg] at hbm
    exact hwf.huge_aligned b hbm
  case huge_desc =>
    intro b hbm
    rw [hhg] at hbm
    rw [hpd]
    exact hwf.huge_desc b hbm
  case active_not_huge =>
    intro b hbm
    rw [hac] at hbm
    rw [hhg]
    exact hwf.active_not_huge b hbm
  case ladder_top =>
    intro i hi
    rw [hfs]
    exact hwf.ladder_top i hi
  case ladder_mem =>
    intro i x hx
    rw [hfs] at hx
    obtain ⟨q1, q2, b, q3, q4⟩ := hwf.ladder_mem i x hx
    have hxa : x ≠ a := by
      intro he
      rw [he, g3] at q1
      exact SlabMem.noConfusion (Option.some.inj q1)
    refine ⟨?_, q2, b, by rw [hac]; exact q3, q4⟩
    rw [hmm, if_neg hxa]
    exact q1
  case ladder_desc =>
    intro i x hx k hk
    rw [hfs] at hx
    rw [hpd]
    exact hwf.ladder_desc i x hx k hk
  case ladder_outR =>
    intro i x hx k hk
    exact hZ _
  case ladder_nodup =>
    intro i
    rw [hfs]
    exact hwf.ladder_nodup i
  case ladder_once =>
    intro i j x hxi hxj
    rw [hfs] at hxi hxj
    exact hwf.ladder_once i j x hxi hxj
  case ladder_next =>
    intro i x hx hg
    rw [hfs] at hx
    left
    rw [hpd]
    rcases hwf.ladder_next i x hx hg with g | g
    · exact g
    · exact absurd g (hZ _)
  case ladder_prev =>
    intro i x hx hg
    rw [hfs] at hx
    left
    rw [hpd]
    rcases hwf.ladder_prev i x hx hg with g | g
    · exact g
    · exact absurd g (hZ _)
  case free_complete =>
    intro b hbm p hp1 hp2 hfree2 _
    rw [hac] at hbm
    rw [hpd] at hfree2
    obtain ⟨i, x, q1, q2, q3⟩ :=
      hwf.free_complete b hbm p hp1 hp2 hfree2 (hZ _)
    exact ⟨i, x, by rw [hfs]; exact q1, q2, q3⟩
  case large_wf =>
    intro q hq _
    rw [hpd] at hq
    obtain ⟨a1, n1, q1, q2, q3, q4, q5, q6, q7, q8⟩ :=
      hwf.large_wf q hq (hZ _)
    have ha1 : a1 ≠ a := by
      intro he
      rw [he, g3] at q2
      exact SlabMem.noConfusion (Option.some.inj q2)
    obtain ⟨b, hbm, hrn⟩ := q8
    refine ⟨a1, n1, by rw [hpd]; exact q1, ?_, q3, q4, q5, q6, ?_, ?_⟩
    · rw [hmm, if_neg ha1]
      exact q2
    · intro k hk
      exact ⟨by rw [hpd]; exact (q7 k hk).1, hZ _⟩
    · exact ⟨b, by rw [hac]; exact hbm, hrn⟩
  case small_wf =>
    intro q hq _
    rw [hpd] at hq
    obtain ⟨a1, s1, q1, q2, q3, q4, q5, q6, q7, q8, q9, q10⟩ :=
      hwf.small_wf q hq (hZ _)
    obtain ⟨b, hbm, hrn⟩ := q10
    by_cases ha1 : a = a1
    · subst ha1
      have hs1 : s = s1 := by
        rw [g3] at q2
        exact SlabMem.small.inj (Option.some.inj q2)
      subst hs1
      refine ⟨a, (allocate_block s).2,
        by rw [hpd]; exact q1, by rw [hmm, if_pos rfl], q3, rrest.2, ?_, ?_,
        q7, by rw [rcls]; exact q8, ?_, ?_⟩
      · rw [rcls]
        omega
      · rw [hacache, rcls, g4]
        constructor
        · intro hx
          exact ⟨by omega, rfl⟩
        · rintro ⟨hx, _⟩
          omega
      · intro k hk
        rw [rcls] at hk
        exact ⟨by rw [hpd]; exact (q9 k hk).1, hZ _⟩
      · rw [rcls]
        exact ⟨b, by rw [hac]; exact hbm, hrn⟩
    · have hne1 : a1 ≠ a := fun he => ha1 he.symm
      have hs1a : h3.mem a1 = some (SlabMem.small s1) := by
        rw [hmm, if_neg hne1]
        exact q2
      refine ⟨a1, s1, by rw [hpd]; exact q1, hs1a, q3, q4, q5, ?_, q7, q8,
        ?_, ?_⟩
      · rw [hmemc _ _ hne1]
        exact q6
      · intro k hk
        exact ⟨by rw [hpd]; exact (q9 k hk).1, hZ _⟩
      · exact ⟨b, by rw [hac]; exact hbm, hrn⟩
  case cache_nodup =>
    intro c
    rw [hsc]
    split_ifs with hc1 hc2
    · exact (hwf.cache_nodup cid).erase a
    · exact hwf.cache_nodup c
    · exact hwf.cache_nodup c
  case cache_wf =>
    intro c x hx
    by_cases hxa : a = x
    · subst hxa
      have := (hacache c).mp hx
      obtain ⟨hfc0, rfl⟩ := this
      refine ⟨by rw [hpd]; exact g1, by rw [hpd]; exact g2,
        (allocate_block s).2, by rw [hmm, if_pos rfl], by rw [rcls]; exact g4⟩
    · have hnex : x ≠ a := fun he => hxa he.symm
      rw [hmemc _ _ hnex] at hx
      obtain ⟨q1, q2, s2, q3, q4⟩ := hwf.cache_wf c x hx
      refine ⟨by rw [hpd]; exact q1, by rw [hpd]; exact q2, s2, ?_, q4⟩
      rw [hmm, if_neg hnex]
      exact q3

lemma u16_eq (m : Nat) (hm : m < 65536) : u16 m = m := by
  rw [u16]
  omega

/-- Final stage of `release_slab`: reinitializing the merged run (all of
the exempt region) and prepending it restores the invariant, with the
run's descriptors, header and ladder position as written. -/
lemma reinit_run_WF (h2 : Heap) (S N : Nat)
    (hwf : WFr h2 (pageOf S) N)
    (hS : S % PAGE_SIZE = 0) (hN : 1 ≤ N)
    (hb : segment_of S ∈ h2.active_segments)
    (hrun : runInSeg (segment_of S) S N)
    (hafter : S + N * PAGE_SIZE < segment_of S + SEGMENT_SIZE →
      (h2.pageDesc (pageOf S + N)).status ≠ PageStatus.FREE)
    (hbefore : segment_of S + segMetadataPages * PAGE_SIZE < S →
      (h2.pageDesc (pageOf S - 1)).status ≠ PageStatus.FREE)
    (hcacheT : ∀ c x, x ∈ h2.slab_caches c → ¬ inR (pageOf S) N (pageOf x)) :
    WF (prepend_to_freelist (initialize_as_free_slab h2 S N) S) ∧
    (∀ k, k < N →
      (prepend_to_freelist (initialize_as_free_slab h2 S N) S).pageDesc
        (pageOf S + k) = ⟨PageStatus.FREE, some S⟩) ∧
    (prepend_to_freelist (initialize_as_free_slab h2 S N) S).mem S =
      some (SlabMem.large N) ∧
    (∀ j, (prepend_to_freelist (initialize_as_free_slab h2 S N) S).free_slabs
      j = if j = N - 1 then S :: h2.free_slabs (N - 1)
      else h2.free_slabs j) := by
  obtain ⟨hpd, hmm, hfs, hsc, hac, hhg, hsl⟩ := reinit_components h2 S N hN
  have hwf' := reinit_WFr h2 (pageOf S) N S N 0 0 _ hwf
    (by
      intro q
      unfold inR
      omega)
    (by
      rintro q ⟨⟨u1, u2⟩, ⟨u3, u4⟩⟩
      omega)
    hS hN hb hrun
    (fun hg => Or.inl (hafter hg))
    (fun hg => Or.inl (hbefore hg))
    hcacheT
    (fun q => hpd q) (fun x => hmm x) (fun j => hfs j) hsc hac hhg
  refine ⟨hwf', ?_, ?_, fun j => hfs j⟩
  · intro k hk
    rw [hpd, if_pos ⟨by omega, by omega⟩]
  · rw [hmm, if_pos rfl]

/-- A FREE page just past the exempt region begins a ladder run whose
header the page's descriptor names. -/
lemma run_starting_at (h : Heap) (p n : Nat)
    (hwf : WFr h (pageOf p) n)
    (ha : p % PAGE_SIZE = 0) (hn : 1 ≤ n)
    (hb : segment_of p ∈ h.active_segments)
    (hrun : runInSeg (segment_of p) p n)
    (hlt : p + n * PAGE_SIZE < segment_of p + SEGMENT_SIZE)
    (hfree : (h.pageDesc (pageOf p + n)).status = PageStatus.FREE) :
    ∃ j x, x ∈ h.free_slabs j ∧ pageOf x = pageOf p + n ∧
      h.pageDesc (pageOf p + n) = ⟨PageStatus.FREE, some x⟩ := by
  have hbal := hwf.active_aligned _ hb
  have hbpal := seg_aligned_page _ hbal
  have hpages := run_pages (segment_of p) p n hbal ha hrun
  have hoff : pageOf p + n < pageOf (segment_of p) + PAGES_PER_SEGMENT := by
    simp only [pageOf, PAGE_SIZE, SEGMENT_SIZE, PAGES_PER_SEGMENT]
      at ha hbpal hlt ⊢
    omega
  have hq : pageOf (segment_of p) +
      (pageOf p + n - pageOf (segment_of p)) = pageOf p + n := by
    omega
  obtain ⟨j, x, hx, hle, hltx⟩ := hwf.free_complete (segment_of p) hb
    (pageOf p + n - pageOf (segment_of p)) (by omega) (by omega)
    (by rw [hq]; exact hfree)
    (by rw [hq]; rintro ⟨u1, u2⟩; omega)
  rw [hq] at hle hltx
  have hstart : pageOf x = pageOf p + n := by
    by_contra hne
    have h1 : pageOf x ≤ pageOf p + n - 1 := by omega
    exact hwf.outR_at hx (q := pageOf p + n - 1) (by omega) (by omega)
      ⟨by omega, by omega⟩
  refine ⟨j, x, hx, hstart, ?_⟩
  exact hwf.desc_at hx (by omega) (by omega)

/-- A FREE page just before the exempt region ends a ladder run whose
header the page's descriptor names. -/
lemma run_ending_at (h : Heap) (p n : Nat)
    (hwf : WFr h (pageOf p) n)
    (ha : p % PAGE_SIZE = 0) (hn : 1 ≤ n)
    (hb : segment_of p ∈ h.active_segments)
    (hrun : runInSeg (segment_of p) p n)
    (hgt : segment_of p + segMetadataPages * PAGE_SIZE < p)
    (hfree : (h.pageDesc (pageOf p - 1)).status = PageStatus.FREE) :
    ∃ m y, y ∈ h.free_slabs m ∧ pageOf y + (m + 1) = pageOf p ∧
      h.pageDesc (pageOf p - 1) = ⟨PageStatus.FREE, some y⟩ := by
  have hbal := hwf.active_aligned _ hb
  have hbpal := seg_aligned_page _ hbal
  have hpages := run_pages (segment_of p) p n hbal ha hrun
  have hoff : pageOf (segment_of p) + segMetadataPages < pageOf p := by
    simp only [pageOf, PAGE_SIZE, SEGMENT_SIZE, PAGES_PER_SEGMENT,
      segMetadataPages, segmentHeaderSize] at ha hbpal hgt ⊢
    omega
  have hq : pageOf (segment_of p) +
      (pageOf p - 1 - pageOf (segment_of p)) = pageOf p - 1 := by
    omega
  obtain ⟨m, y, hy, hle, hlty⟩ := hwf.free_complete (segment_of p) hb
    (pageOf p - 1 - pageOf (segment_of p)) (by omega) (by omega)
    (by rw [hq]; exact hfree)
    (by rw [hq]; rintro ⟨u1, u2⟩; omega)
  rw [hq] at hle hlty
  have hend : pageOf y + (m + 1) = pageOf p := by
    by_contra hne
    exact hwf.outR_at hy (q := pageOf p) (by omega) (by omega)
      ⟨Nat.le_refl _, by omega⟩
  refine ⟨m, y, hy, hend, ?_⟩
  exact hwf.desc_at hy (by omega) (by omega)

/-- Unfolding of `release_slab` given the values of its two coalescing
stages. -/
lemma release_slab_eval (h : Heap) (p n : Nat) (h1 : Heap) (n1 : Nat)
    (h2 : Heap) (n2 S : Nat)
    (hfwd : (if p + n * PAGE_SIZE < segment_of p + SEGMENT_SIZE ∧
        (h.pageDesc (pageOf (p + n * PAGE_SIZE))).status = PageStatus.FREE
      then (remove_from_freelist h
          ((h.pageDesc (pageOf (p + n * PAGE_SIZE))).slab_ptr),
        u16 (n + readLargePages
          (remove_from_freelist h
            ((h.pageDesc (pageOf (p + n * PAGE_SIZE))).slab_ptr))
          (((h.pageDesc (pageOf (p + n * PAGE_SIZE))).slab_ptr).getD 0)))
      else (h, n)) = (h1, n1))
    (hbwd : (if p > segment_of p +
        (segmentHeaderSize + PAGE_SIZE - 1) / PAGE_SIZE * PAGE_SIZE ∧
        (h1.pageDesc (pageOf (p - PAGE_SIZE))).status = PageStatus.FREE
      then (remove_from_freelist h1
          ((h1.pageDesc (pageOf (p - PAGE_SIZE))).slab_ptr),
        u16 (n1 + readLargePages
          (remove_from_freelist h1
            ((h1.pageDesc (pageOf (p - PAGE_SIZE))).slab_ptr))
          (((h1.pageDesc (pageOf (p - PAGE_SIZE))).slab_ptr).getD 0)),
        ((h1.pageDesc (pageOf (p - PAGE_SIZE))).slab_ptr).getD 0)
      else (h1, n1, p)) = (h2, n2, S)) :
    release_slab h p n =
      prepend_to_freelist (initialize_as_free_slab h2 S n2) S := by
  simp only [release_slab]
  rw [hfwd]
  dsimp only
  rw [hbwd]

lemma readLargePages_congr (h h' : Heap) (he : h'.mem = h.mem) (a : Nat) :
    readLargePages h' a = readLargePages h a := by
  rw [readLargePages, readLargePages, he]

/-- `ThreadHeap::release_slab` on a live run whose descriptors still
name it: the result is well-formed, and the released run is coalesced
with its FREE neighbors exactly as the source does — the forward
neighbor run is unlinked and its length accumulated, the backward
neighbor run is unlinked, accumulated and becomes the new start, and the
merged run is reinitialized and prepended to its ladder list. -/
lemma release_slab_spec (h : Heap) (p n : Nat)
    (hwf : WFr h (pageOf p) n)
    (ha : p % PAGE_SIZE = 0) (hn : 1 ≤ n) (hn5 : n ≤ 509)
    (hb : segment_of p ∈ h.active_segments)
    (hrun : runInSeg (segment_of p) p n)
    (hdescR : ∀ k, k < n → (h.pageDesc (pageOf p + k)).slab_ptr = some p)
    (hpcache : ∀ c, p ∉ h.slab_caches c) :
    WF (release_slab h p n) ∧
    ∃ S N,
      S % PAGE_SIZE = 0 ∧ 1 ≤ N ∧
      pageOf S ≤ pageOf p ∧ pageOf p + n ≤ pageOf S + N ∧
      (∀ k, k < N → (release_slab h p n).pageDesc (pageOf S + k) =
        ⟨PageStatus.FREE, some S⟩) ∧
      (release_slab h p n).mem S = some (SlabMem.large N) ∧
      (∃ t, (release_slab h p n).free_slabs (N - 1) = S :: t) ∧
      ((p + n * PAGE_SIZE < segment_of p + SEGMENT_SIZE ∧
          (h.pageDesc (pageOf p + n)).status = PageStatus.FREE) →
        ∃ x jx, (h.pageDesc (pageOf p + n)).slab_ptr = some x ∧
          x ∈ h.free_slabs jx ∧
          (∀ j, x ∉ (release_slab h p n).free_slabs j) ∧
          pageOf S + N = pageOf p + n + (jx + 1)) ∧
      ((¬ (p + n * PAGE_SIZE < segment_of p + SEGMENT_SIZE ∧
          (h.pageDesc (pageOf p + n)).status = PageStatus.FREE)) →
        pageOf S + N = pageOf p + n) ∧
      ((segment_of p + segMetadataPages * PAGE_SIZE < p ∧
          (h.pageDesc (pageOf p - 1)).status = PageStatus.FREE) →
        ∃ y jy, (h.pageDesc (pageOf p - 1)).slab_ptr = some y ∧
          y ∈ h.free_slabs jy ∧ S = y ∧ pageOf y + (jy + 1) = pageOf p) ∧
      ((¬ (segment_of p + segMetadataPages * PAGE_SIZE < p ∧
          (h.pageDesc (pageOf p - 1)).status = PageStatus.FREE)) →
        S = p) := by
  have h512 : PAGES_PER_SEGMENT = 512 := by decide
  have hm3 : segMetadataPages = 3 := by decide
  have hbal := hwf.active_aligned _ hb
  have hbpal : segment_of p % PAGE_SIZE = 0 := seg_aligned_page _ hbal
  have hpages := run_pages (segment_of p) p n hbal ha hrun
  have hpn : pageOf (p + n * PAGE_SIZE) = pageOf p + n := pageOf_add_mul p n
  have hpm : pageOf (p - PAGE_SIZE) = pageOf p - 1 := by
    obtain ⟨hr1, hr2⟩ := hrun
    simp only [pageOf, PAGE_SIZE, segMetadataPages, segmentHeaderSize] at hr1 ⊢
    omega
  have hcacheR : ∀ c x, x ∈ h.slab_caches c →
      ¬ inR (pageOf p) n (pageOf x) := by
    rintro c x hx ⟨g1, g2⟩
    have hcw := hwf.cache_wf c x hx
    have hsp := hdescR (pageOf x - pageOf p) (by omega)
    rw [show pageOf p + (pageOf x - pageOf p) = pageOf x by omega,
      hcw.2.1] at hsp
    have hxp : x = p := Option.some.inj hsp
    exact hpcache c (hxp ▸ hx)
  have hsmall : ∀ c x, x ∈ h.slab_caches c →
      (h.pageDesc (pageOf x)).status = PageStatus.SMALL_SLAB :=
    fun c x hx => (hwf.cache_wf c x hx).1
  by_cases hF : p + n * PAGE_SIZE < segment_of p + SEGMENT_SIZE ∧
      (h.pageDesc (pageOf (p + n * PAGE_SIZE))).status = PageStatus.FREE
  · -- forward neighbor is merged
    have hfree1 : (h.pageDesc (pageOf p + n)).status = PageStatus.FREE := by
      rw [← hpn]
      exact hF.2
    obtain ⟨jx, x, hxmem, hxstart, hxdesc⟩ :=
      run_starting_at h p n hwf ha hn hb hrun hF.1 hfree1
    obtain ⟨hxal, hxmemL, hxsegm, hxrun, hxlen⟩ := hwf.run_facts hxmem
    have hxbal := hwf.active_aligned _ hxsegm
    have hxp := run_pages (segment_of x) x (jx + 1) hxbal hxal hxrun
    have hFp : pageOf p + n < pageOf (segment_of p) + PAGES_PER_SEGMENT := by
      have := hF.1
      simp only [pageOf, PAGE_SIZE, SEGMENT_SIZE, PAGES_PER_SEGMENT]
        at ha hbpal this ⊢
      omega
    have hxseg : segment_of x = segment_of p :=
      page_seg_unique _ _ (pageOf x) hxbal hbal
        (by omega) (by omega) (by omega) (by omega)
    have hxaddr : x = p + n * PAGE_SIZE := by
      rw [← pageOf_mul x hxal, hxstart, Nat.add_mul, pageOf_mul p ha]
    have hread_x : readLargePages h x = jx + 1 := by
      rw [readLargePages, hxmemL]
    obtain ⟨h1, hh1⟩ : ∃ h1, h1 = { h with
        free_slabs := Function.update h.free_slabs jx
          ((h.free_slabs jx).erase x) } := ⟨_, rfl⟩
    have hfs1 : ∀ j, h1.free_slabs j = if j = jx
        then (h.free_slabs jx).erase x else h.free_slabs j := by
      intro j
      rw [hh1]
      exact Function.update_apply _ _ _ _
    have hpd1 : h1.pageDesc = h.pageDesc := by rw [hh1]
    have hmm1 : h1.mem = h.mem := by rw [hh1]
    have hwf1 : WFr h1 (pageOf p) (n + (jx + 1)) :=
      erase_run_WFr h (pageOf p) n jx x (pageOf p) h1 hwf hxmem
        (Or.inl ⟨rfl, hxstart⟩) hpd1 hmm1 (by rw [hh1]) (by rw [hh1])
        (by rw [hh1]) hfs1
    have hread1 : readLargePages h1 x = jx + 1 := by
      rw [readLargePages_congr h h1 hmm1 x, hread_x]
    have hremx : remove_from_freelist h (some x) = h1 := by
      simp only [remove_from_freelist]
      rw [hread_x, if_neg (by omega)]
      simp only [Nat.add_sub_cancel]
      rw [hh1]
    have hxgone : ∀ j, x ∉ h1.free_slabs j := by
      intro j hmem'
      rw [hfs1] at hmem'
      split_ifs at hmem' with hji
      · exact (((hwf.ladder_nodup jx).mem_erase_iff).mp hmem').1 rfl
      · exact hji (hwf.ladder_once j jx x hmem' hxmem)
    have hfwd : (if p + n * PAGE_SIZE < segment_of p + SEGMENT_SIZE ∧
        (h.pageDesc (pageOf (p + n * PAGE_SIZE))).status = PageStatus.FREE
      then (remove_from_freelist h
          ((h.pageDesc (pageOf (p + n * PAGE_SIZE))).slab_ptr),
        u16 (n + readLargePages
          (remove_from_freelist h
            ((h.pageDesc (pageOf (p + n * PAGE_SIZE))).slab_ptr))
          (((h.pageDesc (pageOf (p + n * PAGE_SIZE))).slab_ptr).getD 0)))
      else (h, n)) = (h1, n + (jx + 1)) := by
      have hnh : (h.pageDesc (pageOf (p + n * PAGE_SIZE))).slab_ptr =
          some x := by
        rw [hpn, hxdesc]
      rw [if_pos hF, hnh, Option.getD_some, hremx, hread1,
        u16_eq _ (by omega)]
    by_cases hB : p > segment_of p +
        (segmentHeaderSize + PAGE_SIZE - 1) / PAGE_SIZE * PAGE_SIZE ∧
        (h1.pageDesc (pageOf (p - PAGE_SIZE))).status = PageStatus.FREE
    · -- both neighbors merged
      have hBg : segment_of p + segMetadataPages * PAGE_SIZE < p := hB.1
      have hfree2 : (h.pageDesc (pageOf p - 1)).status = PageStatus.FREE := by
        rw [← hpm, ← hpd1]
        exact hB.2
      obtain ⟨jy, y, hymem, hyend, hydesc⟩ :=
        run_ending_at h p n hwf ha hn hb hrun hBg hfree2
      obtain ⟨hyal, hymemL, hysegm, hyrun, hylen⟩ := hwf.run_facts hymem
      have hybal := hwf.active_aligned _ hysegm
      have hyp := run_pages (segment_of y) y (jy + 1) hybal hyal hyrun
      have hyseg : segment_of y = segment_of p :=
        page_seg_unique _ _ (pageOf p - 1) hybal hbal
          (by omega) (by omega) (by omega) (by omega)
      have hyaddr : y + (jy + 1) * PAGE_SIZE = p := by
        rw [← addr_of_page y (jy + 1) hyal, hyend, pageOf_mul p ha]
      have hyne : y ≠ x := by
        intro he
        rw [he] at hyend
        omega
      have hymem1 : y ∈ h1.free_slabs jy := by
        rw [hfs1]
        split_ifs with hji
        · subst hji
          exact (List.mem_erase_of_ne hyne).mpr hymem
        · exact hymem
      have hread_y1 : readLargePages h1 y = jy + 1 := by
        rw [readLargePages_congr h h1 hmm1 y, readLargePages, hymemL]
      obtain ⟨h2, hh2⟩ : ∃ h2, h2 = { h1 with
          free_slabs := Function.update h1.free_slabs jy
            ((h1.free_slabs jy).erase y) } := ⟨_, rfl⟩
      have hfs2 : ∀ j, h2.free_slabs j = if j = jy
          then (h1.free_slabs jy).erase y else h1.free_slabs j := by
        intro j
        rw [hh2]
        exact Function.update_apply _ _ _ _
      have hpd2 : h2.pageDesc = h.pageDesc := by rw [hh2, hh1]
      have hmm2 : h2.mem = h.mem := by rw [hh2, hh1]
      have hsc2 : h2.slab_caches = h.slab_caches := by rw [hh2, hh1]
      have hac2 : h2.active_segments = h.active_segments := by rw [hh2, hh1]
      have hwf2 : WFr h2 (pageOf y) (n + (jx + 1) + (jy + 1)) :=
        erase_run_WFr h1 (pageOf p) (n + (jx + 1)) jy y (pageOf y) h2 hwf1
          hymem1 (Or.inr ⟨rfl, hyend⟩) (by rw [hh2]) (by rw [hh2])
          (by rw [hh2]) (by rw [hh2]) (by rw [hh2]) hfs2
      have hremy : remove_from_freelist h1 (some y) = h2 := by
        simp only [remove_from_freelist]
        rw [hread_y1, if_neg (by omega)]
        simp only [Nat.add_sub_cancel]
        rw [hh2]
      have hread_y2 : readLargePages h2 y = jy + 1 := by
        rw [readLargePages_congr h h2 hmm2 y, readLargePages, hymemL]
      have hbwd : (if p > segment_of p +
          (segmentHeaderSize + PAGE_SIZE - 1) / PAGE_SIZE * PAGE_SIZE ∧
          (h1.pageDesc (pageOf (p - PAGE_SIZE))).status = PageStatus.FREE
        then (remove_from_freelist h1
            ((h1.pageDesc (pageOf (p - PAGE_SIZE))).slab_ptr),
          u16 ((n + (jx + 1)) + readLargePages
            (remove_from_freelist h1
              ((h1.pageDesc (pageOf (p - PAGE_SIZE))).slab_ptr))
            (((h1.pageDesc (pageOf (p - PAGE_SIZE))).slab_ptr).getD 0)),
          ((h1.pageDesc (pageOf (p - PAGE_SIZE))).slab_ptr).getD 0)
        else (h1, n + (jx + 1), p)) =
          (h2, n + (jx + 1) + (jy + 1), y) := by
        have hph : (h1.pageDesc (pageOf (p - PAGE_SIZE))).slab_ptr =
            some y := by
          rw [hpd1, hpm, hydesc]
        rw [if_pos hB, hph, Option.getD_some, hremy, hread_y2,
          u16_eq _ (by omega)]
      have hrel := release_slab_eval h p n h1 (n + (jx + 1)) h2
        (n + (jx + 1) + (jy + 1)) y hfwd hbwd
      have hNeq : pageOf y + (n + (jx + 1) + (jy + 1)) =
          pageOf x + (jx + 1) := by
        omega
      obtain ⟨hwfF, hdescF, hmemF, hfsF⟩ := reinit_run_WF h2 y
        (n + (jx + 1) + (jy + 1)) hwf2 hyal (by omega)
        (by rw [hac2, hyseg]; exact hb)
        (by
          rw [hyseg]
          refine ⟨?_, ?_⟩
          · rw [← hyseg]
            exact hyrun.1
          · have hx2 := hxrun.2
            rw [hxseg] at hx2
            simp only [PAGE_SIZE] at hyaddr hxaddr hx2 ⊢
            omega)
        (by
          intro hg
          rw [hpd2, hNeq]
          have hgx : x + (jx + 1) * PAGE_SIZE <
              segment_of x + SEGMENT_SIZE := by
            rw [hxseg, ← hyseg]
            simp only [PAGE_SIZE] at hyaddr hxaddr hg ⊢
            omega
          rcases hwf.ladder_next jx x hxmem hgx with g | g
          · exact g
          · rw [hxstart] at g
            rcases g with ⟨u1, u2⟩
            omega)
        (by
          intro hg
          rw [hpd2]
          rcases hwf.ladder_prev jy y hymem hg with g | g
          · exact g
          · rcases g with ⟨u1, u2⟩
            omega)
        (by
          intro c x' hx' hin
          rw [hsc2] at hx'
          obtain ⟨g1, g2⟩ := hin
          have hsm := hsmall c x' hx'
          by_cases hr1 : pageOf x' < pageOf p
          · have hd := hwf.desc_at hymem (q := pageOf x') g1 (by omega)
            rw [hd] at hsm
            exact PageStatus.noConfusion hsm
          · by_cases hr2 : pageOf x' < pageOf p + n
            · exact hcacheR c x' hx' ⟨by omega, hr2⟩
            · have hd := hwf.desc_at hxmem (q := pageOf x')
                (by omega) (by omega)
              rw [hd] at hsm
              exact PageStatus.noConfusion hsm)
      rw [hrel]
      refine ⟨hwfF, y, n + (jx + 1) + (jy + 1), hyal, by omega, by omega,
        by omega, hdescF, hmemF, ⟨_, by rw [hfsF, if_pos rfl]⟩,
        ?_, ?_, ?_, ?_⟩
      · intro _
        refine ⟨x, jx, by rw [hxdesc], hxmem, ?_, by omega⟩
        intro j hmem'
        rw [hfsF] at hmem'
        have hx2gone : ∀ j2, x ∉ h2.free_slabs j2 := by
          intro j2 hmem2
          rw [hfs2] at hmem2
          split_ifs at hmem2 with hji
          · exact hxgone jy (List.mem_of_mem_erase hmem2)
          · exact hxgone j2 hmem2
        split_ifs at hmem' with hjN
        · rcases List.mem_cons.mp hmem' with he | hm2
          · exact hyne he.symm
          · exact hx2gone _ hm2
        · exact hx2gone _ hmem'
      · intro hnF
        exact absurd ⟨hF.1, hfree1⟩ hnF
      · intro _
        exact ⟨y, jy, by rw [hydesc], hymem, rfl, hyend⟩
      · intro hnB
        exact absurd ⟨hBg, hfree2⟩ hnB
    · -- only the forward neighbor merged
      have hbwd : (if p > segment_of p +
          (segmentHeaderSize + PAGE_SIZE - 1) / PAGE_SIZE * PAGE_SIZE ∧
          (h1.pageDesc (pageOf (p - PAGE_SIZE))).status = PageStatus.FREE
        then (remove_from_freelist h1
            ((h1.pageDesc (pageOf (p - PAGE_SIZE))).slab_ptr),
          u16 ((n + (jx + 1)) + readLargePages
            (remove_from_freelist h1
              ((h1.pageDesc (pageOf (p - PAGE_SIZE))).slab_ptr))
            (((h1.pageDesc (pageOf (p - PAGE_SIZE))).slab_ptr).getD 0)),
          ((h1.pageDesc (pageOf (p - PAGE_SIZE))).slab_ptr).getD 0)
        else (h1, n + (jx + 1), p)) = (h1, n + (jx + 1), p) := by
        rw [if_neg hB]
      have hrel := release_slab_eval h p n h1 (n + (jx + 1)) h1
        (n + (jx + 1)) p hfwd hbwd
      obtain ⟨hwfF, hdescF, hmemF, hfsF⟩ := reinit_run_WF h1 p
        (n + (jx + 1)) hwf1 ha (by omega)
        (by rw [hh1]; exact hb)
        (by
          refine ⟨hrun.1, ?_⟩
          have hx2 := hxrun.2
          rw [hxseg] at hx2
          simp only [PAGE_SIZE] at hxaddr hx2 ⊢
          omega)
        (by
          intro hg
          rw [hpd1]
          have heq : pageOf p + (n + (jx + 1)) = pageOf x + (jx + 1) := by
            omega
          rw [heq]
          have hgx : x + (jx + 1) * PAGE_SIZE <
              segment_of x + SEGMENT_SIZE := by
            rw [hxseg]
            simp only [PAGE_SIZE] at hxaddr hg ⊢
            omega
          rcases hwf.ladder_next jx x hxmem hgx with g | g
          · exact g
          · rw [hxstart] at g
            rcases g with ⟨u1, u2⟩
            omega)
        (by
          intro hg
          intro hc
          exact hB ⟨hg, by rw [hpm]; exact hc⟩)
        (by
          intro c x' hx' hin
          have hx'h : x' ∈ h.slab_caches c := by
            rw [hh1] at hx'
            exact hx'
          obtain ⟨g1, g2⟩ := hin
          have hsm := hsmall c x' hx'h
          by_cases hr2 : pageOf x' < pageOf p + n
          · exact hcacheR c x' hx'h ⟨g1, hr2⟩
          · have hd := hwf.desc_at hxmem (q := pageOf x')
              (by omega) (by omega)
            rw [hd] at hsm
            exact PageStatus.noConfusion hsm)
      rw [hrel]
      refine ⟨hwfF, p, n + (jx + 1), ha, by omega, by omega, by omega,
        hdescF, hmemF, ⟨_, by rw [hfsF, if_pos rfl]⟩, ?_, ?_, ?_, ?_⟩
      · intro _
        refine ⟨x, jx, by rw [hxdesc], hxmem, ?_, by omega⟩
        intro j hmem'
        rw [hfsF] at hmem'
        split_ifs at hmem' with hjN
        · rcases List.mem_cons.mp hmem' with he | hm2
          · rw [he] at hxstart
            omega
          · exact hxgone _ hm2
        · exact hxgone j hmem'
      · intro hnF
        exact absurd ⟨hF.1, hfree1⟩ hnF
      · intro hB'
        exact absurd ⟨hB'.1, by rw [hpd1, hpm]; exact hB'.2⟩ hB
      · intro _
        rfl
  · -- no forward merge
    have hfwd : (if p + n * PAGE_SIZE < segment_of p + SEGMENT_SIZE ∧
        (h.pageDesc (pageOf (p + n * PAGE_SIZE))).status = PageStatus.FREE
      then (remove_from_freelist h
          ((h.pageDesc (pageOf (p + n * PAGE_SIZE))).slab_ptr),
        u16 (n + readLargePages
          (remove_from_freelist h
            ((h.pageDesc (pageOf (p + n * PAGE_SIZE))).slab_ptr))
          (((h.pageDesc (pageOf (p + n * PAGE_SIZE))).slab_ptr).getD 0)))
      else (h, n)) = (h, n) := by
      rw [if_neg hF]
    have hnFree : p + n * PAGE_SIZE < segment_of p + SEGMENT_SIZE →
        (h.pageDesc (pageOf p + n)).status ≠ PageStatus.FREE := by
      intro hg hc
      exact hF ⟨hg, by rw [hpn]; exact hc⟩
    by_cases hB : p > segment_of p +
        (segmentHeaderSize + PAGE_SIZE - 1) / PAGE_SIZE * PAGE_SIZE ∧
        (h.pageDesc (pageOf (p - PAGE_SIZE))).status = PageStatus.FREE
    · -- only the backward neighbor merged
      have hBg : segment_of p + segMetadataPages * PAGE_SIZE < p := hB.1
      have hfree2 : (h.pageDesc (pageOf p - 1)).status = PageStatus.FREE := by
        rw [← hpm]
        exact hB.2
      obtain ⟨jy, y, hymem, hyend, hydesc⟩ :=
        run_ending_at h p n hwf ha hn hb hrun hBg hfree2
      obtain ⟨hyal, hymemL, hysegm, hyrun, hylen⟩ := hwf.run_facts hymem
      have hybal := hwf.active_aligned _ hysegm
      have hyp := run_pages (segment_of y) y (jy + 1) hybal hyal hyrun
      have hyseg : segment_of y = segment_of p :=
        page_seg_unique _ _ (pageOf p - 1) hybal hbal
          (by omega) (by omega) (by omega) (by omega)
      have hyaddr : y + (jy + 1) * PAGE_SIZE = p := by
        rw [← addr_of_page y (jy + 1) hyal, hyend, pageOf_mul p ha]
      have hread_y : readLargePages h y = jy + 1 := by
        rw [readLargePages, hymemL]
      obtain ⟨h2, hh2⟩ : ∃ h2, h2 = { h with
          free_slabs := Function.update h.free_slabs jy
            ((h.free_slabs jy).erase y) } := ⟨_, rfl⟩
      have hfs2 : ∀ j, h2.free_slabs j = if j = jy
          then (h.free_slabs jy).erase y else h.free_slabs j := by
        intro j
        rw [hh2]
        exact Function.update_apply _ _ _ _
      have hpd2 : h2.pageDesc = h.pageDesc := by rw [hh2]
      have hmm2 : h2.mem = h.mem := by rw [hh2]
      have hwf2 : WFr h2 (pageOf y) (n + (jy + 1)) :=
        erase_run_WFr h (pageOf p) n jy y (pageOf y) h2 hwf hymem
          (Or.inr ⟨rfl, hyend⟩) hpd2 hmm2 (by rw [hh2]) (by rw [hh2])
          (by rw [hh2]) hfs2
      have hremy : remove_from_freelist h (some y) = h2 := by
        simp only [remove_from_freelist]
        rw [hread_y, if_neg (by omega)]
        simp only [Nat.add_sub_cancel]
        rw [hh2]
      have hread_y2 : readLargePages h2 y = jy + 1 := by
        rw [readLargePages_congr h h2 hmm2 y, readLargePages, hymemL]
      have hbwd : (if p > segment_of p +
          (segmentHeaderSize + PAGE_SIZE - 1) / PAGE_SIZE * PAGE_SIZE ∧
          (h.pageDesc (pageOf (p - PAGE_SIZE))).status = PageStatus.FREE
        then (remove_from_freelist h
            ((h.pageDesc (pageOf (p - PAGE_SIZE))).slab_ptr),
          u16 (n + readLargePages
            (remove_from_freelist h
              ((h.pageDesc (pageOf (p - PAGE_SIZE))).slab_ptr))
            (((h.pageDesc (pageOf (p - PAGE_SIZE))).slab_ptr).getD 0)),
          ((h.pageDesc (pageOf (p - PAGE_SIZE))).slab_ptr).getD 0)
        else (h, n, p)) = (h2, n + (jy + 1), y) := by
        have hph : (h.pageDesc (pageOf (p - PAGE_SIZE))).slab_ptr =
            some y := by
          rw [hpm, hydesc]
        rw [if_pos hB, hph, Option.getD_some, hremy, hread_y2,
          u16_eq _ (by omega)]
      have hrel := release_slab_eval h p n h n h2 (n + (jy + 1)) y hfwd hbwd
      obtain ⟨hwfF, hdescF, hmemF, hfsF⟩ := reinit_run_WF h2 y
        (n + (jy + 1)) hwf2 hyal (by omega)
        (by rw [hh2, hyseg]; exact hb)
        (by
          rw [hyseg]
          refine ⟨?_, ?_⟩
          · rw [← hyseg]
            exact hyrun.1
          · have hr2 := hrun.2
            simp only [PAGE_SIZE] at hyaddr hr2 ⊢
            omega)
        (by
          intro hg
          rw [hpd2]
          have heq : pageOf y + (n + (jy + 1)) = pageOf p + n := by
            omega
          rw [heq]
          apply hnFree
          rw [hyseg] at hg
          simp only [PAGE_SIZE] at hyaddr hg ⊢
          omega)
        (by
          intro hg
          rw [hpd2]
          rcases hwf.ladder_prev jy y hymem hg with g | g
          · exact g
          · rcases g with ⟨u1, u2⟩
            omega)
        (by
          intro c x' hx' hin
          have hx'h : x' ∈ h.slab_caches c := by
            rw [hh2] at hx'
            exact hx'
          obtain ⟨g1, g2⟩ := hin
          have hsm := hsmall c x' hx'h
          by_cases hr1 : pageOf x' < pageOf p
          · have hd := hwf.desc_at hymem (q := pageOf x') g1 (by omega)
            rw [hd] at hsm
            exact PageStatus.noConfusion hsm
          · exact hcacheR c x' hx'h ⟨by omega, by omega⟩)
      rw [hrel]
      refine ⟨hwfF, y, n + (jy + 1), hyal, by omega, by omega, by omega,
        hdescF, hmemF, ⟨_, by rw [hfsF, if_pos rfl]⟩, ?_, ?_, ?_, ?_⟩
      · intro hF'
        exact absurd ⟨hF'.1, by rw [hpn]; exact hF'.2⟩ hF
      · intro _
        omega
      · intro _
        exact ⟨y, jy, by rw [hydesc], hymem, rfl, hyend⟩
      · intro hnB
        exact absurd ⟨hBg, hfree2⟩ hnB
    · -- no coalescing at all
      have hbwd : (if p > segment_of p +
          (segmentHeaderSize + PAGE_SIZE - 1) / PAGE_SIZE * PAGE_SIZE ∧
          (h.pageDesc (pageOf (p - PAGE_SIZE))).status = PageStatus.FREE
        then (remove_from_freelist h
            ((h.pageDesc (pageOf (p - PAGE_SIZE))).slab_ptr),
          u16 (n + readLargePages
            (remove_from_freelist h
              ((h.pageDesc (pageOf (p - PAGE_SIZE))).slab_ptr))
            (((h.pageDesc (pageOf (p - PAGE_SIZE))).slab_ptr).getD 0)),
          ((h.pageDesc (pageOf (p - PAGE_SIZE))).slab_ptr).getD 0)
        else (h, n, p)) = (h, n, p) := by
        rw [if_neg hB]
      have hrel := release_slab_eval h p n h n h n p hfwd hbwd
      obtain ⟨hwfF, hdescF, hmemF, hfsF⟩ := reinit_run_WF h p n hwf ha hn
        hb hrun
        (by
          intro hg
          exact hnFree hg)
        (by
          intro hg
          intro hc
          exact hB ⟨hg, by rw [hpm]; exact hc⟩)
        hcacheR
      rw [hrel]
      refine ⟨hwfF, p, n, ha, hn, by omega, by omega, hdescF, hmemF,
        ⟨_, by rw [hfsF, if_pos rfl]⟩, ?_, ?_, ?_, ?_⟩
      · intro hF'
        exact absurd ⟨hF'.1, by rw [hpn]; exact hF'.2⟩ hF
      · intro _
        rfl
      · intro hB'
        exact absurd ⟨hB'.1, by rw [hpm]; exact hB'.2⟩ hB
      · intro _
        rfl

/-- A live large slab's pages can be exempted from the steady-state
invariant (the first step of freeing it). -/
lemma large_detach_WFr (h : Heap) (a n0 : Nat)
    (hwf : WF h)
    (hmem : h.mem a = some (SlabMem.large n0))
    (hn : 1 ≤ n0)
    (hdesc : ∀ k, k < n0 →
      h.pageDesc (pageOf a + k) = ⟨PageStatus.LARGE_SLAB, some a⟩) :
    WFr h (pageOf a) n0 := by
  have hZ : ∀ q, ¬ inR 0 0 q := by
    rintro q ⟨u1, u2⟩
    omega
  have hRdesc : ∀ q, inR (pageOf a) n0 q →
      h.pageDesc q = ⟨PageStatus.LARGE_SLAB, some a⟩ := by
    rintro q ⟨g1, g2⟩
    have := hdesc (q - pageOf a) (by omega)
    rwa [show pageOf a + (q - pageOf a) = q by omega] at this
  constructor
  case active_nodup => exact hwf.active_nodup
  case active_aligned => exact hwf.active_aligned
  case active_meta => exact hwf.active_meta
  case huge_nodup => exact hwf.huge_nodup
  case huge_aligned => exact hwf.huge_aligned
  case huge_desc => exact hwf.huge_desc
  case active_not_huge => exact hwf.active_not_huge
  case ladder_top => exact hwf.ladder_top
  case ladder_mem => exact hwf.ladder_mem
  case ladder_desc => exact hwf.ladder_desc
  case ladder_outR =>
    intro i x hx k hk hc
    have h1 := hwf.ladder_desc i x hx k hk
    rw [hRdesc _ hc] at h1
    exact PageStatus.noConfusion (congrArg PageDescriptor.status h1)
  case ladder_nodup => exact hwf.ladder_nodup
  case ladder_once => exact hwf.ladder_once
  case ladder_next =>
    intro i x hx hg
    rcases hwf.ladder_next i x hx hg with g | g
    · exact Or.inl g
    · exact absurd g (hZ _)
  case ladder_prev =>
    intro i x hx hg
    rcases hwf.ladder_prev i x hx hg with g | g
    · exact Or.inl g
    · exact absurd g (hZ _)
  case free_complete =>
    intro b hbm q hq1 hq2 hfree _
    exact hwf.free_complete b hbm q hq1 hq2 hfree (hZ _)
  case large_wf =>
    intro q hq hnR
    obtain ⟨a1, n1, g1, g2, g3, g4, g5, g6, g7, g8⟩ :=
      hwf.large_wf q hq (hZ _)
    refine ⟨a1, n1, g1, g2, g3, g4, g5, g6, ?_, g8⟩
    intro k hk
    refine ⟨(g7 k hk).1, ?_⟩
    intro hc
    have hd1 := (g7 k hk).1
    rw [hRdesc _ hc] at hd1
    have ha1 : a = a1 :=
      Option.some.inj (congrArg PageDescriptor.slab_ptr hd1)
    rw [← ha1, hmem] at g2
    have hn1 : n0 = n1 := by
      have := Option.some.inj g2
      exact SlabMem.large.inj this
    rw [← ha1] at g5 g6
    exact hnR ⟨g5, by omega⟩
  case small_wf =>
    intro q hq hnR
    obtain ⟨a1, s1, g1, g2, g3, g4, g5, g6, g7, g8, g9, g10⟩ :=
      hwf.small_wf q hq (hZ _)
    refine ⟨a1, s1, g1, g2, g3, g4, g5, g6, g7, g8, ?_, g10⟩
    intro k hk
    refine ⟨(g9 k hk).1, ?_⟩
    intro hc
    have hd1 := (g9 k hk).1
    rw [hRdesc _ hc] at hd1
    exact PageStatus.noConfusion (congrArg PageDescriptor.status hd1)
  case cache_nodup => exact hwf.cache_nodup
  case cache_wf => exact hwf.cache_wf

/-- Detaching a small slab that just became empty: write back its
header, unlink it from its class cache, and its pages are exempt — the
preconditions of `release_slab_spec` all hold. -/
lemma small_detach_WFr (h : Heap) (a : Nat) (s s' : SmallSlabState)
    (h2 : Heap) (hwf : WF h)
    (hq0 : h.pageDesc (pageOf a) = ⟨PageStatus.SMALL_SLAB, some a⟩)
    (hmem : h.mem a = some (SlabMem.small s))
    (hcl : s'.slab_class_id = s.slab_class_id)
    (hpd : h2.pageDesc = h.pageDesc)
    (hmm2 : ∀ x, h2.mem x = if x = a then some (SlabMem.small s')
      else h.mem x)
    (hfs : h2.free_slabs = h.free_slabs)
    (hsc : ∀ c, h2.slab_caches c = if c = s.slab_class_id
      then (h.slab_caches s.slab_class_id).erase a
      else h.slab_caches c)
    (hac : h2.active_segments = h.active_segments)
    (hhg : h2.huge_segments = h.huge_segments) :
    WFr h2 (pageOf a) (getInfo s.slab_class_id).slab_pages ∧
    a % PAGE_SIZE = 0 ∧
    segment_of a ∈ h2.active_segments ∧
    runInSeg (segment_of a) a (getInfo s.slab_class_id).slab_pages ∧
    1 ≤ (getInfo s.slab_class_id).slab_pages ∧
    (getInfo s.slab_class_id).slab_pages ≤ 509 ∧
    (∀ k, k < (getInfo s.slab_class_id).slab_pages →
      (h2.pageDesc (pageOf a + k)).slab_ptr = some a) ∧
    (∀ c, a ∉ h2.slab_caches c) := by
  have hZ : ∀ q, ¬ inR 0 0 q := by
    rintro q ⟨u1, u2⟩
    omega
  have h512 : PAGES_PER_SEGMENT = 512 := by decide
  have hm3 : segMetadataPages = 3 := by decide
  obtain ⟨a1, s1, p1, p2, p3, p4, p5, p6, p7, p8, p9, p10⟩ :=
    hwf.small_wf (pageOf a)
      (by rw [hq0]) (hZ _)
  have ha1 : a = a1 := by
    rw [hq0] at p1
    exact Option.some.inj p1
  subst ha1
  have hs1 : s = s1 := by
    rw [hmem] at p2
    exact SlabMem.small.inj (Option.some.inj p2)
  subst hs1
  obtain ⟨b, hbm, hrn⟩ := p10
  have hbal := hwf.active_aligned b hbm
  have hpg1 : 1 ≤ (getInfo s.slab_class_id).slab_pages := by omega
  have hseg : segment_of a = b :=
    run_seg_eq b a (getInfo s.slab_class_id).slab_pages hbal hrn hpg1
  have hlen := run_len_le b a (getInfo s.slab_class_id).slab_pages hbal hrn
  have hRdesc : ∀ q, inR (pageOf a) (getInfo s.slab_class_id).slab_pages q →
      h.pageDesc q = ⟨PageStatus.SMALL_SLAB, some a⟩ := by
    rintro q ⟨g1, g2⟩
    have := (p9 (q - pageOf a) (by omega)).1
    rwa [show pageOf a + (q - pageOf a) = q by omega] at this
  have hnotc : ∀ c, c ≠ s.slab_class_id → a ∉ h.slab_caches c := by
    intro c hne hm
    obtain ⟨_, _, s2, hs2, hcl2⟩ := hwf.cache_wf c a hm
    rw [hmem] at hs2
    have hse : s = s2 := SlabMem.small.inj (Option.some.inj hs2)
    rw [← hse] at hcl2
    exact hne hcl2.symm
  have hgone : ∀ c, a ∉ h2.slab_caches c := by
    intro c hm
    rw [hsc] at hm
    split_ifs at hm with hc1
    · exact (((hwf.cache_nodup _).mem_erase_iff).mp hm).1 rfl
    · exact hnotc c hc1 hm
  have hmemc : ∀ c x, x ≠ a →
      (x ∈ h2.slab_caches c ↔ x ∈ h.slab_caches c) := by
    intro c x hxa
    rw [hsc]
    split_ifs with hc1
    · subst hc1
      exact List.mem_erase_of_ne hxa
    · rfl
  refine ⟨?_, p3, by rw [hac, hseg]; exact hbm, by rw [hseg]; exact hrn,
    hpg1, by omega, ?_, hgone⟩
  swap
  · intro k hk
    rw [hpd, (p9 k hk).1]
  constructor
  case active_nodup => rw [hac]; exact hwf.active_nodup
  case active_aligned =>
    intro b' hbm'
    rw [hac] at hbm'
    exact hwf.active_aligned b' hbm'
  case active_meta =>
    intro b' hbm' q hq
    rw [hac] at hbm'
    rw [hpd]
    exact hwf.active_meta b' hbm' q hq
  case huge_nodup => rw [hhg]; exact hwf.huge_nodup
  case huge_aligned =>
    intro b' hbm'
    rw [hhg] at hbm'
    exact hwf.huge_aligned b' hbm'
  case huge_desc =>
    intro b' hbm'
    rw [hhg] at hbm'
    rw [hpd]
    exact hwf.huge_desc b' hbm'
  case active_not_huge =>
    intro b' hbm'
    rw [hac] at hbm'
    rw [hhg]
    exact hwf.active_not_huge b' hbm'
  case ladder_top =>
    intro i hi
    rw [hfs]
    exact hwf.ladder_top i hi
  case ladder_mem =>
    intro i x hx
    rw [hfs] at hx
    obtain ⟨g1, g2, b', g3, g4⟩ := hwf.ladder_mem i x hx
    have hxa : x ≠ a := by
      intro he
      rw [he, hmem] at g1
      exact SlabMem.noConfusion (Option.some.inj g1)
    refine ⟨?_, g2, b', by rw [hac]; exact g3, g4⟩
    rw [hmm2, if_neg hxa]
    exact g1
  case ladder_desc =>
    intro i x hx k hk
    rw [hfs] at hx
    rw [hpd]
    exact hwf.ladder_desc i x hx k hk
  case ladder_outR =>
    intro i x hx k hk hc
    rw [hfs] at hx
    have h1 := hwf.ladder_desc i x hx k hk
    rw [hRdesc _ hc] at h1
    exact PageStatus.noConfusion (congrArg PageDescriptor.status h1)
  case ladder_nodup =>
    intro i
    rw [hfs]
    exact hwf.ladder_nodup i
  case ladder_once =>
    intro i j x hxi hxj
    rw [hfs] at hxi hxj
    exact hwf.ladder_once i j x hxi hxj
  case ladder_next =>
    intro i x hx hg
    rw [hfs] at hx
    left
    rw [hpd]
    rcases hwf.ladder_next i x hx hg with g | g
    · exact g
    · exact absurd g (hZ _)
  case ladder_prev =>
    intro i x hx hg
    rw [hfs] at hx
    left
    rw [hpd]
    rcases hwf.ladder_prev i x hx hg with g | g
    · exact g
    · exact absurd g (hZ _)
  case free_complete =>
    intro b' hbm' q hq1 hq2 hfree _
    rw [hac] at hbm'
    rw [hpd] at hfree
    obtain ⟨i, x, g1, g2, g3⟩ :=
      hwf.free_complete b' hbm' q hq1 hq2 hfree (hZ _)
    exact ⟨i, x, by rw [hfs]; exact g1, g2, g3⟩
  case large_wf =>
    intro q hq hnR
    rw [hpd] at hq
    obtain ⟨a1, n1, g1, g2, g3, g4, g5, g6, g7, g8⟩ :=
      hwf.large_wf q hq (hZ _)
    have ha1 : a1 ≠ a := by
      intro he
      rw [he, hmem] at g2
      exact SlabMem.noConfusion (Option.some.inj g2)
    obtain ⟨b', hbm', hrn'⟩ := g8
    refine ⟨a1, n1, by rw [hpd]; exact g1, ?_, g3, g4, g5, g6, ?_, ?_⟩
    · rw [hmm2, if_neg ha1]
      exact g2
    · intro k hk
      refine ⟨by rw [hpd]; exact (g7 k hk).1, ?_⟩
      intro hc
      have hd1 := (g7 k hk).1
      rw [hRdesc _ hc] at hd1
      exact PageStatus.noConfusion (congrArg PageDescriptor.status hd1)
    · exact ⟨b', by rw [hac]; exact hbm', hrn'⟩
  case small_wf =>
    intro q hq hnR
    rw [hpd] at hq
    obtain ⟨a1, s1, g1, g2, g3, g4, g5, g6, g7, g8, g9, g10⟩ :=
      hwf.small_wf q hq (hZ _)
    have ha1 : a1 ≠ a := by
      intro he
      subst he
      have hs1 : s = s1 := by
        rw [hmem] at g2
        exact SlabMem.small.inj (Option.some.inj g2)
      exact hnR ⟨g7, by rw [hs1]; exact g8⟩
    obtain ⟨b', hbm', hrn'⟩ := g10
    refine ⟨a1, s1, by rw [hpd]; exact g1, ?_, g3, g4, g5, ?_, g7, g8,
      ?_, ?_⟩
    · rw [hmm2, if_neg ha1]
      exact g2
    · rw [hmemc _ _ ha1]
      exact g6
    · intro k hk
      refine ⟨by rw [hpd]; exact (g9 k hk).1, ?_⟩
      intro hc
      have hd1 := (g9 k hk).1
      rw [hRdesc _ hc] at hd1
      have hae : a = a1 :=
        Option.some.inj (congrArg PageDescriptor.slab_ptr hd1)
      exact ha1 hae.symm
    · exact ⟨b', by rw [hac]; exact hbm', hrn'⟩
  case cache_nodup =>
    intro c
    rw [hsc]
    split_ifs with hc1
    · exact (hwf.cache_nodup _).erase a
    · exact hwf.cache_nodup c
  case cache_wf =>
    intro c x hx
    have hxa : x ≠ a := by
      intro he
      rw [he] at hx
      exact hgone c hx
    rw [hmemc _ _ hxa] at hx
    obtain ⟨g1, g2, s2, g3, g4⟩ := hwf.cache_wf c x hx
    refine ⟨by rw [hpd]; exact g1, by rw [hpd]; exact g2, s2, ?_, g4⟩
    rw [hmm2, if_neg hxa]
    exact g3

/-- Writing back a small slab's header (same class, still partial) and
fixing its cache membership to match its free count preserves the
steady-state invariant. -/
lemma small_write_WF (h : Heap) (a : Nat) (s s' : SmallSlabState)
    (h2 : Heap) (hwf : WF h)
    (hq0 : h.pageDesc (pageOf a) = ⟨PageStatus.SMALL_SLAB, some a⟩)
    (hmem : h.mem a = some (SlabMem.small s))
    (hcl : s'.slab_class_id = s.slab_class_id)
    (hinv' : SmallInv s')
    (hcap' : s'.free_count < (getInfo s.slab_class_id).slab_capacity)
    (hpd : h2.pageDesc = h.pageDesc)
    (hmm2 : ∀ x, h2.mem x = if x = a then some (SlabMem.small s')
      else h.mem x)
    (hfs : h2.free_slabs = h.free_slabs)
    (hsc_mem : ∀ c x, x ≠ a →
      (x ∈ h2.slab_caches c ↔ x ∈ h.slab_caches c))
    (hsc_a : ∀ c, a ∈ h2.slab_caches c ↔
      (0 < s'.free_count ∧ c = s.slab_class_id))
    (hsc_nodup : ∀ c, (h2.slab_caches c).Nodup)
    (hac : h2.active_segments = h.active_segments)
    (hhg : h2.huge_segments = h.huge_segments) :
    WF h2 := by
  have hZ : ∀ q, ¬ inR 0 0 q := by
    rintro q ⟨u1, u2⟩
    omega
  constructor
  case active_nodup => rw [hac]; exact hwf.active_nodup
  case active_aligned =>
    intro b hbm
    rw [hac] at hbm
    exact hwf.active_aligned b hbm
  case active_meta =>
    intro b hbm q hq
    rw [hac] at hbm
    rw [hpd]
    exact hwf.active_meta b hbm q hq
  case huge_nodup => rw [hhg]; exact hwf.huge_nodup
  case huge_aligned =>
    intro b hbm
    rw [hhg] at hbm
    exact hwf.huge_aligned b hbm
  case huge_desc =>
    intro b hbm
    rw [hhg] at hbm
    rw [hpd]
    exact hwf.huge_desc b hbm
  case active_not_huge =>
    intro b hbm
    rw [hac] at hbm
    rw [hhg]
    exact hwf.active_not_huge b hbm
  case ladder_top =>
    intro i hi
    rw [hfs]
    exact hwf.ladder_top i hi
  case ladder_mem =>
    intro i x hx
    rw [hfs] at hx
    obtain ⟨g1, g2, b, g3, g4⟩ := hwf.ladder_mem i x hx
    have hxa : x ≠ a := by
      intro he
      rw [he, hmem] at g1
      exact SlabMem.noConfusion (Option.some.inj g1)
    refine ⟨?_, g2, b, by rw [hac]; exact g3, g4⟩
    rw [hmm2, if_neg hxa]
    exact g1
  case ladder_desc =>
    intro i x hx k hk
    rw [hfs] at hx
    rw [hpd]
    exact hwf.ladder_desc i x hx k hk
  case ladder_outR =>
    intro i x hx k hk
    exact hZ _
  case ladder_nodup =>
    intro i
    rw [hfs]
    exact hwf.ladder_nodup i
  case ladder_once =>
    intro i j x hxi hxj
    rw [hfs] at hxi hxj
    exact hwf.ladder_once i j x hxi hxj
  case ladder_next =>
    intro i x hx hg
    rw [hfs] at hx
    left
    rw [hpd]
    rcases hwf.ladder_next i x hx hg with g | g
    · exact g
    · exact absurd g (hZ _)
  case ladder_prev =>
    intro i x hx hg
    rw [hfs] at hx
    left
    rw [hpd]
    rcases hwf.ladder_prev i x hx hg with g | g
    · exact g
    · exact absurd g (hZ _)
  case free_complete =>
    intro b hbm q hq1 hq2 hfree _
    rw [hac] at hbm
    rw [hpd] at hfree
    obtain ⟨i, x, g1, g2, g3⟩ :=
      hwf.free_complete b hbm q hq1 hq2 hfree (hZ _)
    exact ⟨i, x, by rw [hfs]; exact g1, g2, g3⟩
  case large_wf =>
    intro q hq _
    rw [hpd] at hq
    obtain ⟨a1, n1, g1, g2, g3, g4, g5, g6, g7, g8⟩ :=
      hwf.large_wf q hq (hZ _)
    have ha1 : a1 ≠ a := by
      intro he
      rw [he, hmem] at g2
      exact SlabMem.noConfusion (Option.some.inj g2)
    obtain ⟨b, hbm, hrn⟩ := g8
    refine ⟨a1, n1, by rw [hpd]; exact g1, ?_, g3, g4, g5, g6, ?_, ?_⟩
    · rw [hmm2, if_neg ha1]
      exact g2
    · intro k hk
      exact ⟨by rw [hpd]; exact (g7 k hk).1, hZ _⟩
    · exact ⟨b, by rw [hac]; exact hbm, hrn⟩
  case small_wf =>
    intro q hq _
    rw [hpd] at hq
    obtain ⟨a1, s1, g1, g2, g3, g4, g5, g6, g7, g8, g9, g10⟩ :=
      hwf.small_wf q hq (hZ _)
    obtain ⟨b, hbm, hrn⟩ := g10
    by_cases ha1 : a = a1
    · subst ha1
      have hs1 : s = s1 := by
        rw [hmem] at g2
        exact SlabMem.small.inj (Option.some.inj g2)
      subst hs1
      refine ⟨a, s', by rw [hpd]; exact g1, by rw [hmm2, if_pos rfl],
        g3, hinv', by rw [hcl]; exact hcap', ?_,
        g7, by rw [hcl]; exact g8, ?_, ?_⟩
      · rw [hcl, hsc_a]
        constructor
        · intro hx
          exact ⟨hx, rfl⟩
        · rintro ⟨hx, _⟩
          exact hx
      · intro k hk
        rw [hcl] at hk
        exact ⟨by rw [hpd]; exact (g9 k hk).1, hZ _⟩
      · rw [hcl]
        exact ⟨b, by rw [hac]; exact hbm, hrn⟩
    · have hne1 : a1 ≠ a := fun he => ha1 he.symm
      refine ⟨a1, s1, by rw [hpd]; exact g1, ?_, g3, g4, g5, ?_, g7, g8,
        ?_, ?_⟩
      · rw [hmm2, if_neg hne1]
        exact g2
      · rw [hsc_mem _ _ hne1]
        exact g6
      · intro k hk
        exact ⟨by rw [hpd]; exact (g9 k hk).1, hZ _⟩
      · exact ⟨b, by rw [hac]; exact hbm, hrn⟩
  case cache_nodup => exact hsc_nodup
  case cache_wf =>
    intro c x hx
    by_cases hxa : a = x
    · subst hxa
      obtain ⟨_, hcc⟩ := (hsc_a c).mp hx
      subst hcc
      refine ⟨by rw [hpd, hq0], by rw [hpd, hq0], s', ?_, hcl⟩
      rw [hmm2, if_pos rfl]
    · have hnex : x ≠ a := fun he => hxa he.symm
      rw [hsc_mem _ _ hnex] at hx
      obtain ⟨q1, q2, s2, q3, q4⟩ := hwf.cache_wf c x hx
      refine ⟨by rw [hpd]; exact q1, by rw [hpd]; exact q2, s2, ?_, q4⟩
      rw [hmm2, if_neg hnex]
      exact q3

lemma blockSize_pos : ∀ i, i < numClasses → 0 < (getInfo i).block_size := by
  decide

lemma setBitsBelow_le (bm : List Nat) : ∀ c, setBitsBelow bm c ≤ c := by
  intro c
  induction c with
  | zero => exact Nat.le_refl _
  | succ c ih =>
    rw [setBitsBelow]
    split_ifs <;> omega

/-- `free(nullptr)` is a no-op. -/
lemma free_null (h : Heap) : free h 0 = h := by
  simp only [free]
  rw [if_pos trivial]

/-- `free` on a pointer into a huge segment unlinks and unmaps the
segment. -/
lemma free_dispatch_huge (h : Heap) (p : Nat) (hp0 : p ≠ 0)
    (hst : (h.pageDesc (pageOf (segment_of p))).status =
      PageStatus.HUGE_SLAB) :
    free h p = { h with
      huge_segments := h.huge_segments.erase (segment_of p) } := by
  simp only [free]
  rw [if_neg hp0, if_pos hst]

/-- `free` dispatch when the page's `slab_ptr` is null. -/
lemma free_dispatch_none (h : Heap) (p : Nat) (hp0 : p ≠ 0)
    (hhg : ¬ (h.pageDesc (pageOf (segment_of p))).status =
      PageStatus.HUGE_SLAB)
    (hptr : (h.pageDesc (pageOf p)).slab_ptr = none) :
    free h p = h := by
  simp only [free, hptr]
  rw [if_neg hp0, if_neg hhg]

/-- `free` dispatch to the large-slab branch. -/
lemma free_dispatch_large (h : Heap) (p a : Nat) (hp0 : p ≠ 0)
    (hhg : ¬ (h.pageDesc (pageOf (segment_of p))).status =
      PageStatus.HUGE_SLAB)
    (hptr : (h.pageDesc (pageOf p)).slab_ptr = some a)
    (hst : (h.pageDesc (pageOf a)).status = PageStatus.LARGE_SLAB) :
    free h p = release_slab h a (readLargePages h a) := by
  simp only [free, hptr, hst]
  rw [if_neg hp0, if_neg hhg]

/-- `free` dispatch to the default branch (the named header page is not
the header of a live slab: stale or corrupt pointer). -/
lemma free_dispatch_free (h : Heap) (p a : Nat) (hp0 : p ≠ 0)
    (hhg : ¬ (h.pageDesc (pageOf (segment_of p))).status =
      PageStatus.HUGE_SLAB)
    (hptr : (h.pageDesc (pageOf p)).slab_ptr = some a)
    (hst : (h.pageDesc (pageOf a)).status = PageStatus.FREE) :
    free h p = h := by
  simp only [free, hptr, hst]
  rw [if_neg hp0, if_neg hhg]

/-- `free` dispatch to the small-slab branch. -/
lemma free_dispatch_small (h : Heap) (p a : Nat) (hp0 : p ≠ 0)
    (hhg : ¬ (h.pageDesc (pageOf (segment_of p))).status =
      PageStatus.HUGE_SLAB)
    (hptr : (h.pageDesc (pageOf p)).slab_ptr = some a)
    (hst : (h.pageDesc (pageOf a)).status = PageStatus.SMALL_SLAB) :
    free h p =
      (if (free_block (readSmall h a)
            ((p - (a + (getInfo (readSmall h a).slab_class_id).slab_metadata_size)) /
              (getInfo (readSmall h a).slab_class_id).block_size)).free_count =
          (getInfo (free_block (readSmall h a)
            ((p - (a + (getInfo (readSmall h a).slab_class_id).slab_metadata_size)) /
              (getInfo (readSmall h a).slab_class_id).block_size)).slab_class_id).slab_capacity
      then
        release_slab
          { h with
            mem := Function.update h.mem a (some (SlabMem.small
              (free_block (readSmall h a)
                ((p - (a + (getInfo (readSmall h a).slab_class_id).slab_metadata_size)) /
                  (getInfo (readSmall h a).slab_class_id).block_size)))),
            slab_caches := Function.update h.slab_caches
              (readSmall h a).slab_class_id
              ((h.slab_caches (readSmall h a).slab_class_id).erase a) }
          a (getInfo (readSmall h a).slab_class_id).slab_pages
      else if (readSmall h a).free_count = 0 then
        { h with
          mem := Function.update h.mem a (some (SlabMem.small
            (free_block (readSmall h a)
              ((p - (a + (getInfo (readSmall h a).slab_class_id).slab_metadata_size)) /
                (getInfo (readSmall h a).slab_class_id).block_size)))),
          slab_caches := Function.update h.slab_caches
            (readSmall h a).slab_class_id
            (a :: h.slab_caches (readSmall h a).slab_class_id) }
      else
        { h with
          mem := Function.update h.mem a (some (SlabMem.small
            (free_block (readSmall h a)
              ((p - (a + (getInfo (readSmall h a).slab_class_id).slab_metadata_size)) /
                (getInfo (readSmall h a).slab_class_id).block_size)))) }) := by
  simp only [free, hptr, hst]
  rw [if_neg hp0, if_neg hhg]

/-- `ThreadHeap::free` preserves the steady-state invariant on every
argument for which the source has defined behavior. -/
lemma free_WF (h : Heap) (p : Nat) (hwf : WF h) (hv : ValidFreeArg h p) :
    WF (free h p) := by
  have hZ : ∀ q, ¬ inR 0 0 q := by
    rintro q ⟨u1, u2⟩
    omega
  have h512 : PAGES_PER_SEGMENT = 512 := by decide
  have hm3 : segMetadataPages = 3 := by decide
  by_cases hp0 : p = 0
  · subst hp0
    rw [free_null]
    exact hwf
  rcases hv with hv0 | hhug | ⟨hLst, hLseg⟩ | hsm | ⟨hFst, hFseg, hFmeta⟩
  · exact absurd hv0 hp0
  · -- pointer into a huge segment
    have hst := hwf.huge_desc _ hhug
    rw [free_dispatch_huge h p hp0 hst]
    exact ⟨hwf.active_nodup, hwf.active_aligned, hwf.active_meta,
      hwf.huge_nodup.erase _,
      fun b hbm => hwf.huge_aligned b (List.mem_of_mem_erase hbm),
      fun b hbm => hwf.huge_desc b (List.mem_of_mem_erase hbm),
      fun b hbm hbe => hwf.active_not_huge b hbm (List.mem_of_mem_erase hbe),
      hwf.ladder_top, hwf.ladder_mem, hwf.ladder_desc, hwf.ladder_outR,
      hwf.ladder_nodup, hwf.ladder_once, hwf.ladder_next, hwf.ladder_prev,
      hwf.free_complete, hwf.large_wf, hwf.small_wf, hwf.cache_nodup,
      hwf.cache_wf⟩
  · -- live large slab
    have hhg : ¬ (h.pageDesc (pageOf (segment_of p))).status =
        PageStatus.HUGE_SLAB := by
      have hx := hwf.active_meta _ hLseg 0 (by decide)
      rw [Nat.add_zero] at hx
      rw [hx]
      intro hc
      exact PageStatus.noConfusion hc
    obtain ⟨a, n0, g1, g2, g3, g4, g5, g6, g7, g8⟩ :=
      hwf.large_wf (pageOf p) hLst (hZ _)
    have hsta : (h.pageDesc (pageOf a)).status = PageStatus.LARGE_SLAB := by
      have := (g7 0 (by omega)).1
      rw [Nat.add_zero] at this
      rw [this]
    rw [free_dispatch_large h p a hp0 hhg g1 hsta]
    have hread : readLargePages h a = n0 := by
      rw [readLargePages, g2]
    rw [hread]
    obtain ⟨b, hbm, hrn⟩ := g8
    have hbal := hwf.active_aligned b hbm
    have hseg : segment_of a = b := run_seg_eq b a n0 hbal hrn g4
    have hlen := run_len_le b a n0 hbal hrn
    exact (release_slab_spec h a n0
      (large_detach_WFr h a n0 hwf g2 g4 (fun k hk => (g7 k hk).1))
      g3 g4 (by omega) (by rw [hseg]; exact hbm) (by rw [hseg]; exact hrn)
      (fun k hk => by rw [(g7 k hk).1])
      (by
        intro c hc
        have hs := (hwf.cache_wf c a hc).1
        rw [hsta] at hs
        exact PageStatus.noConfusion hs)).1
  · -- live small block
    obtain ⟨a, s, hsst, hsptr, hsmem, hsseg, idx0, hidxcap, hpform, hbit⟩ :=
      hsm
    have hhg : ¬ (h.pageDesc (pageOf (segment_of p))).status =
        PageStatus.HUGE_SLAB := by
      have hx := hwf.active_meta _ hsseg 0 (by decide)
      rw [Nat.add_zero] at hx
      rw [hx]
      intro hc
      exact PageStatus.noConfusion hc
    obtain ⟨a1, s1, p1, p2, p3, p4, p5, p6, p7, p8, p9, p10⟩ :=
      hwf.small_wf (pageOf p) hsst (hZ _)
    have ha1 : a = a1 := by
      rw [hsptr] at p1
      exact Option.some.inj p1
    subst ha1
    have hs1 : s = s1 := by
      rw [hsmem] at p2
      exact SlabMem.small.inj (Option.some.inj p2)
    subst hs1
    have hpg1 : 1 ≤ (getInfo s.slab_class_id).slab_pages := by omega
    have hq0 : h.pageDesc (pageOf a) = ⟨PageStatus.SMALL_SLAB, some a⟩ := by
      have := (p9 0 (by omega)).1
      rwa [Nat.add_zero] at this
    have hsta : (h.pageDesc (pageOf a)).status = PageStatus.SMALL_SLAB := by
      rw [hq0]
    have hreads : readSmall h a = s := by
      rw [readSmall, hsmem]
    have hbs : 0 < (getInfo s.slab_class_id).block_size :=
      blockSize_pos _ p4.1
    have hidx : (p - (a + (getInfo s.slab_class_id).slab_metadata_size)) /
        (getInfo s.slab_class_id).block_size = idx0 := by
      rw [hpform, smallBlockAddr]
      rw [show a + (getInfo s.slab_class_id).slab_metadata_size +
        idx0 * (getInfo s.slab_class_id).block_size -
        (a + (getInfo s.slab_class_id).slab_metadata_size) =
        idx0 * (getInfo s.slab_class_id).block_size by omega]
      exact Nat.mul_div_cancel idx0 hbs
    obtain ⟨fcl, fcnt, fbits, finv⟩ := free_block_spec s idx0 p4 hidxcap hbit
    rw [free_dispatch_small h p a hp0 hhg hsptr hsta, hreads, hidx]
    by_cases hemp : (free_block s idx0).free_count =
        (getInfo (free_block s idx0).slab_class_id).slab_capacity
    · rw [if_pos hemp]
      obtain ⟨hwf2, hal2, hseg2, hrun2, hpg2, h509, hdesc2, hnc2⟩ :=
        small_detach_WFr h a s (free_block s idx0)
          { h with
            mem := Function.update h.mem a
              (some (SlabMem.small (free_block s idx0))),
            slab_caches := Function.update h.slab_caches s.slab_class_id
              ((h.slab_caches s.slab_class_id).erase a) }
          hwf hq0 hsmem fcl rfl
          (fun x => Function.update_apply _ _ _ _) rfl
          (fun c => Function.update_apply _ _ _ _) rfl rfl
      exact (release_slab_spec _ a (getInfo s.slab_class_id).slab_pages
        hwf2 hal2 hpg2 h509 hseg2 hrun2 hdesc2 hnc2).1
    · rw [if_neg hemp]
      have hcap' : (free_block s idx0).free_count <
          (getInfo s.slab_class_id).slab_capacity := by
        have hle : (free_block s idx0).free_count ≤
            (getInfo (free_block s idx0).slab_class_id).slab_capacity := by
          obtain ⟨i1, i2, i3, i4, i5⟩ := finv
          rw [i4]
          exact setBitsBelow_le _ _
        rw [fcl] at hle hemp
        omega
      have hfc' : 0 < (free_block s idx0).free_count := by
        rw [fcnt]
        omega
      by_cases hfull : s.free_count = 0
      · rw [if_pos hfull]
        have hnotc : ∀ c, a ∉ h.slab_caches c := by
          intro c hc
          obtain ⟨_, _, s2, hs2, hcl2⟩ := hwf.cache_wf c a hc
          rw [hsmem] at hs2
          have hse : s = s2 := SlabMem.small.inj (Option.some.inj hs2)
          rw [← hse] at hcl2
          rw [← hcl2] at hc
          exact absurd (p6.mpr hc) (by omega)
        apply small_write_WF h a s (free_block s idx0)
          { h with
            mem := Function.update h.mem a
              (some (SlabMem.small (free_block s idx0))),
            slab_caches := Function.update h.slab_caches s.slab_class_id
              (a :: h.slab_caches s.slab_class_id) }
          hwf hq0 hsmem fcl
          finv hcap' rfl (fun x => Function.update_apply _ _ _ _) rfl
        · intro c x hxa
          show x ∈ Function.update h.slab_caches s.slab_class_id
            (a :: h.slab_caches s.slab_class_id) c ↔ _
          rw [Function.update_apply]
          split_ifs with hc1
          · subst hc1
            constructor
            · intro hm
              rcases List.mem_cons.mp hm with he | hm2
              · exact absurd he hxa
              · exact hm2
            · exact fun hm => List.mem_cons_of_mem _ hm
          · rfl
        · intro c
          show a ∈ Function.update h.slab_caches s.slab_class_id
            (a :: h.slab_caches s.slab_class_id) c ↔ _
          rw [Function.update_apply]
          split_ifs with hc1
          · subst hc1
            exact ⟨fun _ => ⟨hfc', rfl⟩, fun _ => List.mem_cons_self _ _⟩
          · constructor
            · intro hm
              exact absurd hm (hnotc c)
            · rintro ⟨_, rfl⟩
              exact absurd rfl hc1
        · intro c
          show (Function.update h.slab_caches s.slab_class_id
            (a :: h.slab_caches s.slab_class_id) c).Nodup
          rw [Function.update_apply]
          split_ifs with hc1
          · exact List.nodup_cons.mpr ⟨hnotc _, hwf.cache_nodup _⟩
          · exact hwf.cache_nodup c
        · rfl
        · rfl
      · rw [if_neg hfull]
        apply small_write_WF h a s (free_block s idx0)
          { h with
            mem := Function.update h.mem a
              (some (SlabMem.small (free_block s idx0))) }
          hwf hq0 hsmem fcl
          finv hcap' rfl (fun x => Function.update_apply _ _ _ _) rfl
        · intro c x hxa
          exact Iff.rfl
        · intro c
          show a ∈ h.slab_caches c ↔ _
          constructor
          · intro hm
            obtain ⟨_, _, s2, hs2, hcl2⟩ := hwf.cache_wf c a hm
            rw [hsmem] at hs2
            have hse : s = s2 := SlabMem.small.inj (Option.some.inj hs2)
            rw [← hse] at hcl2
            exact ⟨hfc', hcl2.symm⟩
          · rintro ⟨_, rfl⟩
            exact p6.mp (by omega)
        · exact hwf.cache_nodup
        · rfl
        · rfl
  · -- stale pointer to an already-free page
    have hhg : ¬ (h.pageDesc (pageOf (segment_of p))).status =
        PageStatus.HUGE_SLAB := by
      have hx := hwf.active_meta _ hFseg 0 (by decide)
      rw [Nat.add_zero] at hx
      rw [hx]
      intro hc
      exact PageStatus.noConfusion hc
    have hplt : p < segment_of p + SEGMENT_SIZE := by
      simp only [segment_of, SEGMENT_SIZE]
      omega
    have hoff : pageOf p - pageOf (segment_of p) < PAGES_PER_SEGMENT := by
      have hbal := hwf.active_aligned _ hFseg
      simp only [pageOf, SEGMENT_SIZE, PAGE_SIZE, PAGES_PER_SEGMENT]
        at hbal hplt ⊢
      omega
    have hole : pageOf (segment_of p) ≤ pageOf p := by
      simp only [pageOf, segment_of, SEGMENT_SIZE, PAGE_SIZE]
      omega
    have hq : pageOf (segment_of p) +
        (pageOf p - pageOf (segment_of p)) = pageOf p := by
      omega
    obtain ⟨i, x, hx, hle, hlt⟩ := hwf.free_complete (segment_of p) hFseg
      (pageOf p - pageOf (segment_of p)) hFmeta hoff
      (by rw [hq]; exact hFst) (by rw [hq]; exact hZ _)
    rw [hq] at hle hlt
    have hdp := hwf.desc_at hx hle hlt
    have hd0 := hwf.desc_at hx (q := pageOf x) (Nat.le_refl _) (by omega)
    rw [free_dispatch_free h p x hp0 hhg (by rw [hdp]) (by rw [hd0])]
    exact hwf

lemma slabPages_bounds : ∀ i, i < numClasses →
    1 ≤ (getInfo i).slab_pages ∧ (getInfo i).slab_pages ≤ 509 := by
  decide

lemma smallAlign8 : ∀ i, i < numClasses →
    (getInfo i).slab_metadata_size % 8 = 0 ∧
    (getInfo i).block_size % 8 = 0 := by
  decide

lemma hugeObjectThreshold_eq : hugeObjectThreshold = 2080768 := by decide

/-- The descriptor map written by `MappedSegment`'s constructor. -/
lemma createSegment_desc (h : Heap) (base len q : Nat) :
    (createSegment h base len).pageDesc q =
      if pageOf base + 1 ≤ q ∧ q < pageOf base + segMetadataPages then
        ⟨PageStatus.METADATA, none⟩
      else if q = pageOf base then
        ⟨PageStatus.METADATA, some segmentHeaderSize⟩
      else if pageOf base ≤ q ∧ q < pageOf base + PAGES_PER_SEGMENT then
        ⟨PageStatus.FREE, none⟩
      else h.pageDesc q := by
  show setPages
      (Function.update
        (setPages h.pageDesc (pageOf base) PAGES_PER_SEGMENT
          ⟨PageStatus.FREE, none⟩)
        (pageOf base) ⟨PageStatus.METADATA, some segmentHeaderSize⟩)
      (pageOf base + 1) (segMetadataPages - 1) ⟨PageStatus.METADATA, none⟩
      q = _
  rw [setPages_apply, Function.update_apply, setPages_apply]
  have h512 : PAGES_PER_SEGMENT = 512 := by decide
  have hm3 : segMetadataPages = 3 := by decide
  rw [h512, hm3]

lemma createSegment_desc_base (h : Heap) (base len : Nat) :
    (createSegment h base len).pageDesc (pageOf base) =
      ⟨PageStatus.METADATA, some segmentHeaderSize⟩ := by
  rw [createSegment_desc, if_neg (by omega), if_pos rfl]

/-- The descriptor map of the huge-path heap: constructor map with
descriptor 0 re-stamped `HUGE_SLAB`. -/
lemma hugeHeap_desc (h : Heap) (base len q : Nat) :
    Function.update (createSegment h base len).pageDesc (pageOf base)
      ⟨PageStatus.HUGE_SLAB,
        ((createSegment h base len).pageDesc (pageOf base)).slab_ptr⟩ q =
      if q = pageOf base then
        ⟨PageStatus.HUGE_SLAB, some segmentHeaderSize⟩
      else if pageOf base + 1 ≤ q ∧ q < pageOf base + segMetadataPages then
        ⟨PageStatus.METADATA, none⟩
      else if pageOf base ≤ q ∧ q < pageOf base + PAGES_PER_SEGMENT then
        ⟨PageStatus.FREE, none⟩
      else h.pageDesc q := by
  rw [createSegment_desc_base, Function.update_apply]
  by_cases hq : q = pageOf base
  · rw [if_pos hq, if_pos hq]
  · rw [if_neg hq, if_neg hq, createSegment_desc]
    by_cases h1 : pageOf base + 1 ≤ q ∧ q < pageOf base + segMetadataPages
    · rw [if_pos h1, if_pos h1]
    · rw [if_neg h1, if_neg h1, if_neg hq]

/-- Mapping a huge segment, stamping its first descriptor `HUGE_SLAB`
and linking it into `huge_segments_` preserves the invariant. -/
lemma newHuge_WF (h : Heap) (base : Nat) (h2 : Heap) (hwf : WF h)
    (hfr : FreshSeg h base)
    (hpd : ∀ q, h2.pageDesc q =
      if q = pageOf base then
        ⟨PageStatus.HUGE_SLAB, some segmentHeaderSize⟩
      else if pageOf base + 1 ≤ q ∧ q < pageOf base + segMetadataPages then
        ⟨PageStatus.METADATA, none⟩
      else if pageOf base ≤ q ∧ q < pageOf base + PAGES_PER_SEGMENT then
        ⟨PageStatus.FREE, none⟩
      else h.pageDesc q)
    (hmm : h2.mem = h.mem)
    (hfs : h2.free_slabs = h.free_slabs)
    (hsc : h2.slab_caches = h.slab_caches)
    (hac : h2.active_segments = h.active_segments)
    (hhg : h2.huge_segments = base :: h.huge_segments) :
    WF h2 := by
  obtain ⟨hbal, hbact, hbhuge⟩ := hfr
  have hZ : ∀ q, ¬ inR 0 0 q := by
    rintro q ⟨u1, u2⟩
    omega
  have h512 : PAGES_PER_SEGMENT = 512 := by decide
  have hm3 : segMetadataPages = 3 := by decide
  have hdisjb : ∀ b, b ∈ h.active_segments ∨ b ∈ h.huge_segments → ∀ q,
      pageOf b ≤ q → q < pageOf b + PAGES_PER_SEGMENT →
      q < pageOf base ∨ pageOf base + PAGES_PER_SEGMENT ≤ q := by
    intro b hbm q g1 g2
    have hbne : b ≠ base := by
      rintro rfl
      rcases hbm with g | g
      · exact hbact g
      · exact hbhuge g
    have halb : b % SEGMENT_SIZE = 0 := by
      rcases hbm with g | g
      · exact hwf.active_aligned b g
      · exact hwf.huge_aligned b g
    have hd := seg_pages_disjoint b base halb hbal hbne q g1 g2
    by_cases hx : q < pageOf base
    · exact Or.inl hx
    · right
      rcases not_and_or.mp hd with g | g <;> omega
  have hold : ∀ b, (b ∈ h.active_segments ∨ b ∈ h.huge_segments) → ∀ q,
      pageOf b ≤ q → q < pageOf b + PAGES_PER_SEGMENT →
      h2.pageDesc q = h.pageDesc q := by
    intro b hbm q g1 g2
    rcases hdisjb b hbm q g1 g2 with g | g <;>
      rw [hpd, if_neg (by omega), if_neg (by omega), if_neg (by omega)]
  constructor
  case active_nodup => rw [hac]; exact hwf.active_nodup
  case active_aligned =>
    intro b hbm
    rw [hac] at hbm
    exact hwf.active_aligned b hbm
  case active_meta =>
    intro b hbm q hq
    rw [hac] at hbm
    rw [hold b (Or.inl hbm) _ (by omega) (by omega)]
    exact hwf.active_meta b hbm q hq
  case huge_nodup =>
    rw [hhg]
    exact List.nodup_cons.mpr ⟨hbhuge, hwf.huge_nodup⟩
  case huge_aligned =>
    intro b hbm
    rw [hhg] at hbm
    rcases List.mem_cons.mp hbm with rfl | hm
    · exact hbal
    · exact hwf.huge_aligned b hm
  case huge_desc =>
    intro b hbm
    rw [hhg] at hbm
    rcases List.mem_cons.mp hbm with rfl | hm
    · rw [hpd, if_pos rfl]
    · rw [hold b (Or.inr hm) _ (by omega) (by omega)]
      exact hwf.huge_desc b hm
  case active_not_huge =>
    intro b hbm
    rw [hac] at hbm
    rw [hhg]
    intro hbe
    rcases List.mem_cons.mp hbe with rfl | hm
    · exact hbact hbm
    · exact hwf.active_not_huge b hbm hm
  case ladder_top =>
    intro i hi
    rw [hfs]
    exact hwf.ladder_top i hi
  case ladder_mem =>
    intro i x hx
    rw [hfs] at hx
    obtain ⟨g1, g2, b, g3, g4⟩ := hwf.ladder_mem i x hx
    exact ⟨by rw [hmm]; exact g1, g2, b, by rw [hac]; exact g3, g4⟩
  case ladder_desc =>
    intro i x hx k hk
    rw [hfs] at hx
    obtain ⟨hxal, hxmem, hxseg, hxrun, hxlen⟩ := hwf.run_facts hx
    have hxp := run_pages (segment_of x) x (i + 1)
      (hwf.active_aligned _ hxseg) hxal hxrun
    rw [hold (segment_of x) (Or.inl hxseg) _ (by omega) (by omega)]
    exact hwf.ladder_desc i x hx k hk
  case ladder_outR =>
    intro i x hx k hk
    exact hZ _
  case ladder_nodup =>
    intro i
    rw [hfs]
    exact hwf.ladder_nodup i
  case ladder_once =>
    intro i j x hxi hxj
    rw [hfs] at hxi hxj
    exact hwf.ladder_once i j x hxi hxj
  case ladder_next =>
    intro i x hx hg
    rw [hfs] at hx
    obtain ⟨hxal, hxmem, hxseg, hxrun, hxlen⟩ := hwf.run_facts hx
    have hxbal := hwf.active_aligned _ hxseg
    have hxp := run_pages (segment_of x) x (i + 1) hxbal hxal hxrun
    have hxbpal := seg_aligned_page _ hxbal
    have hlt : pageOf x + (i + 1) <
        pageOf (segment_of x) + PAGES_PER_SEGMENT := by
      simp only [pageOf, PAGE_SIZE, SEGMENT_SIZE, PAGES_PER_SEGMENT]
        at hxal hxbpal hg ⊢
      omega
    left
    rw [hold (segment_of x) (Or.inl hxseg) _ (by omega) (by omega)]
    rcases hwf.ladder_next i x hx hg with g | g
    · exact g
    · exact absurd g (hZ _)
  case ladder_prev =>
    intro i x hx hg
    rw [hfs] at hx
    obtain ⟨hxal, hxmem, hxseg, hxrun, hxlen⟩ := hwf.run_facts hx
    have hxp := run_pages (segment_of x) x (i + 1)
      (hwf.active_aligned _ hxseg) hxal hxrun
    left
    rw [hold (segment_of x) (Or.inl hxseg) _ (by omega) (by omega)]
    rcases hwf.ladder_prev i x hx hg with g | g
    · exact g
    · exact absurd g (hZ _)
  case free_complete =>
    intro b hbm q hq1 hq2 hfree _
    rw [hac] at hbm
    rw [hold b (Or.inl hbm) _ (by omega) (by omega)] at hfree
    obtain ⟨i, x, g1, g2, g3⟩ :=
      hwf.free_complete b hbm q hq1 hq2 hfree (hZ _)
    exact ⟨i, x, by rw [hfs]; exact g1, g2, g3⟩
  case large_wf =>
    intro q hq _
    have hqe : h2.pageDesc q = h.pageDesc q := by
      have hq2 := hq
      rw [hpd] at hq2 ⊢
      split_ifs at hq2 ⊢
      rfl
    rw [hqe] at hq
    obtain ⟨a1, n1, g1, g2, g3, g4, g5, g6, g7, g8⟩ :=
      hwf.large_wf q hq (hZ _)
    obtain ⟨b, hbm, hrn⟩ := g8
    have hbal2 := hwf.active_aligned b hbm
    have hap := run_pages b a1 n1 hbal2 g3 hrn
    refine ⟨a1, n1, by rw [hqe]; exact g1, by rw [hmm]; exact g2,
      g3, g4, g5, g6, ?_, ?_⟩
    · intro k hk
      refine ⟨?_, hZ _⟩
      rw [hold b (Or.inl hbm) _ (by omega) (by omega)]
      exact (g7 k hk).1
    · exact ⟨b, by rw [hac]; exact hbm, hrn⟩
  case small_wf =>
    intro q hq _
    have hqe : h2.pageDesc q = h.pageDesc q := by
      have hq2 := hq
      rw [hpd] at hq2 ⊢
      split_ifs at hq2 ⊢
      rfl
    rw [hqe] at hq
    obtain ⟨a1, s1, g1, g2, g3, g4, g5, g6, g7, g8, g9, g10⟩ :=
      hwf.small_wf q hq (hZ _)
    obtain ⟨b, hbm, hrn⟩ := g10
    have hbal2 := hwf.active_aligned b hbm
    have hap := run_pages b a1 (getInfo s1.slab_class_id).slab_pages
      hbal2 g3 hrn
    refine ⟨a1, s1, by rw [hqe]; exact g1, by rw [hmm]; exact g2,
      g3, g4, g5, by rw [hsc]; exact g6, g7, g8, ?_, ?_⟩
    · intro k hk
      refine ⟨?_, hZ _⟩
      rw [hold b (Or.inl hbm) _ (by omega) (by omega)]
      exact (g9 k hk).1
    · exact ⟨b, by rw [hac]; exact hbm, hrn⟩
  case cache_nodup =>
    intro c
    rw [hsc]
    exact hwf.cache_nodup c
  case cache_wf =>
    intro c x hx
    rw [hsc] at hx
    obtain ⟨g1, g2, s, g3, g4⟩ := hwf.cache_wf c x hx
    obtain ⟨a1, s1, p1, p2, p3, p4, p5, p6, p7, p8, p9, p10⟩ :=
      hwf.small_wf (pageOf x) g1 (hZ _)
    have hax : a1 = x := by
      rw [g2] at p1
      exact (Option.some.inj p1).symm
    obtain ⟨b, hbm, hrn⟩ := p10
    have hbal2 := hwf.active_aligned b hbm
    have hap := run_pages b a1 (getInfo s1.slab_class_id).slab_pages
      hbal2 p3 hrn
    rw [hax] at hap p8
    refine ⟨?_, ?_, s, by rw [hmm]; exact g3, g4⟩
    · rw [hold b (Or.inl hbm) (pageOf x) (by omega) (by omega)]
      exact g1
    · rw [hold b (Or.inl hbm) (pageOf x) (by omega) (by omega)]
      exact g2

/-- Under the invariant, every cached small slab is partial, so
`allocate_block` on it cannot fail. -/
lemma WF_cache_ready (h : Heap) (hwf : WF h) :
    ∀ c a, a ∈ h.slab_caches c → ∃ s,
      h.mem a = some (SlabMem.small s) ∧ 0 < s.free_count ∧
      (allocate_block s).1.isSome = true := by
  intro c a hc
  have hZ : ∀ q, ¬ inR 0 0 q := by
    rintro q ⟨u1, u2⟩
    omega
  obtain ⟨g1, g2, s, g3, g4⟩ := hwf.cache_wf c a hc
  obtain ⟨a1, s1, p1, p2, p3, p4, p5, p6, p7, p8, p9, p10⟩ :=
    hwf.small_wf (pageOf a) g1 (hZ _)
  have ha1 : a = a1 := by
    rw [g2] at p1
    exact Option.some.inj p1
  subst ha1
  have hs1 : s = s1 := by
    rw [g3] at p2
    exact SlabMem.small.inj (Option.some.inj p2)
  subst hs1
  have hfc : 0 < s.free_count := p6.mpr (by rw [g4]; exact hc)
  obtain ⟨idx, r1, _⟩ := allocate_block_some s p4 (by omega)
  exact ⟨s, g3, hfc, by rw [r1]; rfl⟩

set_option maxRecDepth 4096 in
/-- `ThreadHeap::allocate` preserves the invariant; a failed allocation
leaves the heap untouched; every returned pointer is 8-byte aligned. -/
lemma allocate_spec (os : Option Nat) (h : Heap) (size : Nat)
    (hwf : WF h) (hos : FreshOS h os) :
    WF (allocate os h size).2 ∧
    ((allocate os h size).1 = none → (allocate os h size).2 = h) ∧
    (∀ r, (allocate os h size).1 = some r → r % 8 = 0) := by
  have h512 : PAGES_PER_SEGMENT = 512 := by decide
  have hm3 : segMetadataPages = 3 := by decide
  by_cases h0 : size = 0
  · subst h0
    have hev : allocate os h 0 = (none, h) := by
      simp only [allocate]
      rw [if_pos trivial]
    rw [hev]
    exact ⟨hwf, fun _ => rfl, fun r hr => Option.noConfusion hr⟩
  by_cases hH : size > hugeObjectThreshold
  · -- huge path
    cases os with
    | none =>
      have hev : allocate none h size = (none, h) := by
        simp only [allocate]
        rw [if_neg h0, if_pos hH]
      rw [hev]
      exact ⟨hwf, fun _ => rfl, fun r hr => Option.noConfusion hr⟩
    | some base =>
      obtain ⟨hbal, hbact, hbhuge⟩ := hos base rfl
      have hwf2 := newHuge_WF h base
        { createSegment h base
            ((segmentHeaderSize + size + PAGE_SIZE - 1) / PAGE_SIZE *
              PAGE_SIZE) with
          pageDesc := Function.update
            (createSegment h base
              ((segmentHeaderSize + size + PAGE_SIZE - 1) / PAGE_SIZE *
                PAGE_SIZE)).pageDesc (pageOf base)
            ⟨PageStatus.HUGE_SLAB,
              ((createSegment h base
                ((segmentHeaderSize + size + PAGE_SIZE - 1) / PAGE_SIZE *
                  PAGE_SIZE)).pageDesc (pageOf base)).slab_ptr⟩,
          huge_segments := base :: (createSegment h base
            ((segmentHeaderSize + size + PAGE_SIZE - 1) / PAGE_SIZE *
              PAGE_SIZE)).huge_segments }
        hwf ⟨hbal, hbact, hbhuge⟩
        (fun q => hugeHeap_desc h base _ q) rfl rfl rfl rfl rfl
      have hev : allocate (some base) h size =
          (some (base + segMetadataPages * PAGE_SIZE),
            { createSegment h base
                ((segmentHeaderSize + size + PAGE_SIZE - 1) / PAGE_SIZE *
                  PAGE_SIZE) with
              pageDesc := Function.update
                (createSegment h base
                  ((segmentHeaderSize + size + PAGE_SIZE - 1) / PAGE_SIZE *
                    PAGE_SIZE)).pageDesc (pageOf base)
                ⟨PageStatus.HUGE_SLAB,
                  ((createSegment h base
                    ((segmentHeaderSize + size + PAGE_SIZE - 1) /
                      PAGE_SIZE * PAGE_SIZE)).pageDesc
                    (pageOf base)).slab_ptr⟩,
              huge_segments := base :: (createSegment h base
                ((segmentHeaderSize + size + PAGE_SIZE - 1) / PAGE_SIZE *
                  PAGE_SIZE)).huge_segments }) := by
        simp only [allocate]
        rw [if_neg h0, if_pos hH]
      rw [hev]
      refine ⟨hwf2, fun hr => Option.noConfusion hr, ?_⟩
      intro r hr
      have hre : base + segMetadataPages * PAGE_SIZE = r :=
        Option.some.inj hr
      simp only [segMetadataPages, segmentHeaderSize, PAGE_SIZE,
        SEGMENT_SIZE] at hbal hre
      omega
  by_cases hL : size > MAX_SMALL_OBJECT_SIZE
  · -- large path
    have hnp1 : 1 ≤ (size + largeSlabHeaderSize + PAGE_SIZE - 1) /
        PAGE_SIZE := by
      simp only [largeSlabHeaderSize, PAGE_SIZE, MAX_SMALL_OBJECT_SIZE]
        at hL ⊢
      omega
    have hnp5 : (size + largeSlabHeaderSize + PAGE_SIZE - 1) / PAGE_SIZE ≤
        509 := by
      rw [hugeObjectThreshold_eq] at hH
      simp only [largeSlabHeaderSize, PAGE_SIZE] at *
      omega
    have hu : u16 ((size + largeSlabHeaderSize + PAGE_SIZE - 1) /
        PAGE_SIZE) = (size + largeSlabHeaderSize + PAGE_SIZE - 1) /
        PAGE_SIZE := u16_eq _ (by omega)
    have hev : allocate os h size = allocate_large_slab os h
        (u16 ((size + largeSlabHeaderSize + PAGE_SIZE - 1) / PAGE_SIZE)) := by
      simp only [allocate]
      rw [if_neg h0, if_neg hH, if_pos hL]
    rw [hev, hu]
    rcases acquire_pages_spec os h _ hwf hos hnp1 hnp5 with
      ⟨hr1, hr2⟩ | ⟨a, h', heq, hwfr, hal, hseg, hrun, hdesc, hscq, hhgq⟩
    · have hacq : acquire_pages os h
          ((size + largeSlabHeaderSize + PAGE_SIZE - 1) / PAGE_SIZE) =
          (none, h) := by
        rw [Prod.ext_iff]
        exact ⟨hr1, hr2⟩
      have hev2 : allocate_large_slab os h
          ((size + largeSlabHeaderSize + PAGE_SIZE - 1) / PAGE_SIZE) =
          (none, h) := by
        simp only [allocate_large_slab, hacq]
      rw [hev2]
      exact ⟨hwf, fun _ => rfl, fun r hr => Option.noConfusion hr⟩
    · have hev2 : allocate_large_slab os h
          ((size + largeSlabHeaderSize + PAGE_SIZE - 1) / PAGE_SIZE) =
          (some (a + largeSlabHeaderSize),
            { h' with
              pageDesc := setPages h'.pageDesc (pageOf a)
                ((size + largeSlabHeaderSize + PAGE_SIZE - 1) / PAGE_SIZE)
                ⟨PageStatus.LARGE_SLAB, some a⟩,
              mem := Function.update h'.mem a (some (SlabMem.large
                ((size + largeSlabHeaderSize + PAGE_SIZE - 1) /
                  PAGE_SIZE))) }) := by
        simp only [allocate_large_slab, heq]
      rw [hev2]
      refine ⟨?_, fun hr => Option.noConfusion hr, ?_⟩
      · exact stamp_large_WF h' a _ _ hwfr hal hnp1 hseg hrun hdesc
          (fun q => setPages_apply _ _ _ _ _)
          (fun x => Function.update_apply _ _ _ _) rfl rfl rfl rfl
      · intro r hr
        have hre : a + largeSlabHeaderSize = r := Option.some.inj hr
        simp only [largeSlabHeaderSize, PAGE_SIZE] at hal hre
        omega
  · -- small path
    have h1le : 1 ≤ size := by omega
    have hle : size ≤ 262144 := by
      simp only [MAX_SMALL_OBJECT_SIZE] at hL
      omega
    obtain ⟨hc87, hble, hblt⟩ := classCursor_spec size h1le hle
    have hcnum : classCursor size < numClasses := by
      rw [numClasses_eq]
      omega
    rcases hcache : h.slab_caches (classCursor size) with _ | ⟨a, t⟩
    · -- cache miss
      have hpgb := slabPages_bounds _ hcnum
      have hpg0 : ¬ (getInfo (classCursor size)).slab_pages = 0 := by
        omega
      rcases acquire_pages_spec os h (getInfo (classCursor size)).slab_pages
          hwf hos hpgb.1 hpgb.2 with
        ⟨hr1, hr2⟩ | ⟨slab, h', heq, hwfr, hal, hseg, hrun, hdesc, hscq, hhgq⟩
      · have hacq : acquire_pages os h
            (getInfo (classCursor size)).slab_pages = (none, h) := by
          rw [Prod.ext_iff]
          exact ⟨hr1, hr2⟩
        have hev : allocate os h size = (none, h) := by
          simp only [allocate, hcache, allocate_small_slab, hacq]
          rw [if_neg h0, if_neg hH, if_neg hL, if_neg hpg0]
        rw [hev]
        exact ⟨hwf, fun _ => rfl, fun r hr => Option.noConfusion hr⟩
      · -- fresh slab carved and stamped
        obtain ⟨hinit_inv, hinit_fc, hinit_cl⟩ :=
          smallSlabInit_inv _ hcnum
        have hcap0 := slab_capacity_pos _ (by rw [← numClasses_eq]; exact hcnum)
        obtain ⟨idx, r1, ridx, rbit, rcls, rcnt, rrest⟩ :=
          allocate_block_some (smallSlabInit (classCursor size)) hinit_inv
            (by rw [hinit_fc]; omega)
        have hsid : (allocate_block
            (smallSlabInit (classCursor size))).2.slab_class_id =
            classCursor size := by
          rw [rcls, hinit_cl]
        have hcap' : (allocate_block
            (smallSlabInit (classCursor size))).2.free_count <
            (getInfo (classCursor size)).slab_capacity := by
          rw [rcnt, hinit_fc]
          omega
        have hevS : allocate_small_slab os h (classCursor size) =
            (some slab,
              { h' with
                mem := Function.update h'.mem slab
                  (some (SlabMem.small (smallSlabInit (classCursor size)))),
                pageDesc := setPages h'.pageDesc (pageOf slab)
                  (getInfo (classCursor size)).slab_pages
                  ⟨PageStatus.SMALL_SLAB, some slab⟩ }) := by
          simp only [allocate_small_slab, heq]
          rw [if_neg hpg0]
        by_cases hfc : (allocate_block
            (smallSlabInit (classCursor size))).2.free_count = 0
        · -- the first carve fills the slab completely: it is unlinked again
          simp only [allocate, hcache, hevS]
          rw [if_neg h0, if_neg hH, if_neg hL]
          simp only [readSmall, Function.update_same]
          rw [r1, hinit_cl, if_pos hfc]
          simp only [Option.map_some']
          refine ⟨?_, fun hno => Option.noConfusion hno, ?_⟩
          · apply stamp_small_WF h' slab (classCursor size)
              ((allocate_block (smallSlabInit (classCursor size))).2) _
              hwfr hal hpgb.1 hseg hrun hdesc hsid rrest.2 hcap'
            · intro q
              exact setPages_apply _ _ _ _ _
            · intro x
              show Function.update (Function.update h'.mem slab
                  (some (SlabMem.small (smallSlabInit (classCursor size)))))
                  slab (some (SlabMem.small (allocate_block
                    (smallSlabInit (classCursor size))).2)) x =
                if x = slab
                then some (SlabMem.small (allocate_block
                  (smallSlabInit (classCursor size))).2)
                else h'.mem x
              rw [Function.update_apply, Function.update_apply]
              split_ifs <;> rfl
            · rfl
            · intro c
              show Function.update (Function.update h'.slab_caches
                  (classCursor size)
                  (slab :: h'.slab_caches (classCursor size)))
                  (classCursor size)
                  ((slab :: h'.slab_caches (classCursor size)).erase slab)
                  c =
                if c = classCursor size then
                  (if (allocate_block
                      (smallSlabInit (classCursor size))).2.free_count = 0
                    then h'.slab_caches (classCursor size)
                    else slab :: h'.slab_caches (classCursor size))
                else h'.slab_caches c
              rw [List.erase_cons_head, if_pos hfc]
              rw [Function.update_apply, Function.update_apply]
              split_ifs <;> rfl
            · rfl
            · rfl
          · intro r hr
            have hre := Option.some.inj hr
            rw [smallBlockAddr] at hre
            have h8 := smallAlign8 (classCursor size) hcnum
            have hmul : idx * (getInfo (classCursor size)).block_size % 8 =
                0 := by
              rw [Nat.mul_mod, h8.2, Nat.mul_zero, Nat.zero_mod]
            simp only [PAGE_SIZE] at hal
            omega
        · -- the slab keeps free blocks and stays cached
          simp only [allocate, hcache, hevS]
          rw [if_neg h0, if_neg hH, if_neg hL]
          simp only [readSmall, Function.update_same]
          rw [r1, hinit_cl, if_neg hfc]
          simp only [Option.map_some']
          refine ⟨?_, fun hno => Option.noConfusion hno, ?_⟩
          · apply stamp_small_WF h' slab (classCursor size)
              ((allocate_block (smallSlabInit (classCursor size))).2) _
              hwfr hal hpgb.1 hseg hrun hdesc hsid rrest.2 hcap'
            · intro q
              exact setPages_apply _ _ _ _ _
            · intro x
              show Function.update (Function.update h'.mem slab
                  (some (SlabMem.small (smallSlabInit (classCursor size)))))
                  slab (some (SlabMem.small (allocate_block
                    (smallSlabInit (classCursor size))).2)) x =
                if x = slab
                then some (SlabMem.small (allocate_block
                  (smallSlabInit (classCursor size))).2)
                else h'.mem x
              rw [Function.update_apply, Function.update_apply]
              split_ifs <;> rfl
            · rfl
            · intro c
              show Function.update h'.slab_caches (classCursor size)
                  (slab :: h'.slab_caches (classCursor size)) c =
                if c = classCursor size then
                  (if (allocate_block
                      (smallSlabInit (classCursor size))).2.free_count = 0
                    then h'.slab_caches (classCursor size)
                    else slab :: h'.slab_caches (classCursor size))
                else h'.slab_caches c
              rw [if_neg hfc, Function.update_apply]
            · rfl
            · rfl
          · intro r hr
            have hre := Option.some.inj hr
            rw [smallBlockAddr] at hre
            have h8 := smallAlign8 (classCursor size) hcnum
            have hmul : idx * (getInfo (classCursor size)).block_size % 8 =
                0 := by
              rw [Nat.mul_mod, h8.2, Nat.mul_zero, Nat.zero_mod]
            simp only [PAGE_SIZE] at hal
            omega
    · -- cache hit
      obtain ⟨hW, idx, r1, ridx, rcid, hal⟩ :=
        small_hit_WF h (classCursor size) a t
          (if (allocate_block (readSmall h a)).2.free_count = 0 then
            { h with
              mem := Function.update h.mem a (some (SlabMem.small
                (allocate_block (readSmall h a)).2)),
              slab_caches := Function.update h.slab_caches (classCursor size)
                ((a :: t).erase a) }
          else
            { h with
              mem := Function.update h.mem a (some (SlabMem.small
                (allocate_block (readSmall h a)).2)) })
          hwf hcache
          (by split_ifs <;> rfl)
          (by
            intro x
            by_cases hfc : (allocate_block (readSmall h a)).2.free_count = 0
            · rw [if_pos hfc]
              exact Function.update_apply _ _ _ _
            · rw [if_neg hfc]
              exact Function.update_apply _ _ _ _)
          (by split_ifs <;> rfl)
          (by
            intro c
            by_cases hfc : (allocate_block (readSmall h a)).2.free_count = 0
            · rw [if_pos hfc, if_pos hfc, hcache]
              exact Function.update_apply _ _ _ _
            · rw [if_neg hfc, if_neg hfc])
          (by split_ifs <;> rfl)
          (by split_ifs <;> rfl)
      simp only [allocate, hcache]
      rw [if_neg h0, if_neg hH, if_neg hL]
      refine ⟨hW, ?_, ?_⟩
      · intro hno
        rw [r1, Option.map_some'] at hno
        exact Option.noConfusion hno
      · intro r hr
        rw [r1, Option.map_some'] at hr
        have hre := Option.some.inj hr
        rw [rcid] at hre
        rw [smallBlockAddr] at hre
        have h8 := smallAlign8 (classCursor size) hcnum
        have hmul : idx * (getInfo (classCursor size)).block_size % 8 =
            0 := by
          rw [Nat.mul_mod, h8.2, Nat.mul_zero, Nat.zero_mod]
        simp only [PAGE_SIZE] at hal
        omega

lemma freshOS_initial : FreshOS initialHeap (some SEGMENT_SIZE) := by
  intro b hb
  obtain rfl : SEGMENT_SIZE = b := Option.some.inj hb
  exact ⟨by decide, List.not_mem_nil _, List.not_mem_nil _⟩

lemma WF_LadderInv (h : Heap) (hwf : WF h) : LadderInv h := by
  have hZ : ∀ q, ¬ inR 0 0 q := by
    rintro q ⟨u1, u2⟩
    omega
  exact ⟨fun i a ha => ⟨(hwf.ladder_mem i a ha).1, hwf.ladder_desc i a ha⟩,
    hwf.ladder_nodup, hwf.ladder_once,
    fun i a ha hlt => (hwf.ladder_next i a ha hlt).resolve_right (hZ _),
    fun i a ha hgt => (hwf.ladder_prev i a ha hgt).resolve_right (hZ _)⟩

lemma remove_from_freelist_active (h : Heap) (o : Option Nat) :
    (remove_from_freelist h o).active_segments = h.active_segments := by
  cases o with
  | none => rfl
  | some a =>
    simp only [remove_from_freelist]
    split_ifs <;> rfl

lemma initialize_as_free_slab_active (h : Heap) (a n : Nat) :
    (initialize_as_free_slab h a n).active_segments =
      h.active_segments := rfl

lemma prepend_to_freelist_active (h : Heap) (a : Nat) :
    (prepend_to_freelist h a).active_segments = h.active_segments := by
  simp only [prepend_to_freelist]
  split_ifs <;> rfl

lemma release_slab_active (h : Heap) (p n : Nat) :
    (release_slab h p n).active_segments = h.active_segments := by
  simp only [release_slab]
  rw [prepend_to_freelist_active, initialize_as_free_slab_active]
  split_ifs <;> first
    | rfl
    | simp only [remove_from_freelist_active]

/-- C1: after every completed `allocate` and every completed `free` (on
an argument with defined behavior), each free run of `n` pages has all
`n` descriptors FREE pointing at the run start, a header recording `n`
pages, sits exactly once in ladder list `n - 1` only, and has no FREE
neighbor page (no two free runs are adjacent). -/
theorem C1_ladder_invariant (os : Option Nat) (h : Heap) (size p : Nat)
    (hwf : WF h) (hos : FreshOS h os) (hv : ValidFreeArg h p) :
    LadderInv (allocate os h size).2 ∧ LadderInv (free h p) :=
  ⟨WF_LadderInv _ (allocate_spec os h size hwf hos).1,
    WF_LadderInv _ (free_WF h p hwf hv)⟩

theorem C1_ladder_invariant_witness :
    LadderInv (allocate (some SEGMENT_SIZE) initialHeap 100).2 ∧
    LadderInv (free initialHeap 0) :=
  C1_ladder_invariant (some SEGMENT_SIZE) initialHeap 100 0 WF_initialHeap
    freshOS_initial (Or.inl rfl)

set_option maxRecDepth 40000 in
/-- C2 (counterexample): `allocate(16)` from a fresh heap returns a
pointer that is 8 mod 16, although `16 ≤ T_small` and
`class_of(16).block_size = 16`; and `allocate(262145)` (large regime)
returns a pointer that is 24 mod 4096, not page-aligned.  The claimed
alignments do not hold. -/
theorem C2_small_alignment_counterexample :
    (16 : Nat) ≤ MAX_SMALL_OBJECT_SIZE ∧
    (getInfo (classCursor 16)).block_size = 16 ∧
    (allocate (some SEGMENT_SIZE) initialHeap 16).1 = some 2109592 ∧
    2109592 % (getInfo (classCursor 16)).block_size = 8 ∧
    MAX_SMALL_OBJECT_SIZE < 262145 ∧
    (allocate (some SEGMENT_SIZE) initialHeap 262145).1 = some 2109464 ∧
    2109464 % PAGE_SIZE = 24 := by
  decide

/-- C2 (amended): every pointer `allocate` returns is 8-byte aligned
(small blocks sit at `slab + metadata + idx * block_size` with the
metadata size and every `block_size` multiples of 8, large pointers at
`slab + 24`, huge pointers at `segment + 12288`). -/
theorem C2_alignment_amended (os : Option Nat) (h : Heap) (size : Nat)
    (hwf : WF h) (hos : FreshOS h os) :
    ∀ r, (allocate os h size).1 = some r → r % 8 = 0 :=
  (allocate_spec os h size hwf hos).2.2

set_option maxRecDepth 40000 in
theorem C2_alignment_amended_witness :
    (allocate (some SEGMENT_SIZE) initialHeap 16).1 = some 2109592 ∧
    2109592 % 8 = 0 :=
  ⟨by decide, C2_alignment_amended (some SEGMENT_SIZE) initialHeap 16
    WF_initialHeap freshOS_initial 2109592 (by decide)⟩

/-- C6: the bitmap invariant — `free_count_` equal to the number of set
bits below the class's capacity, and no set bit at or beyond the
capacity in the words the slab uses — holds after construction, after
every `allocate_block`, and after every (asserted-valid) `free_block`. -/
theorem C6_small_bitmap_invariant (c : Nat) (s : SmallSlabState)
    (idx : Nat) (hc : c < numClasses) (hinv : SmallInv s)
    (hidx : idx < (getInfo s.slab_class_id).slab_capacity)
    (hbit : bitGet s.bitmap idx = false) :
    SmallInv (smallSlabInit c) ∧ SmallInv (allocate_block s).2 ∧
    SmallInv (free_block s idx) := by
  refine ⟨(smallSlabInit_inv c hc).1, ?_,
    (free_block_spec s idx hinv hidx hbit).2.2.2⟩
  by_cases hfc : s.free_count = 0
  · rw [allocate_block_full s hfc]
    exact hinv
  · obtain ⟨idx2, r1, ridx, rbit, rcls, rcnt, rrest⟩ :=
      allocate_block_some s hinv hfc
    exact rrest.2

set_option maxRecDepth 40000 in
theorem C6_small_bitmap_invariant_witness :
    SmallInv (smallSlabInit 87) ∧
    SmallInv (allocate_block (allocate_block (smallSlabInit 87)).2).2 ∧
    SmallInv (free_block (allocate_block (smallSlabInit 87)).2 0) :=
  C6_small_bitmap_invariant 87 (allocate_block (smallSlabInit 87)).2 0
    (by decide) (by decide) (by decide) (by decide)

/-- C7: `block_size` is strictly increasing in the class index, and for
every request size in `[1, T_small]` the table lookup returns the class
cursor, whose class is the least one with `block_size ≥ s` (every
earlier class has `block_size < s`). -/
theorem C7_size_class_table :
    (∀ i j, i < numClasses → j < i →
      (getInfo j).block_size < (getInfo i).block_size) ∧
    ∀ s, 1 ≤ s → s ≤ MAX_SMALL_OBJECT_SIZE →
      get_size_class_index s = some (classCursor s) ∧
      s ≤ (getInfo (classCursor s)).block_size ∧
      ∀ j, j < classCursor s → (getInfo j).block_size < s := by
  constructor
  · intro i j hi hj
    rw [numClasses_eq] at hi
    exact blockSize_lt_of_lt i (by omega) j hj
  · intro s h1 h2
    have h2' : s ≤ 262144 := by
      simp only [MAX_SMALL_OBJECT_SIZE] at h2
      omega
    obtain ⟨hc, hge, hlt⟩ := classCursor_spec s h1 h2'
    refine ⟨?_, hge, hlt⟩
    rw [get_size_class_index, if_neg (by omega)]

theorem C7_size_class_table_witness :
    (getInfo 2).block_size < (getInfo 5).block_size ∧
    get_size_class_index 16 = some (classCursor 16) :=
  ⟨C7_size_class_table.1 5 2 (by decide) (by decide),
    (C7_size_class_table.2 16 (by decide) (by decide)).1⟩

/-- C8: when the OS mapping primitive fails (modelled by `os = none` for
any call the operation would make), `allocate` returns null and every
observable heap component — descriptors, ladder, caches, segment lists —
is exactly as before the call. -/
theorem C8_oom_no_mutation (h : Heap) (size : Nat) (hwf : WF h) :
    (allocate none h size).1 = none →
      (allocate none h size).2.pageDesc = h.pageDesc ∧
      (allocate none h size).2.free_slabs = h.free_slabs ∧
      (allocate none h size).2.slab_caches = h.slab_caches ∧
      (allocate none h size).2.active_segments = h.active_segments ∧
      (allocate none h size).2.huge_segments = h.huge_segments := by
  intro hn
  have hos : FreshOS h none := fun b hb => Option.noConfusion hb
  have he := (allocate_spec none h size hwf hos).2.1 hn
  rw [he]
  exact ⟨rfl, rfl, rfl, rfl, rfl⟩

set_option maxRecDepth 40000 in
theorem C8_oom_no_mutation_witness :
    (allocate none initialHeap 300000).2.pageDesc = initialHeap.pageDesc ∧
    (allocate none initialHeap 300000).2.free_slabs =
      initialHeap.free_slabs ∧
    (allocate none initialHeap 300000).2.slab_caches =
      initialHeap.slab_caches ∧
    (allocate none initialHeap 300000).2.active_segments =
      initialHeap.active_segments ∧
    (allocate none initialHeap 300000).2.huge_segments =
      initialHeap.huge_segments :=
  C8_oom_no_mutation initialHeap 300000 WF_initialHeap (by decide)

/-- C9: after every completed `allocate` and `free`, every slab linked
in a slab-cache list has `free_count_ > 0` (full slabs are unlinked on
allocation and relinked only on the full → partial transition), so the
cache-hit `allocate_block` on a list head never returns null. -/
theorem C9_caches_partial (os : Option Nat) (h : Heap) (size p : Nat)
    (hwf : WF h) (hos : FreshOS h os) (hv : ValidFreeArg h p) :
    CachesPartial (allocate os h size).2 ∧ CachesPartial (free h p) :=
  ⟨WF_cache_ready _ (allocate_spec os h size hwf hos).1,
    WF_cache_ready _ (free_WF h p hwf hv)⟩

theorem C9_caches_partial_witness :
    CachesPartial (allocate (some SEGMENT_SIZE) initialHeap 24).2 ∧
    CachesPartial (free initialHeap 0) :=
  C9_caches_partial (some SEGMENT_SIZE) initialHeap 24 0 WF_initialHeap
    freshOS_initial (Or.inl rfl)

/-- C3 (counterexample): the huge path returns
`segment + segMetadataPages * PAGE_SIZE` = `segment + 12288`, not
`segment + segment_header_size` = `segment + 8232`: the user pointer is
at the first non-metadata page, not immediately after the header. -/
theorem C3_huge_return_counterexample :
    hugeObjectThreshold < 2080769 ∧
    (allocate (some SEGMENT_SIZE) initialHeap 2080769).1 =
      some (SEGMENT_SIZE + segMetadataPages * PAGE_SIZE) ∧
    SEGMENT_SIZE + segMetadataPages * PAGE_SIZE ≠
      SEGMENT_SIZE + segmentHeaderSize := by
  decide

/-- C3 (amended): for `size > T_huge` the huge path maps a segment of
`align_up(segment_header_size + size, P)` bytes, marks descriptor 0
HUGE_SLAB, links the segment into the huge list, and returns
`segment + segMetadataPages * P` (the first page past the metadata
pages), which differs from `segment + segment_header_size`. -/
theorem C3_huge_path_amended (h : Heap) (base size : Nat)
    (hH : size > hugeObjectThreshold) :
    (allocate (some base) h size).1 =
      some (base + segMetadataPages * PAGE_SIZE) ∧
    ((allocate (some base) h size).2.pageDesc (pageOf base)).status =
      PageStatus.HUGE_SLAB ∧
    (allocate (some base) h size).2.huge_segments =
      base :: h.huge_segments ∧
    (allocate (some base) h size).2.seg_length base =
      (segmentHeaderSize + size + PAGE_SIZE - 1) / PAGE_SIZE *
        PAGE_SIZE ∧
    segMetadataPages * PAGE_SIZE ≠ segmentHeaderSize := by
  have hs0 : ¬ size = 0 := by
    rw [hugeObjectThreshold_eq] at hH
    omega
  have hev : allocate (some base) h size =
      (some (base + segMetadataPages * PAGE_SIZE),
        { createSegment h base
            ((segmentHeaderSize + size + PAGE_SIZE - 1) / PAGE_SIZE *
              PAGE_SIZE) with
          pageDesc := Function.update
            (createSegment h base
              ((segmentHeaderSize + size + PAGE_SIZE - 1) / PAGE_SIZE *
                PAGE_SIZE)).pageDesc (pageOf base)
            ⟨PageStatus.HUGE_SLAB,
              ((createSegment h base
                ((segmentHeaderSize + size + PAGE_SIZE - 1) /
                  PAGE_SIZE * PAGE_SIZE)).pageDesc
                (pageOf base)).slab_ptr⟩,
          huge_segments := base :: (createSegment h base
            ((segmentHeaderSize + size + PAGE_SIZE - 1) / PAGE_SIZE *
              PAGE_SIZE)).huge_segments }) := by
    simp only [allocate]
    rw [if_neg hs0, if_pos hH]
  rw [hev]
  refine ⟨rfl, ?_, rfl, ?_, by decide⟩
  · show (Function.update
        (createSegment h base
          ((segmentHeaderSize + size + PAGE_SIZE - 1) / PAGE_SIZE *
            PAGE_SIZE)).pageDesc (pageOf base)
        ⟨PageStatus.HUGE_SLAB,
          ((createSegment h base
            ((segmentHeaderSize + size + PAGE_SIZE - 1) / PAGE_SIZE *
              PAGE_SIZE)).pageDesc (pageOf base)).slab_ptr⟩
        (pageOf base)).status = PageStatus.HUGE_SLAB
    rw [Function.update_same]
  · show Function.update h.seg_length base
      ((segmentHeaderSize + size + PAGE_SIZE - 1) / PAGE_SIZE *
        PAGE_SIZE) base = _
    rw [Function.update_same]

theorem C3_huge_path_amended_witness :
    (allocate (some SEGMENT_SIZE) initialHeap 2100000).1 =
      some (SEGMENT_SIZE + segMetadataPages * PAGE_SIZE) ∧
    ((allocate (some SEGMENT_SIZE) initialHeap 2100000).2.pageDesc
      (pageOf SEGMENT_SIZE)).status = PageStatus.HUGE_SLAB ∧
    (allocate (some SEGMENT_SIZE) initialHeap 2100000).2.huge_segments =
      SEGMENT_SIZE :: initialHeap.huge_segments ∧
    (allocate (some SEGMENT_SIZE) initialHeap 2100000).2.seg_length
      SEGMENT_SIZE =
      (segmentHeaderSize + 2100000 + PAGE_SIZE - 1) / PAGE_SIZE *
        PAGE_SIZE ∧
    segMetadataPages * PAGE_SIZE ≠ segmentHeaderSize :=
  C3_huge_path_amended initialHeap SEGMENT_SIZE 2100000 (by decide)

set_option maxRecDepth 100000 in
/-- C4 (counterexample): on a heap holding a live 65-page large slab at
`SEGMENT_SIZE + 3 * PAGE_SIZE`, the interior pointer one page past the
header (its descriptor's `slab_ptr` still names the header) is NOT
rejected by `free`: the call releases the slab, flipping the header
page's descriptor to FREE — heap state is modified. -/
theorem C4_interior_large_counterexample :
    (largeDemoHeap.pageDesc
      (pageOf (SEGMENT_SIZE + 4 * PAGE_SIZE))).slab_ptr =
      some (SEGMENT_SIZE + 3 * PAGE_SIZE) ∧
    (largeDemoHeap.pageDesc
      (pageOf (SEGMENT_SIZE + 3 * PAGE_SIZE))).status =
      PageStatus.LARGE_SLAB ∧
    pageOf (SEGMENT_SIZE + 3 * PAGE_SIZE) <
      pageOf (SEGMENT_SIZE + 4 * PAGE_SIZE) ∧
    ((free largeDemoHeap (SEGMENT_SIZE + 4 * PAGE_SIZE)).pageDesc
      (pageOf (SEGMENT_SIZE + 3 * PAGE_SIZE))).status =
      PageStatus.FREE := by
  decide

/-- C4 (amended): `free` on any non-null pointer whose page descriptor
names a page with LARGE_SLAB status as its header — interior pointers
to a live large slab included — releases the slab: it is routed to
`release_slab` on the header, not rejected. -/
theorem C4_interior_large_amended (h : Heap) (p a : Nat) (hp0 : p ≠ 0)
    (hhg : ¬ (h.pageDesc (pageOf (segment_of p))).status =
      PageStatus.HUGE_SLAB)
    (hptr : (h.pageDesc (pageOf p)).slab_ptr = some a)
    (hsta : (h.pageDesc (pageOf a)).status = PageStatus.LARGE_SLAB) :
    free h p = release_slab h a (readLargePages h a) :=
  free_dispatch_large h p a hp0 hhg hptr hsta

set_option maxRecDepth 40000 in
theorem C4_interior_large_amended_witness :
    free largeDemoHeap (SEGMENT_SIZE + 4 * PAGE_SIZE) =
      release_slab largeDemoHeap (SEGMENT_SIZE + 3 * PAGE_SIZE)
        (readLargePages largeDemoHeap (SEGMENT_SIZE + 3 * PAGE_SIZE)) :=
  C4_interior_large_amended largeDemoHeap (SEGMENT_SIZE + 4 * PAGE_SIZE)
    (SEGMENT_SIZE + 3 * PAGE_SIZE) (by decide) (by decide) (by decide)
    (by decide)

/-- C5: releasing a live run coalesces with both FREE neighbors exactly
as specified — the forward neighbor run (when inside the segment and
FREE) is unlinked from the ladder and its length accumulated, the
backward neighbor run (when past the metadata region and FREE) is
unlinked, accumulated, and becomes the new start, and the merged run is
reinitialized (every descriptor FREE naming the final start, a fresh
header with the merged page count) and prepended to its ladder list. -/
theorem C5_release_coalescing (h : Heap) (p n : Nat)
    (hwf : WFr h (pageOf p) n)
    (ha : p % PAGE_SIZE = 0) (hn : 1 ≤ n) (hn5 : n ≤ 509)
    (hb : segment_of p ∈ h.active_segments)
    (hrun : runInSeg (segment_of p) p n)
    (hdescR : ∀ k, k < n → (h.pageDesc (pageOf p + k)).slab_ptr = some p)
    (hpcache : ∀ c, p ∉ h.slab_caches c) :
    WF (release_slab h p n) ∧
    ∃ S N,
      S % PAGE_SIZE = 0 ∧ 1 ≤ N ∧
      pageOf S ≤ pageOf p ∧ pageOf p + n ≤ pageOf S + N ∧
      (∀ k, k < N → (release_slab h p n).pageDesc (pageOf S + k) =
        ⟨PageStatus.FREE, some S⟩) ∧
      (release_slab h p n).mem S = some (SlabMem.large N) ∧
      (∃ t, (release_slab h p n).free_slabs (N - 1) = S :: t) ∧
      ((p + n * PAGE_SIZE < segment_of p + SEGMENT_SIZE ∧
          (h.pageDesc (pageOf p + n)).status = PageStatus.FREE) →
        ∃ x jx, (h.pageDesc (pageOf p + n)).slab_ptr = some x ∧
          x ∈ h.free_slabs jx ∧
          (∀ j, x ∉ (release_slab h p n).free_slabs j) ∧
          pageOf S + N = pageOf p + n + (jx + 1)) ∧
      ((¬ (p + n * PAGE_SIZE < segment_of p + SEGMENT_SIZE ∧
          (h.pageDesc (pageOf p + n)).status = PageStatus.FREE)) →
        pageOf S + N = pageOf p + n) ∧
      ((segment_of p + segMetadataPages * PAGE_SIZE < p ∧
          (h.pageDesc (pageOf p - 1)).status = PageStatus.FREE) →
        ∃ y jy, (h.pageDesc (pageOf p - 1)).slab_ptr = some y ∧
          y ∈ h.free_slabs jy ∧ S = y ∧ pageOf y + (jy + 1) = pageOf p) ∧
      ((¬ (segment_of p + segMetadataPages * PAGE_SIZE < p ∧
          (h.pageDesc (pageOf p - 1)).status = PageStatus.FREE)) →
        S = p) :=
  release_slab_spec h p n hwf ha hn hn5 hb hrun hdescR hpcache

set_option maxRecDepth 100000 in
theorem C5_release_coalescing_witness :
    WF (release_slab largeDemoHeap (SEGMENT_SIZE + 3 * PAGE_SIZE) 65) :=
  (C5_release_coalescing largeDemoHeap (SEGMENT_SIZE + 3 * PAGE_SIZE) 65
    (large_detach_WFr largeDemoHeap (SEGMENT_SIZE + 3 * PAGE_SIZE) 65
      (allocate_spec (some SEGMENT_SIZE) initialHeap 262145
        WF_initialHeap freshOS_initial).1
      (by decide) (by decide) (by decide))
    (by decide) (by decide) (by decide) (by decide)
    ⟨by decide, by decide⟩ (by decide)
    (fun c => List.not_mem_nil _)).1

/-- C10: `free` on a pointer whose page descriptor still names a freed
(FREE-status) run start takes the dispatch switch's default branch: the
call is a silent no-op.  In particular, freeing a live large slab and
then freeing the same user pointer again leaves the heap of the first
`free` untouched. -/
theorem C10_stale_free_noop (h : Heap) (p a : Nat) (hwf : WF h)
    (hp0 : p ≠ 0)
    (hseg : segment_of p ∈ h.active_segments)
    (hLst : (h.pageDesc (pageOf p)).status = PageStatus.LARGE_SLAB)
    (hptr : (h.pageDesc (pageOf p)).slab_ptr = some a) :
    free (free h p) p = free h p := by
  have hZ : ∀ q, ¬ inR 0 0 q := by
    rintro q ⟨u1, u2⟩
    omega
  obtain ⟨a1, n, g1, g2, g3, g4, g5, g6, g7, g8⟩ :=
    hwf.large_wf (pageOf p) hLst (hZ _)
  rw [hptr] at g1
  obtain rfl : a = a1 := Option.some.inj g1
  have hsta : (h.pageDesc (pageOf a)).status = PageStatus.LARGE_SLAB := by
    have hx := (g7 0 (by omega)).1
    rw [Nat.add_zero] at hx
    rw [hx]
  have hhg : ¬ (h.pageDesc (pageOf (segment_of p))).status =
      PageStatus.HUGE_SLAB := by
    have hx := hwf.active_meta _ hseg 0 (by decide)
    rw [Nat.add_zero] at hx
    rw [hx]
    intro hc
    exact PageStatus.noConfusion hc
  have hread : readLargePages h a = n := by
    rw [readLargePages, g2]
  have hev1 : free h p = release_slab h a n := by
    rw [free_dispatch_large h p a hp0 hhg hptr hsta, hread]
  obtain ⟨b, hbm, hrn⟩ := g8
  have hbal := hwf.active_aligned b hbm
  have hsegb : segment_of a = b := run_seg_eq b a n hbal hrn g4
  have hn5 : n ≤ 509 := by
    have hx := run_len_le b a n hbal hrn
    simp only [PAGES_PER_SEGMENT, SEGMENT_SIZE, PAGE_SIZE,
      segMetadataPages, segmentHeaderSize] at hx
    omega
  obtain ⟨hwf2, S, N, hSal, hN1, hSa, haN, hSdesc, hSmem, hShead, hrest⟩ :=
    release_slab_spec h a n
      (large_detach_WFr h a n hwf g2 g4 (fun k hk => (g7 k hk).1))
      g3 g4 hn5 (by rw [hsegb]; exact hbm) (by rw [hsegb]; exact hrn)
      (fun k hk => by rw [(g7 k hk).1])
      (by
        intro c hc
        have hs := (hwf.cache_wf c a hc).1
        rw [hsta] at hs
        exact PageStatus.noConfusion hs)
  rw [hev1]
  have hdp := hSdesc (pageOf p - pageOf S) (by omega)
  rw [show pageOf S + (pageOf p - pageOf S) = pageOf p by omega] at hdp
  have hdS := hSdesc 0 (by omega)
  rw [Nat.add_zero] at hdS
  have hhg2 : ¬ ((release_slab h a n).pageDesc
      (pageOf (segment_of p))).status = PageStatus.HUGE_SLAB := by
    have hseg2 : segment_of p ∈ (release_slab h a n).active_segments := by
      rw [release_slab_active]
      exact hseg
    have hx := hwf2.active_meta _ hseg2 0 (by decide)
    rw [Nat.add_zero] at hx
    rw [hx]
    intro hc
    exact PageStatus.noConfusion hc
  exact free_dispatch_free (release_slab h a n) p S hp0 hhg2
    (by rw [hdp]) (by rw [hdS])

set_option maxRecDepth 40000 in
theorem C10_stale_free_noop_witness :
    free (free largeDemoHeap (SEGMENT_SIZE + 3 * PAGE_SIZE + 24))
        (SEGMENT_SIZE + 3 * PAGE_SIZE + 24) =
      free largeDemoHeap (SEGMENT_SIZE + 3 * PAGE_SIZE + 24) :=
  C10_stale_free_noop largeDemoHeap (SEGMENT_SIZE + 3 * PAGE_SIZE + 24)
    (SEGMENT_SIZE + 3 * PAGE_SIZE)
    (allocate_spec (some SEGMENT_SIZE) initialHeap 262145
      WF_initialHeap freshOS_initial).1
    (by decide) (by decide) (by decide) (by decide)

end MyMalloc
